import Mathlib

/-!
# LumaParser: the recursive-descent parser of `parser/parser.go`

A shallow embedding of the parser (`Parser`, `currentToken`, `nextToken`, `Parse`,
`parseEntity`, `parseRelationship`, `parseClass`, `parseMember`, `parseField`,
`parseMethod`, `parseInterface`) together with theorems about it.

The parser's only mutable state is the cursor `pos`; every Go method becomes a function
from the parser state to a result `Res` that carries the state it leaves behind.
The `lexer` package and the `ASTNode` declaration are not part of `parser.go`; the lexer's
two functions are parameters (`Lexer`), its data types are modelled from the specification.
-/

namespace LumaParser

/-! ## Data model -/

/-- Modelled from the spec: the lexer's `TokenKind` enumeration, which `parser.go` only
uses. The constructors are the kinds `parser.go` names; every other kind of the lexer
(the relationship operators among them) is an `OTHER` with its own code. -/
inductive TokenKind where
  | EOF
  | IDENTIFIER
  | QUOTATION
  | CLASS
  | INTERFACE
  | LBRACE
  | RBRACE
  | LPAREN
  | RPAREN
  | LBRACKET
  | RBRACKET
  | COLON
  | EQUALS
  | COMMA
  | DASH
  | POUND
  | PLUS
  | TILDE
  | OTHER (code : Nat)
  deriving DecidableEq, Repr

/-- Modelled from the spec: the lexer's `Token`, a kind and the literal text. -/
structure Token where
  Kind : TokenKind
  Value : String
  deriving DecidableEq, Repr

/-- The two functions of the `lexer` package that `parser.go` calls. Their bodies are not
in the repository's parser file, so they are parameters of the embedding. -/
structure Lexer where
  TokenKindName : TokenKind → String
  IsRelationshipKind : TokenKind → Bool

/-- Modelled from the spec: the `Type` discriminant of an AST node. -/
inductive NodeType where
  | ROOT
  | CLASS
  | INTERFACE
  | FIELD
  | METHOD
  | RELATIONSHIP
  deriving DecidableEq, Repr

/-- Modelled from the spec: the single `ASTNode` struct, with the fields `parser.go`
reads and writes (`Typ` is Go's `Type`). -/
structure ASTNode where
  Typ : NodeType
  Name : String
  Children : List ASTNode
  Visibility : String
  ValueType : String
  Default : String
  ReturnType : String
  Parameters : List ASTNode
  SourceClass : String
  TargetClass : String
  RelationshipType : String
  LeftLabel : String
  MiddleLabel : String
  RightLabel : String

/-- The Go composite literal `ASTNode{Type: t}`: every other field has its zero value. -/
def ASTNode.zero (t : NodeType) : ASTNode :=
  { Typ := t, Name := "", Children := [], Visibility := "", ValueType := "",
    Default := "", ReturnType := "", Parameters := [], SourceClass := "",
    TargetClass := "", RelationshipType := "", LeftLabel := "", MiddleLabel := "",
    RightLabel := "" }

/-- The parser state: `type Parser struct { tokens []lexer.Token; pos int }`. -/
structure Parser where
  tokens : List Token
  pos : Nat

/-- The ways a parser method can end. `ok` and `error` are the two Go returns
`(node, nil)` and `(nil, err)`; `outOfRange` is the runtime panic of `tokens[pos]`;
`outOfFuel` stands for a `for` loop that has not finished within the iteration bound. -/
inductive Res (α : Type) where
  | ok (val : α) (p : Parser)
  | error (msg : String) (p : Parser)
  | outOfRange
  | outOfFuel

/-- A parser method: a function of the parser state. -/
def M (α : Type) : Type := Parser → Res α

/-- Sequencing of two parser methods; anything but `ok` ends the run. -/
def M.bind {α β : Type} (x : M α) (f : α → M β) : M β := fun p =>
  match x p with
  | .ok a p1 => f a p1
  | .error msg p1 => .error msg p1
  | .outOfRange => .outOfRange
  | .outOfFuel => .outOfFuel

/-- A method that returns `a` and leaves the state alone. -/
def M.pure {α : Type} (a : α) : M α := fun p => .ok a p

instance : Monad M where
  pure := M.pure
  bind := M.bind

/-- The Go statement `return nil, fmt.Errorf(msg)`. -/
def fail {α : Type} (msg : String) : M α := fun p => .error msg p

/-- The iteration bound given to each `for` loop: one more than the number of tokens. -/
def loopFuel : M Nat := fun p => .ok (p.tokens.length + 1) p

/-! ## Cursor -/

/-- `func NewParser(tokens []lexer.Token) *Parser`. -/
def NewParser (tokens : List Token) : Parser :=
  { tokens := tokens, pos := 0 }

/-- `func (p *Parser) currentToken() lexer.Token`: `p.tokens[p.pos]`. -/
def currentToken : M Token := fun p =>
  match p.tokens[p.pos]? with
  | some t => .ok t p
  | none => .outOfRange

/-- `func (p *Parser) currentTokenKind() lexer.TokenKind`. -/
def currentTokenKind : M TokenKind := do
  let t ← currentToken
  pure t.Kind

/-- `func (p *Parser) nextToken() lexer.Token`. -/
def nextToken : M Token := fun p =>
  if p.pos < p.tokens.length - 1 then
    currentToken { p with pos := p.pos + 1 }
  else
    currentToken p

/-- The statement `p.nextToken()`: every caller in `parser.go` discards the token that
`nextToken` returns. -/
def advance : M Unit := do
  let _ ← nextToken
  pure ()

/-! ## Grammar rules -/

/-- `func (p *Parser) parseRelationship() (*ASTNode, error)`. -/
def parseRelationship (L : Lexer) : M ASTNode := do
  let sourceToken ← currentToken
  if sourceToken.Kind ≠ TokenKind.IDENTIFIER then
    fail ("expected token type: " ++ L.TokenKindName sourceToken.Kind ++ ", token value: "
      ++ sourceToken.Value ++ " in relationship, expected: IDENTIFIER")
  else
    let relationshipNode : ASTNode :=
      { ASTNode.zero NodeType.RELATIONSHIP with SourceClass := sourceToken.Value }
    advance
    let leftToken ← currentToken
    let relationshipNode ←
      (if leftToken.Kind = TokenKind.QUOTATION then do
        advance
        pure { relationshipNode with LeftLabel := leftToken.Value }
      else
        pure relationshipNode)
    let relationshipToken ← currentToken
    if ¬ L.IsRelationshipKind relationshipToken.Kind then
      fail ("expected relationship token, got token type of:"
        ++ L.TokenKindName relationshipToken.Kind ++ " and value of: "
        ++ relationshipToken.Value)
    else
      let relationshipNode : ASTNode :=
        { relationshipNode with
          RelationshipType := L.TokenKindName relationshipToken.Kind }
      advance
      let rightToken ← currentToken
      let relationshipNode ←
        (if rightToken.Kind = TokenKind.QUOTATION then do
          advance
          pure { relationshipNode with RightLabel := rightToken.Value }
        else
          pure relationshipNode)
      let targetToken ← currentToken
      if targetToken.Kind ≠ TokenKind.IDENTIFIER then
        fail ("expected source class name in relationship, got: " ++ targetToken.Value)
      else
        let relationshipNode : ASTNode :=
          { relationshipNode with TargetClass := targetToken.Value }
        advance
        let colonToken ← currentToken
        if colonToken.Kind = TokenKind.COLON then
          advance
          let middleToken ← currentToken
          if middleToken.Kind ≠ TokenKind.QUOTATION then
            fail ("expected Quotation token for middle label on relationship, got token type of:"
              ++ L.TokenKindName relationshipToken.Kind ++ " and value of: "
              ++ relationshipToken.Value)
          else
            let relationshipNode : ASTNode :=
              { relationshipNode with MiddleLabel := middleToken.Value }
            advance
            pure { relationshipNode with
              Name := sourceToken.Value ++ " " ++ relationshipToken.Value ++ " "
                ++ targetToken.Value }
        else
          pure { relationshipNode with
            Name := sourceToken.Value ++ " " ++ relationshipToken.Value ++ " "
              ++ targetToken.Value }

/-- `func (p *Parser) parseField(name string, visibility string) (*ASTNode, error)`. -/
def parseField (name : String) (visibility : String) : M ASTNode := do
  let k ← currentTokenKind
  let valueType ←
    (if k = TokenKind.COLON then do
      advance
      let typeToken ← currentToken
      if typeToken.Kind ≠ TokenKind.IDENTIFIER then
        fail ("expected Identifier after colon in property, got " ++ typeToken.Value)
      else
        let valueType := typeToken.Value
        advance
        let open_ ← currentToken
        if open_.Kind = TokenKind.LBRACKET then
          let valueType := valueType ++ open_.Value
          advance
          let close_ ← currentToken
          if close_.Kind ≠ TokenKind.RBRACKET then
            fail ("expected ] after [ in field type decleration, got " ++ close_.Value)
          else
            let valueType := valueType ++ close_.Value
            advance
            pure valueType
        else
          pure valueType
    else
      pure "")
  let k ← currentTokenKind
  let defaultValue ←
    (if k = TokenKind.EQUALS then do
      advance
      let valueToken ← currentToken
      if valueToken.Kind ≠ TokenKind.IDENTIFIER then
        fail ("expected Identifier after equals in property, got " ++ valueToken.Value)
      else
        advance
        pure valueToken.Value
    else
      pure "")
  pure { ASTNode.zero NodeType.FIELD with
    Name := name, Visibility := visibility, ValueType := valueType,
    Default := defaultValue }

/-- The `for` loop of `parseMethod` over the parameter list; `methodNode` is the node
built so far. -/
def parseParameters : Nat → ASTNode → M ASTNode
  | 0, _ => fun _ => Res.outOfFuel
  | fuel + 1, methodNode => do
    let k ← currentTokenKind
    if k ≠ TokenKind.RPAREN ∧ k ≠ TokenKind.EOF then
      let nameToken ← currentToken
      if nameToken.Kind = TokenKind.IDENTIFIER then
        advance
        let propertyNode ← parseField nameToken.Value ""
        let methodNode : ASTNode :=
          { methodNode with Parameters := methodNode.Parameters ++ [propertyNode] }
        let k ← currentTokenKind
        if k = TokenKind.COMMA then
          advance
          parseParameters fuel methodNode
        else
          parseParameters fuel methodNode
      else
        fail ("expected parameter name or ), got " ++ nameToken.Value)
    else
      pure methodNode

/-- `func (p *Parser) parseMethod(name string, visibility string) (*ASTNode, error)`. -/
def parseMethod (name : String) (visibility : String) : M ASTNode := do
  let methodNode : ASTNode :=
    { ASTNode.zero NodeType.METHOD with Name := name, Visibility := visibility }
  advance
  let fuel ← loopFuel
  let methodNode ← parseParameters fuel methodNode
  let closeToken ← currentToken
  if closeToken.Kind ≠ TokenKind.RPAREN then
    fail ("expected ) after method parameters, got " ++ closeToken.Value)
  else
    advance
    let k ← currentTokenKind
    if k = TokenKind.COLON then
      advance
      let typeToken ← currentToken
      if typeToken.Kind ≠ TokenKind.IDENTIFIER then
        fail ("expected Identifier after colon in property, got " ++ typeToken.Value)
      else
        let returnType := typeToken.Value
        advance
        let open_ ← currentToken
        if open_.Kind = TokenKind.LBRACKET then
          let returnType := returnType ++ open_.Value
          advance
          let close_ ← currentToken
          if close_.Kind ≠ TokenKind.RBRACKET then
            fail ("expected ] after [ in field type decleration, got " ++ close_.Value)
          else
            let returnType := returnType ++ close_.Value
            advance
            pure { methodNode with ReturnType := returnType }
        else
          pure { methodNode with ReturnType := returnType }
    else
      pure methodNode

/-- `func (p *Parser) parseMember() (*ASTNode, error)`. -/
def parseMember : M ASTNode := do
  let first ← currentToken
  let visibility ←
    (if first.Kind = TokenKind.DASH ∨ first.Kind = TokenKind.POUND ∨
        first.Kind = TokenKind.PLUS ∨ first.Kind = TokenKind.TILDE then do
      advance
      pure first.Value
    else
      pure "")
  let nameToken ← currentToken
  if nameToken.Kind ≠ TokenKind.IDENTIFIER then
    fail ("expected Identifier in property, got " ++ nameToken.Value)
  else
    let name := nameToken.Value
    advance
    let k ← currentTokenKind
    if k = TokenKind.LPAREN then
      parseMethod name visibility
    else
      parseField name visibility

/-- The `for` loop of `parseClass` over the members of the brace block. -/
def parseMembers : Nat → ASTNode → M ASTNode
  | 0, _ => fun _ => Res.outOfFuel
  | fuel + 1, classNode => do
    let k ← currentTokenKind
    if k ≠ TokenKind.EOF ∧ k ≠ TokenKind.RBRACE then
      let propertyNode ← parseMember
      parseMembers fuel
        { classNode with Children := classNode.Children ++ [propertyNode] }
    else
      pure classNode

/-- `func (p *Parser) parseClass() (*ASTNode, error)`. -/
def parseClass : M ASTNode := do
  advance
  let nameToken ← currentToken
  if nameToken.Kind ≠ TokenKind.IDENTIFIER then
    fail ("expected class name, got :" ++ nameToken.Value)
  else
    let classNode : ASTNode := { ASTNode.zero NodeType.CLASS with Name := nameToken.Value }
    advance
    let k ← currentTokenKind
    if k = TokenKind.LBRACE then
      advance
      let fuel ← loopFuel
      let classNode ← parseMembers fuel classNode
      let closeToken ← currentToken
      if closeToken.Kind ≠ TokenKind.RBRACE then
        fail ("expected '\x7d' got " ++ closeToken.Value)
      else
        advance
        pure classNode
    else
      pure classNode

/-- `func (p *Parser) parseInterface() (*ASTNode, error)`. -/
def parseInterface : M ASTNode := do
  advance
  let nameToken ← currentToken
  if nameToken.Kind ≠ TokenKind.IDENTIFIER then
    fail ("expected identifier in interface, got " ++ nameToken.Value)
  else
    let interfaceNode : ASTNode :=
      { ASTNode.zero NodeType.INTERFACE with Name := nameToken.Value }
    advance
    pure interfaceNode

/-- `func (p *Parser) parseEntity() (*ASTNode, error)`. -/
def parseEntity (L : Lexer) : M ASTNode := do
  let token ← currentToken
  match token.Kind with
  | TokenKind.CLASS => parseClass
  | TokenKind.INTERFACE => parseInterface
  | TokenKind.IDENTIFIER => parseRelationship L
  | _ =>
    fail ("unexpected token: " ++ L.TokenKindName token.Kind ++ ", Token value: "
      ++ token.Value)

/-- The `for` loop of `Parse` over the top-level entities. -/
def parseEntities (L : Lexer) : Nat → ASTNode → M ASTNode
  | 0, _ => fun _ => Res.outOfFuel
  | fuel + 1, root => do
    let k ← currentTokenKind
    if k ≠ TokenKind.EOF then
      let node ← parseEntity L
      parseEntities L fuel { root with Children := root.Children ++ [node] }
    else
      pure root

/-- `func (p *Parser) Parse() (*ASTNode, error)`. -/
def Parse (L : Lexer) : M ASTNode := do
  let root : ASTNode := { ASTNode.zero NodeType.ROOT with Name := "root" }
  let fuel ← loopFuel
  parseEntities L fuel root

/-! ## Sample lexer and inputs -/

/-- A lexer for the examples: the kinds `OTHER 0` to `OTHER 5` are the relationship
operators, and every kind is rendered as its enumeration name. -/
def sampleLexer : Lexer where
  TokenKindName
    | TokenKind.EOF => "EOF"
    | TokenKind.IDENTIFIER => "IDENTIFIER"
    | TokenKind.QUOTATION => "QUOTATION"
    | TokenKind.CLASS => "CLASS"
    | TokenKind.INTERFACE => "INTERFACE"
    | TokenKind.LBRACE => "LBRACE"
    | TokenKind.RBRACE => "RBRACE"
    | TokenKind.LPAREN => "LPAREN"
    | TokenKind.RPAREN => "RPAREN"
    | TokenKind.LBRACKET => "LBRACKET"
    | TokenKind.RBRACKET => "RBRACKET"
    | TokenKind.COLON => "COLON"
    | TokenKind.EQUALS => "EQUALS"
    | TokenKind.COMMA => "COMMA"
    | TokenKind.DASH => "DASH"
    | TokenKind.POUND => "POUND"
    | TokenKind.PLUS => "PLUS"
    | TokenKind.TILDE => "TILDE"
    | TokenKind.OTHER 0 => "INHERITANCE"
    | TokenKind.OTHER 1 => "COMPOSITION"
    | TokenKind.OTHER 2 => "AGGREGATION"
    | TokenKind.OTHER 3 => "ASSOCIATION"
    | TokenKind.OTHER 4 => "DEPENDENCY"
    | TokenKind.OTHER 5 => "REALIZATION"
    | TokenKind.OTHER _ => "ILLEGAL"
  IsRelationshipKind
    | TokenKind.OTHER n => decide (n < 6)
    | _ => false

/-! ## Shapes used in the statements -/

/-- The `ROOT` node that `Parse` returns when the entities parsed are `children`. -/
def rootOf (children : List ASTNode) : ASTNode :=
  { ASTNode.zero NodeType.ROOT with Name := "root", Children := children }

/-- The tokens of a parameter list `name_1 : type_1 , ... , name_k : type_k`. -/
def paramTokens : List (String × String) → List Token
  | [] => []
  | [(n, t)] => [⟨TokenKind.IDENTIFIER, n⟩, ⟨TokenKind.COLON, ":"⟩, ⟨TokenKind.IDENTIFIER, t⟩]
  | (n, t) :: q :: ps =>
    ⟨TokenKind.IDENTIFIER, n⟩ :: ⟨TokenKind.COLON, ":"⟩ :: ⟨TokenKind.IDENTIFIER, t⟩ ::
      ⟨TokenKind.COMMA, ","⟩ :: paramTokens (q :: ps)

/-- The `FIELD` node of the parameter `name : type`. -/
def paramNode (d : String × String) : ASTNode :=
  { ASTNode.zero NodeType.FIELD with Name := d.1, ValueType := d.2 }

/-- The tokens of the member `f ( name_1 : type_1 , ... , name_k : type_k ) : t [ ]`. -/
def methodTokens (f : String) (ps : List (String × String)) (t : String) : List Token :=
  ⟨TokenKind.IDENTIFIER, f⟩ :: ⟨TokenKind.LPAREN, "("⟩ ::
    (paramTokens ps ++ [⟨TokenKind.RPAREN, ")"⟩, ⟨TokenKind.COLON, ":"⟩,
      ⟨TokenKind.IDENTIFIER, t⟩, ⟨TokenKind.LBRACKET, "["⟩, ⟨TokenKind.RBRACKET, "]"⟩])

/-- The `METHOD` node expected for `methodTokens f ps t`. -/
def methodNode (f : String) (ps : List (String × String)) (t : String) : ASTNode :=
  { ASTNode.zero NodeType.METHOD with
    Name := f, ReturnType := t ++ "[]", Parameters := ps.map paramNode }

/-- The tokens of the member `[v] n : t [ ] = d`, with the visibility token optional. -/
def fieldTokens (v : Option Token) (n t d : String) : List Token :=
  v.toList ++ [⟨TokenKind.IDENTIFIER, n⟩, ⟨TokenKind.COLON, ":"⟩, ⟨TokenKind.IDENTIFIER, t⟩,
    ⟨TokenKind.LBRACKET, "["⟩, ⟨TokenKind.RBRACKET, "]"⟩, ⟨TokenKind.EQUALS, "="⟩,
    ⟨TokenKind.IDENTIFIER, d⟩]

/-- A visibility marker: a token of kind `DASH`, `POUND`, `PLUS` or `TILDE`. -/
def IsVisibility (k : TokenKind) : Prop :=
  k = TokenKind.DASH ∨ k = TokenKind.POUND ∨ k = TokenKind.PLUS ∨ k = TokenKind.TILDE

/-! ## Two runs over a shared window

The locality of the parser is stated for two token sequences that share a window `W` of
tokens: in `T` the window is followed by the token `y`, in `T'` by the token `x`. A run
that starts inside the window of `T` and ends in it (or on `y`) is repeated, token for
token, by the run on `T'`. With `T' = T` the same statement bounds a single run. -/

/-- A token kind that starts none of the optional continuations of a grammar rule
(a label, a `:` annotation, a brace block, a parameter list, an array suffix, a default
value, a further parameter). -/
def Quiet (k : TokenKind) : Prop :=
  k ≠ TokenKind.QUOTATION ∧ k ≠ TokenKind.COLON ∧ k ≠ TokenKind.LBRACE ∧
  k ≠ TokenKind.LPAREN ∧ k ≠ TokenKind.LBRACKET ∧ k ≠ TokenKind.EQUALS ∧
  k ≠ TokenKind.COMMA

/-- The kinds on which the member loop of `parseClass` stops. -/
def Closing (k : TokenKind) : Prop :=
  k = TokenKind.EOF ∨ k = TokenKind.RBRACE

/-- The kinds on which the parameter loop of `parseMethod` stops. -/
def ClosingParams (k : TokenKind) : Prop :=
  k = TokenKind.RPAREN ∨ k = TokenKind.EOF

/-- The error messages that report only the literal value of the token they stop at:
the fixed text in front of the value. -/
def valuePrefixes : List String :=
  [ "expected source class name in relationship, got: ",
    "expected class name, got :",
    "expected '\x7d' got ",
    "expected Identifier in property, got ",
    "expected Identifier after colon in property, got ",
    "expected ] after [ in field type decleration, got ",
    "expected Identifier after equals in property, got ",
    "expected parameter name or ), got ",
    "expected ) after method parameters, got ",
    "expected identifier in interface, got " ]

/-- The text that opens the error for a `:` without a quoted label after it. -/
def middleLabelPrefix : String :=
  "expected Quotation token for middle label on relationship, got token type of:"

/-- What an error message says about the token `tok` under the cursor: it is the
middle-label message, or a fixed text followed by the value of `tok`, or a text that
has the kind name of `tok` and then its value. -/
def Reports (L : Lexer) (msg : String) (tok : Token) : Prop :=
  (∃ s, msg = middleLabelPrefix ++ s) ∨
  (∃ pre, pre ∈ valuePrefixes ∧ msg = pre ++ tok.Value) ∨
  (∃ pre mid suf, (pre = "unexpected token: " ∨
        pre = "expected relationship token, got token type of:" ∨
        pre = "expected token type: ") ∧
      msg = pre ++ L.TokenKindName tok.Kind ++ mid ++ tok.Value ++ suf)

/-- The setting of two runs: the token sequences `T` and `T'`, the token `y` that follows
the shared window in `T` and closes the construct there, and the token `x` that follows
it in `T'`. -/
structure Frame where
  L : Lexer
  T : List Token
  T' : List Token
  y : Token
  x : Token
  R : List Token
  R' : List Token
  hy : Closing y.Kind
  hx : Quiet x.Kind

/-- The cursors `n` of `T` and `n'` of `T'` stand at the start of the window `W`. -/
def Frame.Here (F : Frame) (W : List Token) (n n' : Nat) : Prop :=
  F.T.drop n = W ++ F.y :: F.R ∧ F.T'.drop n' = W ++ F.x :: F.R'

/-- The result `r` of a run on `T` from the start of the window `W`, and the result `r'`
of the run on `T'`: a success passes at least `d` tokens, ends in the window or on `y`
and is repeated by the run on `T'` over the same number of tokens; a failure stops in
the window or on `y` with a message about the token there; nothing else happens. -/
def Frame.Outcome (F : Frame) {α : Type} (d : Nat) (W : List Token) (n n' : Nat)
    (r r' : Res α) : Prop :=
  match r with
  | Res.ok v q => ∃ j, d ≤ j ∧ j ≤ W.length ∧ q = ⟨F.T, n + j⟩ ∧
      r' = Res.ok v ⟨F.T', n' + j⟩
  | Res.error m q => ∃ j tok, j ≤ W.length ∧ q = ⟨F.T, n + j⟩ ∧
      (W ++ [F.y])[j]? = some tok ∧ Reports F.L m tok
  | Res.outOfRange => False
  | Res.outOfFuel => False

/-- The result of a loop on `T` from the start of the window `W`: as `Outcome`, but a
loop that stops on a token of a kind in `E` may stop on `y` itself, and then nothing is
said of the run on `T'`. -/
def Frame.LoopOutcome (F : Frame) {α : Type} (E : TokenKind → Prop) (W : List Token)
    (n n' : Nat) (r r' : Res α) : Prop :=
  match r with
  | Res.ok v q => ∃ j tok, j ≤ W.length ∧ q = ⟨F.T, n + j⟩ ∧
      (W ++ [F.y])[j]? = some tok ∧ E tok.Kind ∧
      (j = W.length ∨ r' = Res.ok v ⟨F.T', n' + j⟩)
  | Res.error m q => ∃ j tok, j ≤ W.length ∧ q = ⟨F.T, n + j⟩ ∧
      (W ++ [F.y])[j]? = some tok ∧ Reports F.L m tok
  | Res.outOfRange => False
  | Res.outOfFuel => False

/-- The two methods `a` (run on `T`) and `a'` (run on `T'`) agree from every window
that satisfies `C`, and `a` passes at least `d` tokens when it succeeds. -/
def Frame.Sim (F : Frame) {α : Type} (d : Nat) (C : List Token → Prop) (a a' : M α) :
    Prop :=
  ∀ W n n', C W → F.Here W n n' → F.Outcome d W n n' (a ⟨F.T, n⟩) (a' ⟨F.T', n'⟩)

/-- The two loops `a` and `a'` agree from every window that satisfies `C` and is
shorter than `b`, up to a stop on `y`. -/
def Frame.LSim (F : Frame) {α : Type} (E : TokenKind → Prop) (b : Nat)
    (C : List Token → Prop) (a a' : M α) : Prop :=
  ∀ W n n', C W → W.length < b → F.Here W n n' →
    F.LoopOutcome E W n n' (a ⟨F.T, n⟩) (a' ⟨F.T', n'⟩)

/-- Every window. -/
def Anywhere (_ : List Token) : Prop := True

/-- The windows that start with the token `t`. -/
def StartsWith (t : Token) (W : List Token) : Prop := ∃ W', W = t :: W'

/-- The empty window: the cursor of `T` is on `y`, the cursor of `T'` on `x`. -/
def AtEdge (W : List Token) : Prop := W = []

/-- The method `a`, run on `T` with the cursor on `y`, fails there with a message
about `y`. -/
def Frame.EdgeFail (F : Frame) {α : Type} (a : M α) : Prop :=
  ∀ n, F.T.drop n = F.y :: F.R →
    ∃ m, a ⟨F.T, n⟩ = Res.error m ⟨F.T, n⟩ ∧ Reports F.L m F.y

/-! ## Frames and hypotheses of the statements -/

/-- The frame of a single run: the tokens `W` in front of an end-of-input token `e`. -/
def selfFrame (L : Lexer) (T : List Token) (e : Token) (R : List Token)
    (he : e.Kind = TokenKind.EOF) : Frame :=
  { L := L, T := T, T' := T, y := e, x := e, R := R, R' := R,
    hy := Or.inl he,
    hx := by simp [Quiet, he] }

/-- The frame of the members of one class body: the tokens in front of the closing
brace `rb`, which the end-of-input token `e` follows. -/
def bodyFrame (L : Lexer) (T T' : List Token) (rb x : Token) (R R' : List Token)
    (hrb : rb.Kind = TokenKind.RBRACE) (hx : Quiet x.Kind) : Frame :=
  { L := L, T := T, T' := T', y := rb, x := x, R := R, R' := R',
    hy := Or.inr hrb, hx := hx }

/-- The text `part` occurs in the text `msg`. -/
def Mentions (msg part : String) : Prop :=
  part.data <:+: msg.data

/-- The hypothesis of C1 on one segment: it has no end-of-input token and, closed by an
end-of-input token, parses to a root whose only child is `c`. -/
def SingleEntity (L : Lexer) (s : List Token) (c : ASTNode) : Prop :=
  (∀ t ∈ s, t.Kind ≠ TokenKind.EOF) ∧
  ∃ e q root, e.Kind = TokenKind.EOF ∧
    Parse L (NewParser (s ++ [e])) = Res.ok root q ∧ root.Children = [c]

/-- The hypothesis of C6 on one segment `m`: it has no end-of-input token and the class
whose body is `m` parses to a root with a single child, which has the single child `n`. -/
def SingleMember (L : Lexer) (kw nm lb rb e : Token) (m : List Token) (n : ASTNode) :
    Prop :=
  (∀ t ∈ m, t.Kind ≠ TokenKind.EOF) ∧
  ∃ q root cls, Parse L (NewParser (kw :: nm :: lb :: (m ++ [rb, e]))) = Res.ok root q ∧
    root.Children = [cls] ∧ cls.Children = [n]

/-- Two entities for the examples: `class A` and the relationship `A --|> B`, each with
the node it parses to. -/
def sampleEntities : List (List Token × ASTNode) :=
  [ ([⟨TokenKind.CLASS, "class"⟩, ⟨TokenKind.IDENTIFIER, "A"⟩],
      { ASTNode.zero NodeType.CLASS with Name := "A" }),
    ([⟨TokenKind.IDENTIFIER, "A"⟩, ⟨TokenKind.OTHER 0, "--|>"⟩, ⟨TokenKind.IDENTIFIER, "B"⟩],
      { ASTNode.zero NodeType.RELATIONSHIP with
        SourceClass := "A", TargetClass := "B", RelationshipType := "INHERITANCE",
        Name := "A --|> B" }) ]

/-- Two members for the examples: the field `x : int` and the method `+ run ( )`, each
with the node it parses to. -/
def sampleMembers : List (List Token × ASTNode) :=
  [ ([⟨TokenKind.IDENTIFIER, "x"⟩, ⟨TokenKind.COLON, ":"⟩, ⟨TokenKind.IDENTIFIER, "int"⟩],
      { ASTNode.zero NodeType.FIELD with Name := "x", ValueType := "int" }),
    ([⟨TokenKind.PLUS, "+"⟩, ⟨TokenKind.IDENTIFIER, "run"⟩, ⟨TokenKind.LPAREN, "("⟩,
        ⟨TokenKind.RPAREN, ")"⟩],
      { ASTNode.zero NodeType.METHOD with Name := "run", Visibility := "+" }) ]

/-- The result of a run on the tokens `T` is a return, a value or an error, that leaves
the token sequence alone and the cursor on one of its indices. -/
def Res.Within {α : Type} (T : List Token) (r : Res α) : Prop :=
  match r with
  | Res.ok _ q => q.tokens = T ∧ q.pos < T.length
  | Res.error _ q => q.tokens = T ∧ q.pos < T.length
  | Res.outOfRange => False
  | Res.outOfFuel => False

/-! ## What a successful run returns -/

/-- Every run of `a` on the tokens `T` that returns a value leaves the tokens alone and
returns a value that satisfies `P`. -/
def Post (T : List Token) {α : Type} (a : M α) (P : α → Prop) : Prop :=
  ∀ p v q, p.tokens = T → a p = Res.ok v q → q.tokens = T ∧ P v

/-- A FIELD node whose name satisfies `N`; it has no children and no parameters. -/
def FieldShape (N : String → Prop) (n : ASTNode) : Prop :=
  n.Typ = NodeType.FIELD ∧ N n.Name ∧ n.Children = [] ∧ n.Parameters = []

/-- A METHOD node whose name satisfies `N`; it has no children, and its parameters are
FIELD nodes. -/
def MethodShape (N : String → Prop) (n : ASTNode) : Prop :=
  n.Typ = NodeType.METHOD ∧ N n.Name ∧ n.Children = [] ∧
    ∀ p ∈ n.Parameters, FieldShape N p

/-- A CLASS node whose name satisfies `N`; its children are FIELD and METHOD nodes. -/
def ClassShape (N : String → Prop) (n : ASTNode) : Prop :=
  n.Typ = NodeType.CLASS ∧ N n.Name ∧ n.Parameters = [] ∧
    ∀ m ∈ n.Children, FieldShape N m ∨ MethodShape N m

/-- An INTERFACE or RELATIONSHIP node whose name satisfies `N`; it has no children and no
parameters. -/
def LeafShape (N : String → Prop) (n : ASTNode) : Prop :=
  (n.Typ = NodeType.INTERFACE ∨ n.Typ = NodeType.RELATIONSHIP) ∧ N n.Name ∧
    n.Children = [] ∧ n.Parameters = []

/-- A ROOT node whose name satisfies `N`; its children are CLASS, INTERFACE and
RELATIONSHIP nodes. -/
def RootShape (N : String → Prop) (n : ASTNode) : Prop :=
  n.Typ = NodeType.ROOT ∧ N n.Name ∧ n.Parameters = [] ∧
    ∀ c ∈ n.Children, ClassShape N c ∨ LeafShape N c

/-- A document for the examples: the class `Foo` with the method `run ( x : int )`, and
the relationship `Foo --|> Bar`. -/
def sampleDocument : List Token :=
  [⟨TokenKind.CLASS, "class"⟩, ⟨TokenKind.IDENTIFIER, "Foo"⟩, ⟨TokenKind.LBRACE, "\x7b"⟩,
    ⟨TokenKind.IDENTIFIER, "run"⟩, ⟨TokenKind.LPAREN, "("⟩,
    ⟨TokenKind.IDENTIFIER, "x"⟩, ⟨TokenKind.COLON, ":"⟩, ⟨TokenKind.IDENTIFIER, "int"⟩,
    ⟨TokenKind.RPAREN, ")"⟩, ⟨TokenKind.RBRACE, "\x7d"⟩,
    ⟨TokenKind.IDENTIFIER, "Foo"⟩, ⟨TokenKind.OTHER 0, "--|>"⟩, ⟨TokenKind.IDENTIFIER, "Bar"⟩,
    ⟨TokenKind.EOF, ""⟩]

/-- A relationship whose `:` is followed by a `}` instead of a quoted label:
`A --|> B : }`. -/
def sampleUnlabelled : List Token :=
  [⟨TokenKind.IDENTIFIER, "A"⟩, ⟨TokenKind.OTHER 0, "--|>"⟩, ⟨TokenKind.IDENTIFIER, "B"⟩,
    ⟨TokenKind.COLON, ":"⟩, ⟨TokenKind.RBRACE, "\x7d"⟩, ⟨TokenKind.EOF, ""⟩]

/-! ## Two runs in step

The token after the shared window is the same end-of-input token in `T` and in `T'`;
only what follows it differs. A run on `T` that returns, with a node or with an error, is
then repeated by the run on `T'`, result for result. -/

/-- The result `r` of a run on `T` from the start of the window `W`, and the result `r'`
of the run on `T'`: a success or a failure of the first ends in the window or on the
token after it, and the second run is the same success or the same failure, the same
number of tokens further. -/
def Frame.Same (F : Frame) {α : Type} (W : List Token) (n n' : Nat) (r r' : Res α) : Prop :=
  match r with
  | Res.ok v q => ∃ j, j ≤ W.length ∧ q = ⟨F.T, n + j⟩ ∧ r' = Res.ok v ⟨F.T', n' + j⟩
  | Res.error m q => ∃ j, j ≤ W.length ∧ q = ⟨F.T, n + j⟩ ∧ r' = Res.error m ⟨F.T', n' + j⟩
  | Res.outOfRange => True
  | Res.outOfFuel => True

/-- The two methods `a` (run on `T`) and `a'` (run on `T'`) return the same from every
window that satisfies `C`. -/
def Frame.Lock (F : Frame) {α : Type} (C : List Token → Prop) (a a' : M α) : Prop :=
  ∀ W n n', C W → F.Here W n n' → F.Same W n n' (a ⟨F.T, n⟩) (a' ⟨F.T', n'⟩)

/-- The frame of an input and the same input with further tokens behind its
end-of-input token `e`. -/
def tailFrame (L : Lexer) (ts : List Token) (e : Token) (us : List Token)
    (he : e.Kind = TokenKind.EOF) : Frame :=
  { L := L, T := ts ++ [e], T' := ts ++ e :: us, y := e, x := e, R := [], R' := us,
    hy := Or.inl he,
    hx := by simp [Quiet, he] }

/-! ## Two runs around a comma

The token sequences `T` and `T'` share a window of tokens and everything behind one
place, where one of them has a comma that the other has not: either `T` has the comma
`y` and `T'` goes on with `x`, the token that follows the comma in `T`; or `T'` has the
comma `x` in front of the closing parenthesis `y`, with which `T` goes on. A run on `T`
that returns a node is repeated by the run on `T'`. -/

/-- A token kind that opens none of the optional parts of a grammar rule (a label, a `:`
annotation, a brace block, a parameter list, an array suffix, a default value). -/
def Inert (k : TokenKind) : Prop :=
  k ≠ TokenKind.QUOTATION ∧ k ≠ TokenKind.COLON ∧ k ≠ TokenKind.LBRACE ∧
  k ≠ TokenKind.LPAREN ∧ k ≠ TokenKind.LBRACKET ∧ k ≠ TokenKind.EQUALS

/-- The setting of two runs around a comma: behind the shared window `T` has the token
`y` and then `R`, and `T'` has the token `x` and then `R'`. -/
structure Gap where
  L : Lexer
  T : List Token
  T' : List Token
  y : Token
  x : Token
  R : List Token
  R' : List Token
  hyx : (y.Kind = TokenKind.COMMA ∧ R = x :: R') ∨
    (y.Kind = TokenKind.RPAREN ∧ x.Kind = TokenKind.COMMA ∧ R' = y :: R)
  hrel : L.IsRelationshipKind y.Kind = false
  hterm : ∃ W e, T' = W ++ [e] ∧ e.Kind = TokenKind.EOF

/-- The cursors `n` of `T` and `n'` of `T'` stand at the start of the window `W`, in
front of the place of the comma. When the comma is the one of `T'`, in front of the
closing parenthesis `y`, the window does not end with `(` or with a comma. -/
def Gap.Pre (G : Gap) (W : List Token) (n n' : Nat) : Prop :=
  G.T.drop n = W ++ G.y :: G.R ∧ G.T'.drop n' = W ++ G.x :: G.R' ∧
  (G.y.Kind = TokenKind.RPAREN → ∀ t, W.getLast? = some t →
    t.Kind ≠ TokenKind.COMMA ∧ t.Kind ≠ TokenKind.LPAREN)

/-- The cursors `n` of `T` and `n'` of `T'` are behind the place of the comma, in front of
the same tokens `U`. -/
def Gap.Post (G : Gap) (U : List Token) (n n' : Nat) : Prop :=
  G.T.drop n = U ∧ G.T'.drop n' = U

/-- Both cursors are on the token `t`, in front of the place of the comma or behind it. -/
def Gap.Tok (G : Gap) (t : Token) (n n' : Nat) : Prop :=
  (∃ W, G.Pre (t :: W) n n') ∨ (∃ U, G.Post (t :: U) n n')

/-- The cursors are at the place of the comma: the one of `T` on `y`, the one of `T'`
on `x`. -/
def Gap.Edge (G : Gap) (n n' : Nat) : Prop := G.Pre [] n n'

/-- Both cursors are on the same token. -/
def Gap.Off (G : Gap) (n n' : Nat) : Prop := ∃ t, G.Tok t n n'

/-- Any pair of cursors of the two runs. -/
def Gap.Any (G : Gap) (n n' : Nat) : Prop := G.Off n n' ∨ G.Edge n n'

/-- The pairs of cursors at which the parameter loop can start an iteration: not at the
place of the comma when the comma is the one of `T'`. -/
def Gap.Top (G : Gap) (n n' : Nat) : Prop :=
  G.Off n n' ∨ (G.Edge n n' ∧ G.y.Kind = TokenKind.COMMA)

/-- The result `r` of a run on `T` from the cursor `n`, and the result `r'` of the run on
`T'` from `n'`, when `r` is a value `v`. Either both runs have stayed in front of the
place of the comma and `r'` is `v` too; or (allowed when `eo` holds) they have stopped at
that place, and `r'` is `v` if `x` opens no optional part; or they are behind it, and
`r'` is `v`, and if they have passed the place then `x` opens no optional part. -/
def Gap.Out (G : Gap) {α : Type} (eo : Prop) (n n' : Nat) (r r' : Res α) : Prop :=
  ∀ v q, r = Res.ok v q → ∃ m m', q = ⟨G.T, m⟩ ∧
    (((∃ t W, G.Pre (t :: W) n n') ∧ (∃ t W, G.Pre (t :: W) m m') ∧
        r' = Res.ok v ⟨G.T', m'⟩) ∨
      (eo ∧ (∃ W, G.Pre W n n') ∧ G.Pre [] m m' ∧
        (Inert G.x.Kind → r' = Res.ok v ⟨G.T', m'⟩)) ∨
      ((∃ t U, G.Post (t :: U) m m') ∧ r' = Res.ok v ⟨G.T', m'⟩ ∧
        (Inert G.x.Kind ∨ ∃ t U, G.Post (t :: U) n n')))

/-- The run of `a'` on `T'` repeats the run of `a` on `T` from every pair of cursors that
satisfies `C`. -/
def Gap.Cross (G : Gap) {α : Type} (eo : Prop) (C : Nat → Nat → Prop) (a a' : M α) : Prop :=
  ∀ n n', C n n' → G.Out eo n n' (a ⟨G.T, n⟩) (a' ⟨G.T', n'⟩)

/-- A run of `b` returns what the run of `a` returns, whenever the latter has not run out
of iterations. -/
def Extends {α : Type} (a b : M α) : Prop :=
  ∀ p, a p ≠ Res.outOfFuel → b p = a p

/-- The method `a`, run on `T` with the cursor at the place of the comma, returns no
value. -/
def Gap.Stuck (G : Gap) {α : Type} (a : M α) : Prop :=
  ∀ n v q, G.T.drop n = G.y :: G.R → a ⟨G.T, n⟩ ≠ Res.ok v q

/-- The setting of a token sequence with a comma and of the sequence without it: `T` is
`A ++ c :: x :: Z`, `T'` is `A ++ x :: Z`. -/
def deletionGap (L : Lexer) (A : List Token) (c x : Token) (Z : List Token)
    (hc : c.Kind = TokenKind.COMMA)
    (hrel : L.IsRelationshipKind TokenKind.COMMA = false)
    (hterm : ∃ W e, A ++ x :: Z = W ++ [e] ∧ e.Kind = TokenKind.EOF) : Gap :=
  { L := L, T := A ++ c :: x :: Z, T' := A ++ x :: Z, y := c, x := x, R := x :: Z, R' := Z,
    hyx := Or.inl ⟨hc, rfl⟩,
    hrel := by rw [hc]; exact hrel,
    hterm := hterm }

/-- The setting of a token sequence and of the sequence with a comma put in front of the
closing parenthesis `rp`: `T` is `A ++ rp :: Z`, `T'` is `A ++ c :: rp :: Z`. -/
def insertionGap (L : Lexer) (A : List Token) (rp c : Token) (Z : List Token)
    (hrp : rp.Kind = TokenKind.RPAREN) (hc : c.Kind = TokenKind.COMMA)
    (hrel : L.IsRelationshipKind TokenKind.RPAREN = false)
    (hterm : ∃ W e, A ++ c :: rp :: Z = W ++ [e] ∧ e.Kind = TokenKind.EOF) : Gap :=
  { L := L, T := A ++ rp :: Z, T' := A ++ c :: rp :: Z, y := rp, x := c, R := Z,
    R' := rp :: Z,
    hyx := Or.inr ⟨hrp, hc, rfl⟩,
    hrel := by rw [hrp]; exact hrel,
    hterm := hterm }

/-- The class `A` with the method `f ( x , )`, whose parameter list ends with a comma. -/
def sampleTrailingComma : List Token :=
  [⟨TokenKind.CLASS, "class"⟩, ⟨TokenKind.IDENTIFIER, "A"⟩, ⟨TokenKind.LBRACE, "\x7b"⟩,
    ⟨TokenKind.IDENTIFIER, "f"⟩, ⟨TokenKind.LPAREN, "("⟩, ⟨TokenKind.IDENTIFIER, "x"⟩,
    ⟨TokenKind.COMMA, ","⟩, ⟨TokenKind.RPAREN, ")"⟩, ⟨TokenKind.RBRACE, "\x7d"⟩,
    ⟨TokenKind.EOF, ""⟩]

/-- The node of the class `A` with the method `f` that has the one parameter `x`. -/
def sampleMethodRoot : ASTNode :=
  rootOf [{ ASTNode.zero NodeType.CLASS with
    Name := "A",
    Children := [{ ASTNode.zero NodeType.METHOD with
      Name := "f",
      Parameters := [{ ASTNode.zero NodeType.FIELD with Name := "x" }] }] }]

/-! ## Running the cursor over a known remainder -/

theorem drop_succ_of_drop {T : List Token} {n : Nat} {t : Token} {rest : List Token}
    (h : T.drop n = t :: rest) : T.drop (n + 1) = rest := by
  rw [← List.drop_drop, h]; rfl

theorem getElem?_of_drop {T : List Token} {n : Nat} {t : Token} {rest : List Token}
    (h : T.drop n = t :: rest) : T[n]? = some t := by
  have := List.getElem?_drop T n 0
  rw [h] at this
  simpa using this.symm

theorem currentToken_of_drop {T : List Token} {n : Nat} {t : Token} {rest : List Token}
    (h : T.drop n = t :: rest) : currentToken ⟨T, n⟩ = Res.ok t ⟨T, n⟩ := by
  simp [currentToken, getElem?_of_drop h]

theorem nextToken_of_drop {T : List Token} {n : Nat} {t t2 : Token} {rest : List Token}
    (h : T.drop n = t :: t2 :: rest) : nextToken ⟨T, n⟩ = Res.ok t2 ⟨T, n + 1⟩ := by
  have hlen : n < T.length - 1 := by
    have := congrArg List.length h
    simp at this; omega
  simp [nextToken, hlen, currentToken_of_drop (drop_succ_of_drop h)]

theorem nextToken_of_drop_last {T : List Token} {n : Nat} {t : Token}
    (h : T.drop n = [t]) : nextToken ⟨T, n⟩ = Res.ok t ⟨T, n⟩ := by
  have hlen : ¬ n < T.length - 1 := by
    have := congrArg List.length h
    simp at this; omega
  simp [nextToken, hlen, currentToken_of_drop h]

/-! ## Rules for two runs -/

theorem bind_apply {α β : Type} (a : M α) (f : α → M β) (p : Parser) :
    (a >>= f) p = match a p with
      | Res.ok v q => f v q
      | Res.error m q => Res.error m q
      | Res.outOfRange => Res.outOfRange
      | Res.outOfFuel => Res.outOfFuel := rfl

theorem pure_apply {α : Type} (v : α) (p : Parser) : (pure v : M α) p = Res.ok v p := rfl

theorem pure_bind_M {α β : Type} (v : α) (f : α → M β) : (pure v >>= f) = f v := rfl

theorem advance_of_drop {T : List Token} {n : Nat} {t t2 : Token} {rest : List Token}
    (h : T.drop n = t :: t2 :: rest) : advance ⟨T, n⟩ = Res.ok () ⟨T, n + 1⟩ := by
  simp [advance, bind_apply, nextToken_of_drop h, pure_apply]

theorem advance_of_drop_last {T : List Token} {n : Nat} {t : Token}
    (h : T.drop n = [t]) : advance ⟨T, n⟩ = Res.ok () ⟨T, n⟩ := by
  simp [advance, bind_apply, nextToken_of_drop_last h, pure_apply]

theorem currentTokenKind_of_drop {T : List Token} {n : Nat} {t : Token} {rest : List Token}
    (h : T.drop n = t :: rest) : currentTokenKind ⟨T, n⟩ = Res.ok t.Kind ⟨T, n⟩ := by
  simp [currentTokenKind, bind_apply, currentToken_of_drop h, pure_apply]

theorem drop_add_of_drop {T : List Token} {n j : Nat} {W rest : List Token}
    (h : T.drop n = W ++ rest) (hj : j ≤ W.length) :
    T.drop (n + j) = W.drop j ++ rest := by
  rw [← List.drop_drop, h, List.drop_append_of_le_length hj]

theorem currentTokenKind_bind {α : Type} {k : TokenKind → M α} :
    (currentTokenKind >>= k) = (currentToken >>= fun t => k t.Kind) := by
  funext p
  rw [bind_apply, bind_apply, currentTokenKind, bind_apply]
  cases currentToken p <;> rfl

theorem getElem?_window_drop {W : List Token} {y : Token} {j i : Nat} (hj : j ≤ W.length) :
    (W.drop j ++ [y])[i]? = (W ++ [y])[j + i]? := by
  rw [← List.drop_append_of_le_length hj, List.getElem?_drop]

theorem reports_value (L : Lexer) {pre : String} (tok : Token) (h : pre ∈ valuePrefixes) :
    Reports L (pre ++ tok.Value) tok :=
  Or.inr (Or.inl ⟨pre, h, rfl⟩)

namespace Frame

variable {F : Frame} {α β : Type}

theorem Here.here_cur {W : List Token} {t : Token} {n n' : Nat} (h : F.Here (t :: W) n n') :
    currentToken ⟨F.T, n⟩ = Res.ok t ⟨F.T, n⟩ ∧
    currentToken ⟨F.T', n'⟩ = Res.ok t ⟨F.T', n'⟩ :=
  ⟨currentToken_of_drop h.1, currentToken_of_drop h.2⟩

theorem Here.here_cur_edge {n n' : Nat} (h : F.Here [] n n') :
    currentToken ⟨F.T, n⟩ = Res.ok F.y ⟨F.T, n⟩ ∧
    currentToken ⟨F.T', n'⟩ = Res.ok F.x ⟨F.T', n'⟩ :=
  ⟨currentToken_of_drop h.1, currentToken_of_drop h.2⟩

theorem Here.here_next {W : List Token} {t : Token} {n n' : Nat} (h : F.Here (t :: W) n n') :
    F.Here W (n + 1) (n' + 1) :=
  ⟨drop_succ_of_drop h.1, drop_succ_of_drop h.2⟩

theorem Here.here_advance {W : List Token} {t : Token} {n n' : Nat} (h : F.Here (t :: W) n n') :
    advance ⟨F.T, n⟩ = Res.ok () ⟨F.T, n + 1⟩ ∧
    advance ⟨F.T', n'⟩ = Res.ok () ⟨F.T', n' + 1⟩ := by
  obtain ⟨h1, h2⟩ := h
  constructor
  · cases W with
    | nil => exact advance_of_drop h1
    | cons t2 W => exact advance_of_drop h1
  · cases W with
    | nil => exact advance_of_drop h2
    | cons t2 W => exact advance_of_drop h2

theorem Here.here_drop {W : List Token} {n n' j : Nat} (h : F.Here W n n') (hj : j ≤ W.length) :
    F.Here (W.drop j) (n + j) (n' + j) :=
  ⟨drop_add_of_drop h.1 hj, drop_add_of_drop h.2 hj⟩

theorem Here.here_length_lt {W : List Token} {n n' : Nat} (h : F.Here W n n') :
    W.length < F.T.length + 1 ∧ W.length < F.T'.length + 1 := by
  have h1 := congrArg List.length h.1
  have h2 := congrArg List.length h.2
  simp at h1 h2
  omega

theorem Outcome.outcome_of_drop {d e : Nat} {W : List Token} {n n' j : Nat} {r r' : Res α}
    (h : F.Outcome d (W.drop j) (n + j) (n' + j) r r') (hj : j ≤ W.length)
    (hd : e ≤ j + d) : F.Outcome e W n n' r r' := by
  cases r with
  | ok v q =>
    obtain ⟨i, hdi, hi, hq, hr⟩ := h
    refine ⟨j + i, by omega, ?_, ?_, ?_⟩
    · simp at hi; omega
    · rw [hq, Nat.add_assoc]
    · rw [hr, Nat.add_assoc]
  | error m q =>
    obtain ⟨i, tok, hi, hq, htok, hrep⟩ := h
    refine ⟨j + i, tok, ?_, ?_, ?_, hrep⟩
    · simp at hi; omega
    · rw [hq, Nat.add_assoc]
    · rw [← getElem?_window_drop hj]; exact htok
  | outOfRange => exact h
  | outOfFuel => exact h

theorem Outcome.outcome_of_next {d e : Nat} {W : List Token} {t : Token} {n n' : Nat}
    {r r' : Res α} (h : F.Outcome d W (n + 1) (n' + 1) r r') (hd : e ≤ 1 + d) :
    F.Outcome e (t :: W) n n' r r' :=
  @Outcome.outcome_of_drop F α d e (t :: W) n n' 1 r r' (by simpa using h) (by simp) hd

theorem LoopOutcome.loop_of_drop {E : TokenKind → Prop} {W : List Token} {n n' j : Nat}
    {r r' : Res α}
    (h : F.LoopOutcome E (W.drop j) (n + j) (n' + j) r r') (hj : j ≤ W.length) :
    F.LoopOutcome E W n n' r r' := by
  cases r with
  | ok v q =>
    obtain ⟨i, tok, hi, hq, htok, hE, hr⟩ := h
    refine ⟨j + i, tok, ?_, ?_, ?_, hE, ?_⟩
    · simp at hi; omega
    · rw [hq, Nat.add_assoc]
    · rw [← getElem?_window_drop hj]; exact htok
    · rcases hr with hr | hr
      · left; simp at hr; omega
      · right; rw [hr, Nat.add_assoc]
  | error m q =>
    obtain ⟨i, tok, hi, hq, htok, hrep⟩ := h
    refine ⟨j + i, tok, ?_, ?_, ?_, hrep⟩
    · simp at hi; omega
    · rw [hq, Nat.add_assoc]
    · rw [← getElem?_window_drop hj]; exact htok
  | outOfRange => exact h
  | outOfFuel => exact h

theorem LoopOutcome.loop_of_next {E : TokenKind → Prop} {W : List Token} {t : Token}
    {n n' : Nat} {r r' : Res α}
    (h : F.LoopOutcome E W (n + 1) (n' + 1) r r') : F.LoopOutcome E (t :: W) n n' r r' :=
  @LoopOutcome.loop_of_drop F α E (t :: W) n n' 1 r r' (by simpa using h) (by simp)

/-! ### Straight-line code -/

theorem Sim.sim_mono {d : Nat} {C D : List Token → Prop} {a a' : M α} (h : F.Sim d D a a')
    (hCD : ∀ W, C W → D W) : F.Sim d C a a' :=
  fun W n n' hC hH => h W n n' (hCD W hC) hH

theorem Sim.sim_weaken {d : Nat} {C : List Token → Prop} {a a' : M α}
    (h : F.Sim d Anywhere a a') : F.Sim d C a a' :=
  h.sim_mono fun _ _ => trivial

theorem Sim.sim_le {d e : Nat} {C : List Token → Prop} {a a' : M α} (h : F.Sim d C a a')
    (hde : e ≤ d) : F.Sim e C a a' := by
  intro W n n' hC hH
  exact @Outcome.outcome_of_drop F α d e W n n' 0 _ _
    (by simpa using h W n n' hC hH) (Nat.zero_le _) (by omega)

theorem Sim.sim_pure {C : List Token → Prop} (v : α) : F.Sim 0 C (pure v) (pure v) := by
  intro W n n' _ _
  exact ⟨0, Nat.le_refl _, Nat.zero_le _, rfl, rfl⟩

theorem Sim.sim_fail_at {d : Nat} {t : Token} {m : String} {a' : M α} (h : Reports F.L m t) :
    F.Sim d (StartsWith t) (fail m) a' := by
  rintro W n n' ⟨W', rfl⟩ _
  exact ⟨0, t, Nat.zero_le _, rfl, by simp, h⟩

theorem Sim.sim_fail_edge {d : Nat} {m : String} {a' : M α} (h : Reports F.L m F.y) :
    F.Sim d AtEdge (fail m) a' := by
  rintro W n n' rfl _
  exact ⟨0, F.y, Nat.zero_le _, rfl, by simp, h⟩

theorem Sim.sim_bind {d : Nat} {C : List Token → Prop} {a a' : M α} {f f' : α → M β}
    (ha : F.Sim 0 C a a') (hf : ∀ v, F.Sim d Anywhere (f v) (f' v)) :
    F.Sim d C (a >>= f) (a' >>= f') := by
  intro W n n' hC hH
  have h1 := ha W n n' hC hH
  rw [bind_apply, bind_apply]
  cases hr : a ⟨F.T, n⟩ with
  | ok v q =>
    rw [hr] at h1
    obtain ⟨j, _, hj, hq, hr'⟩ := h1
    rw [hr', hq]
    exact Outcome.outcome_of_drop (hf v _ _ _ trivial (hH.here_drop hj)) hj (by omega)
  | error m q =>
    rw [hr] at h1
    exact h1
  | outOfRange => rw [hr] at h1; exact h1.elim
  | outOfFuel => rw [hr] at h1; exact h1.elim

theorem Sim.sim_cur {d : Nat} {k k' : Token → M α}
    (hin : ∀ t, F.Sim d (StartsWith t) (k t) (k' t))
    (hedge : F.Sim d AtEdge (k F.y) (k' F.x)) :
    F.Sim d Anywhere (currentToken >>= k) (currentToken >>= k') := by
  intro W n n' _ hH
  rw [bind_apply, bind_apply]
  cases W with
  | nil =>
    rw [hH.here_cur_edge.1, hH.here_cur_edge.2]
    exact hedge [] n n' rfl hH
  | cons t W =>
    rw [hH.here_cur.1, hH.here_cur.2]
    exact hin t (t :: W) n n' ⟨W, rfl⟩ hH

theorem Sim.sim_cur_at {d : Nat} {t : Token} {k k' : Token → M α}
    (h : F.Sim d (StartsWith t) (k t) (k' t)) :
    F.Sim d (StartsWith t) (currentToken >>= k) (currentToken >>= k') := by
  rintro W n n' ⟨W', rfl⟩ hH
  rw [bind_apply, bind_apply, hH.here_cur.1, hH.here_cur.2]
  exact h (t :: W') n n' ⟨W', rfl⟩ hH

theorem Sim.sim_cur_edge {d : Nat} {k k' : Token → M α}
    (h : F.Sim d AtEdge (k F.y) (k' F.x)) :
    F.Sim d AtEdge (currentToken >>= k) (currentToken >>= k') := by
  rintro W n n' rfl hH
  rw [bind_apply, bind_apply, hH.here_cur_edge.1, hH.here_cur_edge.2]
  exact h [] n n' rfl hH

theorem Sim.sim_kind {d : Nat} {k k' : TokenKind → M α}
    (hin : ∀ t, F.Sim d (StartsWith t) (k t.Kind) (k' t.Kind))
    (hedge : F.Sim d AtEdge (k F.y.Kind) (k' F.x.Kind)) :
    F.Sim d Anywhere (currentTokenKind >>= k) (currentTokenKind >>= k') := by
  rw [currentTokenKind_bind, currentTokenKind_bind]
  exact Sim.sim_cur hin hedge

theorem Sim.sim_kind_at {d : Nat} {t : Token} {k k' : TokenKind → M α}
    (h : F.Sim d (StartsWith t) (k t.Kind) (k' t.Kind)) :
    F.Sim d (StartsWith t) (currentTokenKind >>= k) (currentTokenKind >>= k') := by
  rw [currentTokenKind_bind, currentTokenKind_bind]
  exact Sim.sim_cur_at h

theorem Sim.sim_kind_edge {d : Nat} {k k' : TokenKind → M α}
    (h : F.Sim d AtEdge (k F.y.Kind) (k' F.x.Kind)) :
    F.Sim d AtEdge (currentTokenKind >>= k) (currentTokenKind >>= k') := by
  rw [currentTokenKind_bind, currentTokenKind_bind]
  exact Sim.sim_cur_edge h

theorem Sim.sim_kind_bind {d : Nat} {A A' : TokenKind → M α} {f f' : α → M β}
    (hin : ∀ t, F.Sim 0 (StartsWith t) (A t.Kind) (A' t.Kind))
    (hedge : F.Sim 0 AtEdge (A F.y.Kind) (A' F.x.Kind))
    (hf : ∀ v, F.Sim d Anywhere (f v) (f' v)) :
    F.Sim d Anywhere (currentTokenKind >>= fun k => A k >>= f)
      (currentTokenKind >>= fun k => A' k >>= f') :=
  Sim.sim_kind (fun t => Sim.sim_bind (hin t) hf) (Sim.sim_bind hedge hf)

theorem Sim.sim_cur_bind {d : Nat} {A A' : Token → M α} {f f' : α → M β}
    (hin : ∀ t, F.Sim 0 (StartsWith t) (A t) (A' t))
    (hedge : F.Sim 0 AtEdge (A F.y) (A' F.x))
    (hf : ∀ v, F.Sim d Anywhere (f v) (f' v)) :
    F.Sim d Anywhere (currentToken >>= fun k => A k >>= f)
      (currentToken >>= fun k => A' k >>= f') :=
  Sim.sim_cur (fun t => Sim.sim_bind (hin t) hf) (Sim.sim_bind hedge hf)

theorem Sim.sim_cur_bind_at {d : Nat} {t : Token} {A A' : Token → M α} {f f' : α → M β}
    (hin : F.Sim 0 (StartsWith t) (A t) (A' t))
    (hf : ∀ v, F.Sim d Anywhere (f v) (f' v)) :
    F.Sim d (StartsWith t) (currentToken >>= fun k => A k >>= f)
      (currentToken >>= fun k => A' k >>= f') :=
  Sim.sim_cur_at (Sim.sim_bind hin hf)

/-- Passing a token of the window: the one place where a run makes progress. -/
theorem Sim.sim_advance {d : Nat} {t : Token} {k k' : Unit → M α}
    (h : ∀ u, F.Sim (d - 1) Anywhere (k u) (k' u)) :
    F.Sim d (StartsWith t) (advance >>= k) (advance >>= k') := by
  rintro W n n' ⟨W', rfl⟩ hH
  rw [bind_apply, bind_apply, hH.here_advance.1, hH.here_advance.2]
  exact Outcome.outcome_of_next (h () W' _ _ trivial hH.here_next) (by omega)

theorem Sim.sim_ite {d : Nat} {C : List Token → Prop} {c : Prop} [Decidable c]
    {a a' b b' : M α}
    (h1 : c → F.Sim d C a a') (h2 : ¬ c → F.Sim d C b b') :
    F.Sim d C (if c then a else b) (if c then a' else b') := by
  by_cases hc : c
  · simpa [hc] using h1 hc
  · simpa [hc] using h2 hc

theorem Sim.sim_of_edgeFail {d : Nat} {a a' : M α} (h : F.EdgeFail a) :
    F.Sim d AtEdge a a' := by
  rintro W n n' rfl hH
  obtain ⟨m, hm, hrep⟩ := h n hH.1
  rw [hm]
  exact ⟨0, F.y, Nat.zero_le _, rfl, by simp, hrep⟩

theorem EdgeFail.edge_fail {m : String} (h : Reports F.L m F.y) :
    F.EdgeFail (fail m : M α) :=
  fun _ _ => ⟨m, rfl, h⟩

theorem EdgeFail.edge_cur {k : Token → M α} (h : F.EdgeFail (k F.y)) :
    F.EdgeFail (currentToken >>= k) := by
  intro n hn
  rw [bind_apply, currentToken_of_drop hn]
  exact h n hn

theorem EdgeFail.edge_kind {k : TokenKind → M α} (h : F.EdgeFail (k F.y.Kind)) :
    F.EdgeFail (currentTokenKind >>= k) := by
  rw [currentTokenKind_bind]
  exact EdgeFail.edge_cur h

theorem EdgeFail.edge_advance_last {k : Unit → M α} (hR : F.R = [])
    (h : ∀ u, F.EdgeFail (k u)) : F.EdgeFail (advance >>= k) := by
  intro n hn
  rw [bind_apply, advance_of_drop_last (by rw [hn, hR])]
  exact h () n hn

/-! ### Loops -/

theorem LSim.lsim_zero {E : TokenKind → Prop} {C : List Token → Prop} {a a' : M α} :
    F.LSim E 0 C a a' :=
  fun _ _ _ _ hW _ => absurd hW (Nat.not_lt_zero _)

theorem LSim.lsim_le {E : TokenKind → Prop} {b c : Nat} {C : List Token → Prop} {a a' : M α}
    (h : F.LSim E b C a a') (hcb : c ≤ b) : F.LSim E c C a a' :=
  fun W n n' hC hW hH => h W n n' hC (Nat.lt_of_lt_of_le hW hcb) hH

theorem LSim.lsim_weaken {E : TokenKind → Prop} {b : Nat} {C : List Token → Prop} {a a' : M α}
    (h : F.LSim E b Anywhere a a') : F.LSim E b C a a' :=
  fun W n n' _ hW hH => h W n n' trivial hW hH

theorem LSim.lsim_exit_at {E : TokenKind → Prop} {b : Nat} {t : Token} (v : α) (h : E t.Kind) :
    F.LSim E b (StartsWith t) (pure v) (pure v) := by
  rintro W n n' ⟨W', rfl⟩ _ _
  exact ⟨0, t, Nat.zero_le _, rfl, by simp, h, Or.inr rfl⟩

theorem LSim.lsim_exit_edge {E : TokenKind → Prop} {b : Nat} {a' : M α} (v : α)
    (h : E F.y.Kind) : F.LSim E b AtEdge (pure v) a' := by
  rintro W n n' rfl _ _
  exact ⟨0, F.y, Nat.zero_le _, rfl, by simp, h, Or.inl rfl⟩

theorem LSim.lsim_fail_at {E : TokenKind → Prop} {b : Nat} {t : Token} {m : String} {a' : M α}
    (h : Reports F.L m t) : F.LSim E b (StartsWith t) (fail m) a' := by
  rintro W n n' ⟨W', rfl⟩ _ _
  exact ⟨0, t, Nat.zero_le _, rfl, by simp, h⟩

theorem LSim.lsim_fail_edge {E : TokenKind → Prop} {b : Nat} {m : String} {a' : M α}
    (h : Reports F.L m F.y) : F.LSim E b AtEdge (fail m) a' := by
  rintro W n n' rfl _ _
  exact ⟨0, F.y, Nat.zero_le _, rfl, by simp, h⟩

theorem LSim.lsim_cur {E : TokenKind → Prop} {b : Nat} {k k' : Token → M α}
    (hin : ∀ t, F.LSim E b (StartsWith t) (k t) (k' t))
    (hedge : F.LSim E b AtEdge (k F.y) (k' F.x)) :
    F.LSim E b Anywhere (currentToken >>= k) (currentToken >>= k') := by
  intro W n n' _ hW hH
  rw [bind_apply, bind_apply]
  cases W with
  | nil =>
    rw [hH.here_cur_edge.1, hH.here_cur_edge.2]
    exact hedge [] n n' rfl hW hH
  | cons t W =>
    rw [hH.here_cur.1, hH.here_cur.2]
    exact hin t (t :: W) n n' ⟨W, rfl⟩ hW hH

theorem LSim.lsim_cur_at {E : TokenKind → Prop} {b : Nat} {t : Token} {k k' : Token → M α}
    (h : F.LSim E b (StartsWith t) (k t) (k' t)) :
    F.LSim E b (StartsWith t) (currentToken >>= k) (currentToken >>= k') := by
  rintro W n n' ⟨W', rfl⟩ hW hH
  rw [bind_apply, bind_apply, hH.here_cur.1, hH.here_cur.2]
  exact h (t :: W') n n' ⟨W', rfl⟩ hW hH

theorem LSim.lsim_cur_edge {E : TokenKind → Prop} {b : Nat} {k k' : Token → M α}
    (h : F.LSim E b AtEdge (k F.y) (k' F.x)) :
    F.LSim E b AtEdge (currentToken >>= k) (currentToken >>= k') := by
  rintro W n n' rfl hW hH
  rw [bind_apply, bind_apply, hH.here_cur_edge.1, hH.here_cur_edge.2]
  exact h [] n n' rfl hW hH

theorem LSim.lsim_kind {E : TokenKind → Prop} {b : Nat} {k k' : TokenKind → M α}
    (hin : ∀ t, F.LSim E b (StartsWith t) (k t.Kind) (k' t.Kind))
    (hedge : F.LSim E b AtEdge (k F.y.Kind) (k' F.x.Kind)) :
    F.LSim E b Anywhere (currentTokenKind >>= k) (currentTokenKind >>= k') := by
  rw [currentTokenKind_bind, currentTokenKind_bind]
  exact LSim.lsim_cur hin hedge

theorem LSim.lsim_ite {E : TokenKind → Prop} {b : Nat} {C : List Token → Prop} {c : Prop}
    [Decidable c] {a a' b1 b1' : M α}
    (h1 : c → F.LSim E b C a a') (h2 : ¬ c → F.LSim E b C b1 b1') :
    F.LSim E b C (if c then a else b1) (if c then a' else b1') := by
  by_cases hc : c
  · simpa [hc] using h1 hc
  · simpa [hc] using h2 hc

theorem LSim.lsim_advance {E : TokenKind → Prop} {b : Nat} {t : Token} {k k' : Unit → M α}
    (h : ∀ u, F.LSim E b Anywhere (k u) (k' u)) :
    F.LSim E (b + 1) (StartsWith t) (advance >>= k) (advance >>= k') := by
  rintro W n n' ⟨W', rfl⟩ hW hH
  rw [bind_apply, bind_apply, hH.here_advance.1, hH.here_advance.2]
  exact LoopOutcome.loop_of_next (h () W' _ _ trivial (by simpa using hW) hH.here_next)

theorem LSim.lsim_advance_same {E : TokenKind → Prop} {b : Nat} {t : Token}
    {k k' : Unit → M α} (h : ∀ u, F.LSim E b Anywhere (k u) (k' u)) :
    F.LSim E b (StartsWith t) (LumaParser.advance >>= k) (LumaParser.advance >>= k') := by
  rintro W n n' ⟨W', rfl⟩ hW hH
  rw [bind_apply, bind_apply, hH.here_advance.1, hH.here_advance.2]
  exact LoopOutcome.loop_of_next (h () W' _ _ trivial (by simp at hW; omega) hH.here_next)

theorem LSim.lsim_bind_adv {E : TokenKind → Prop} {b d : Nat} {C : List Token → Prop}
    {a a' : M α} {f f' : α → M β}
    (ha : F.Sim d C a a') (hf : ∀ v, F.LSim E b Anywhere (f v) (f' v)) :
    F.LSim E (b + d) C (a >>= f) (a' >>= f') := by
  intro W n n' hC hW hH
  have h1 := ha W n n' hC hH
  rw [bind_apply, bind_apply]
  cases hr : a ⟨F.T, n⟩ with
  | ok v q =>
    rw [hr] at h1
    obtain ⟨j, hdj, hj, hq, hr'⟩ := h1
    rw [hr', hq]
    exact LoopOutcome.loop_of_drop
      (hf v _ _ _ trivial (by simp; omega) (hH.here_drop hj)) hj
  | error m q =>
    rw [hr] at h1
    exact h1
  | outOfRange => rw [hr] at h1; exact h1.elim
  | outOfFuel => rw [hr] at h1; exact h1.elim

theorem LSim.lsim_bind {E : TokenKind → Prop} {b : Nat} {C : List Token → Prop}
    {a a' : M α} {f f' : α → M β}
    (ha : F.Sim 0 C a a') (hf : ∀ v, F.LSim E b Anywhere (f v) (f' v)) :
    F.LSim E b C (a >>= f) (a' >>= f') :=
  @LSim.lsim_bind_adv F α β E b 0 C a a' f f' ha hf

theorem LSim.lsim_of_edgeFail {E : TokenKind → Prop} {b : Nat} {a a' : M α}
    (h : F.EdgeFail a) : F.LSim E b AtEdge a a' := by
  rintro W n n' rfl _ hH
  obtain ⟨m, hm, hrep⟩ := h n hH.1
  rw [hm]
  exact ⟨0, F.y, Nat.zero_le _, rfl, by simp, hrep⟩

/-- A loop followed by the rest of its rule: the loop may stop on `y`, where the rest of
the rule fails. -/
theorem Sim.sim_loop {d : Nat} {C : List Token → Prop} {E : TokenKind → Prop}
    {body body' : Nat → M α} {f f' : α → M β}
    (hloop : ∀ fuel fuel', F.LSim E (min fuel fuel') Anywhere (body fuel) (body' fuel'))
    (hf : ∀ v, F.Sim d Anywhere (f v) (f' v))
    (hedge : ∀ v, F.EdgeFail (f v)) :
    F.Sim d C (loopFuel >>= fun fuel => body fuel >>= f)
      (loopFuel >>= fun fuel => body' fuel >>= f') := by
  intro W n n' hC hH
  have h1 := hloop (F.T.length + 1) (F.T'.length + 1) W n n' trivial
    (by have := hH.here_length_lt; omega) hH
  rw [bind_apply, bind_apply]
  simp only [loopFuel]
  rw [bind_apply, bind_apply]
  cases hr : body (F.T.length + 1) ⟨F.T, n⟩ with
  | ok v q =>
    rw [hr] at h1
    obtain ⟨j, tok, hj, hq, _, _, hr'⟩ := h1
    rcases hr' with hr' | hr'
    · subst hr'
      obtain ⟨m, hm, hrep⟩ := hedge v (n + W.length)
        (by simpa using drop_add_of_drop hH.1 (Nat.le_refl _))
      simp only [hq, hm]
      exact ⟨W.length, F.y, Nat.le_refl _, rfl, by simp, hrep⟩
    · rw [hr', hq]
      exact Outcome.outcome_of_drop (hf v _ _ _ trivial (hH.here_drop hj)) hj (by omega)
  | error m q =>
    rw [hr] at h1
    exact h1
  | outOfRange => rw [hr] at h1; exact h1.elim
  | outOfFuel => rw [hr] at h1; exact h1.elim

/-! ### The grammar rules -/

theorem parseField_sim (F : Frame) (name visibility : String) :
    F.Sim 0 Anywhere (parseField name visibility) (parseField name visibility) := by
  obtain ⟨hx1, hx2, hx3, hx4, hx5, hx6, hx7⟩ := F.hx
  unfold parseField
  refine Sim.sim_kind_bind (fun t => ?_) ?_ (fun valueType => ?_)
  · -- the type annotation, cursor in the window
    refine Sim.sim_ite (fun _ => ?_) (fun _ => Sim.sim_pure _)
    refine Sim.sim_advance fun _ => ?_
    refine Sim.sim_cur (fun t2 => ?_) ?_
    · refine Sim.sim_ite (fun _ => Sim.sim_fail_at (reports_value _ _ (by simp [valuePrefixes])))
        (fun _ => ?_)
      refine Sim.sim_advance fun _ => ?_
      refine Sim.sim_cur (fun t3 => ?_) ?_
      · refine Sim.sim_ite (fun _ => ?_) (fun _ => Sim.sim_pure _)
        refine Sim.sim_advance fun _ => ?_
        refine Sim.sim_cur (fun t4 => ?_) ?_
        · refine Sim.sim_ite (fun _ => Sim.sim_fail_at (reports_value _ _ (by simp [valuePrefixes])))
            (fun _ => ?_)
          exact Sim.sim_advance fun _ => Sim.sim_pure _
        · rcases F.hy with h | h <;> simp only [h, ne_eq, reduceCtorEq, not_false_eq_true, if_true]
            <;> exact Sim.sim_fail_edge (reports_value _ _ (by simp [valuePrefixes]))
      · rcases F.hy with h | h <;> simp only [h, hx5, reduceCtorEq, if_false]
          <;> exact Sim.sim_pure _
    · rcases F.hy with h | h <;> simp only [h, ne_eq, reduceCtorEq, not_false_eq_true, if_true]
        <;> exact Sim.sim_fail_edge (reports_value _ _ (by simp [valuePrefixes]))
  · rcases F.hy with h | h <;> simp only [h, hx2, reduceCtorEq, if_false]
      <;> exact Sim.sim_pure _
  · refine Sim.sim_kind_bind (fun t => ?_) ?_ (fun defaultValue => Sim.sim_pure _)
    · refine Sim.sim_ite (fun _ => ?_) (fun _ => Sim.sim_pure _)
      refine Sim.sim_advance fun _ => ?_
      refine Sim.sim_cur (fun t2 => ?_) ?_
      · refine Sim.sim_ite (fun _ => Sim.sim_fail_at (reports_value _ _ (by simp [valuePrefixes])))
          (fun _ => ?_)
        exact Sim.sim_advance fun _ => Sim.sim_pure _
      · rcases F.hy with h | h <;> simp only [h, ne_eq, reduceCtorEq, not_false_eq_true, if_true]
          <;> exact Sim.sim_fail_edge (reports_value _ _ (by simp [valuePrefixes]))
    · rcases F.hy with h | h <;> simp only [h, hx6, reduceCtorEq, if_false]
        <;> exact Sim.sim_pure _

theorem parseParameters_sim (F : Frame) (fuel : Nat) :
    ∀ (fuel' : Nat) (node : ASTNode),
      F.LSim ClosingParams (min fuel fuel') Anywhere (parseParameters fuel node)
        (parseParameters fuel' node) := by
  obtain ⟨hx1, hx2, hx3, hx4, hx5, hx6, hx7⟩ := F.hx
  induction fuel with
  | zero => intro fuel' node; rw [Nat.zero_min]; exact LSim.lsim_zero
  | succ fuel ih =>
    intro fuel' node
    cases fuel' with
    | zero => rw [Nat.min_zero]; exact LSim.lsim_zero
    | succ fuel' =>
      rw [Nat.succ_min_succ]
      simp only [parseParameters]
      refine LSim.lsim_kind (fun t => ?_) ?_
      · refine LSim.lsim_ite (fun _ => ?_) (fun hc => ?_)
        · refine LSim.lsim_cur_at ?_
          refine LSim.lsim_ite (fun _ => ?_)
            (fun _ => LSim.lsim_fail_at (reports_value _ _ (by simp [valuePrefixes])))
          refine LSim.lsim_advance fun _ => ?_
          refine LSim.lsim_bind (parseField_sim F _ _) fun propertyNode => ?_
          refine LSim.lsim_kind (fun t2 => ?_) ?_
          · refine LSim.lsim_ite (fun _ => ?_) (fun _ => (ih fuel' _).lsim_weaken)
            exact LSim.lsim_advance_same fun _ => ih fuel' _
          · rcases F.hy with h | h <;> simp only [h, hx7, reduceCtorEq, if_false]
              <;> exact (ih fuel' _).lsim_weaken
        · refine LSim.lsim_exit_at _ ?_
          by_cases h1 : t.Kind = TokenKind.RPAREN
          · exact Or.inl h1
          · by_cases h2 : t.Kind = TokenKind.EOF
            · exact Or.inr h2
            · exact absurd ⟨h1, h2⟩ hc
      · rcases F.hy with h | h
        · simp only [h, ne_eq, reduceCtorEq, not_false_eq_true, not_true_eq_false,
            and_false, if_false]
          exact LSim.lsim_exit_edge _ (by rw [h]; exact Or.inr rfl)
        · simp only [h, ne_eq, reduceCtorEq, not_false_eq_true, and_self, if_true]
          refine LSim.lsim_of_edgeFail (EdgeFail.edge_cur ?_)
          simp only [h, reduceCtorEq, if_false]
          exact EdgeFail.edge_fail (reports_value _ _ (by simp [valuePrefixes]))

theorem parseMethod_sim (F : Frame) (t : Token) (name visibility : String) :
    F.Sim 1 (StartsWith t) (parseMethod name visibility) (parseMethod name visibility) := by
  obtain ⟨hx1, hx2, hx3, hx4, hx5, hx6, hx7⟩ := F.hx
  unfold parseMethod
  refine Sim.sim_advance fun _ => ?_
  refine Sim.sim_loop (fun fuel fuel' => parseParameters_sim F fuel fuel' _)
    (fun methodNode => ?_) (fun methodNode => ?_)
  · refine Sim.sim_cur (fun t2 => ?_) ?_
    · refine Sim.sim_ite (fun _ => Sim.sim_fail_at (reports_value _ _ (by simp [valuePrefixes])))
        (fun _ => ?_)
      refine Sim.sim_advance fun _ => ?_
      refine Sim.sim_kind (fun t3 => ?_) ?_
      · refine Sim.sim_ite (fun _ => ?_) (fun _ => Sim.sim_pure _)
        refine Sim.sim_advance fun _ => ?_
        refine Sim.sim_cur (fun t4 => ?_) ?_
        · refine Sim.sim_ite
            (fun _ => Sim.sim_fail_at (reports_value _ _ (by simp [valuePrefixes])))
            (fun _ => ?_)
          refine Sim.sim_advance fun _ => ?_
          refine Sim.sim_cur (fun t5 => ?_) ?_
          · refine Sim.sim_ite (fun _ => ?_) (fun _ => Sim.sim_pure _)
            refine Sim.sim_advance fun _ => ?_
            refine Sim.sim_cur (fun t6 => ?_) ?_
            · refine Sim.sim_ite
                (fun _ => Sim.sim_fail_at (reports_value _ _ (by simp [valuePrefixes])))
                (fun _ => ?_)
              exact Sim.sim_advance fun _ => Sim.sim_pure _
            · rcases F.hy with h | h
                <;> simp only [h, ne_eq, reduceCtorEq, not_false_eq_true, if_true]
                <;> exact Sim.sim_fail_edge (reports_value _ _ (by simp [valuePrefixes]))
          · rcases F.hy with h | h <;> simp only [h, hx5, reduceCtorEq, if_false]
              <;> exact Sim.sim_pure _
        · rcases F.hy with h | h
            <;> simp only [h, ne_eq, reduceCtorEq, not_false_eq_true, if_true]
            <;> exact Sim.sim_fail_edge (reports_value _ _ (by simp [valuePrefixes]))
      · rcases F.hy with h | h <;> simp only [h, hx2, reduceCtorEq, if_false]
          <;> exact Sim.sim_pure _
    · rcases F.hy with h | h
        <;> simp only [h, ne_eq, reduceCtorEq, not_false_eq_true, if_true]
        <;> exact Sim.sim_fail_edge (reports_value _ _ (by simp [valuePrefixes]))
  · refine EdgeFail.edge_cur ?_
    rcases F.hy with h | h
      <;> simp only [h, ne_eq, reduceCtorEq, not_false_eq_true, if_true]
      <;> exact EdgeFail.edge_fail (reports_value _ _ (by simp [valuePrefixes]))

theorem parseMember_edgeFail (F : Frame) : F.EdgeFail parseMember := by
  unfold parseMember
  refine EdgeFail.edge_cur ?_
  rcases F.hy with h | h
    <;> simp only [h, reduceCtorEq, or_self, if_false, pure_bind_M]
    <;> refine EdgeFail.edge_cur ?_
    <;> simp only [h, ne_eq, reduceCtorEq, not_false_eq_true, if_true]
    <;> exact EdgeFail.edge_fail (reports_value _ _ (by simp [valuePrefixes]))

theorem parseMember_sim_at (F : Frame) (t : Token) :
    F.Sim 1 (StartsWith t) parseMember parseMember := by
  obtain ⟨hx1, hx2, hx3, hx4, hx5, hx6, hx7⟩ := F.hx
  unfold parseMember
  refine Sim.sim_cur_bind_at ?_ (fun visibility => ?_)
  · refine Sim.sim_ite (fun _ => ?_) (fun _ => Sim.sim_pure _)
    exact Sim.sim_advance fun _ => Sim.sim_pure _
  · refine Sim.sim_cur (fun t2 => ?_) ?_
    · refine Sim.sim_ite (fun _ => Sim.sim_fail_at (reports_value _ _ (by simp [valuePrefixes])))
        (fun _ => ?_)
      refine Sim.sim_advance fun _ => ?_
      refine Sim.sim_kind (fun t3 => ?_) ?_
      · refine Sim.sim_ite (fun _ => ((parseMethod_sim F t3 _ _).sim_le (by omega)))
          (fun _ => (parseField_sim F _ _).sim_weaken)
      · rcases F.hy with h | h <;> simp only [h, hx4, reduceCtorEq, if_false]
          <;> exact (parseField_sim F _ _).sim_weaken
    · rcases F.hy with h | h
        <;> simp only [h, ne_eq, reduceCtorEq, not_false_eq_true, if_true]
        <;> exact Sim.sim_fail_edge (reports_value _ _ (by simp [valuePrefixes]))

theorem parseMember_sim (F : Frame) : F.Sim 1 Anywhere parseMember parseMember := by
  intro W n n' _ hH
  cases W with
  | nil => exact Sim.sim_of_edgeFail (parseMember_edgeFail F) [] n n' rfl hH
  | cons t W => exact parseMember_sim_at F t (t :: W) n n' ⟨W, rfl⟩ hH

theorem parseMembers_sim (F : Frame) (fuel : Nat) :
    ∀ (fuel' : Nat) (node : ASTNode),
      F.LSim Closing (min fuel fuel') Anywhere (parseMembers fuel node)
        (parseMembers fuel' node) := by
  induction fuel with
  | zero => intro fuel' node; rw [Nat.zero_min]; exact LSim.lsim_zero
  | succ fuel ih =>
    intro fuel' node
    cases fuel' with
    | zero => rw [Nat.min_zero]; exact LSim.lsim_zero
    | succ fuel' =>
      rw [Nat.succ_min_succ]
      simp only [parseMembers]
      refine LSim.lsim_kind (fun t => ?_) ?_
      · refine LSim.lsim_ite (fun _ => ?_) (fun hc => ?_)
        · exact LSim.lsim_bind_adv ((parseMember_sim F).sim_weaken) fun propertyNode => ih fuel' _
        · refine LSim.lsim_exit_at _ ?_
          by_cases h1 : t.Kind = TokenKind.EOF
          · exact Or.inl h1
          · by_cases h2 : t.Kind = TokenKind.RBRACE
            · exact Or.inr h2
            · exact absurd ⟨h1, h2⟩ hc
      · rcases F.hy with h | h
        · simp only [h, ne_eq, reduceCtorEq, not_false_eq_true, not_true_eq_false,
            false_and, if_false]
          exact LSim.lsim_exit_edge _ (by rw [h]; exact Or.inl rfl)
        · simp only [h, ne_eq, reduceCtorEq, not_false_eq_true, not_true_eq_false,
            and_false, if_false]
          exact LSim.lsim_exit_edge _ (by rw [h]; exact Or.inr rfl)

theorem reports_kind (L : Lexer) (tok : Token) {pre : String} (mid : String)
    (h : pre = "unexpected token: " ∨
      pre = "expected relationship token, got token type of:" ∨
      pre = "expected token type: ") :
    Reports L (pre ++ L.TokenKindName tok.Kind ++ mid ++ tok.Value) tok :=
  Or.inr (Or.inr ⟨pre, mid, "", h, by simp⟩)

theorem reports_kind_suffix (L : Lexer) (tok : Token) {pre : String} (mid suf : String)
    (h : pre = "unexpected token: " ∨
      pre = "expected relationship token, got token type of:" ∨
      pre = "expected token type: ") :
    Reports L (pre ++ L.TokenKindName tok.Kind ++ mid ++ tok.Value ++ suf) tok :=
  Or.inr (Or.inr ⟨pre, mid, suf, h, rfl⟩)

theorem reports_middle (L : Lexer) (tok : Token) (a b c : String) :
    Reports L ("expected Quotation token for middle label on relationship, got token type of:"
      ++ a ++ b ++ c) tok :=
  Or.inl ⟨a ++ b ++ c, by simp [middleLabelPrefix, String.append_assoc]⟩

theorem parseClass_sim (F : Frame) (hE : F.y.Kind = TokenKind.EOF) (t : Token) :
    F.Sim 1 (StartsWith t) parseClass parseClass := by
  obtain ⟨hx1, hx2, hx3, hx4, hx5, hx6, hx7⟩ := F.hx
  unfold parseClass
  refine Sim.sim_advance fun _ => ?_
  refine Sim.sim_cur (fun t2 => ?_) ?_
  · refine Sim.sim_ite (fun _ => Sim.sim_fail_at (reports_value _ _ (by simp [valuePrefixes])))
      (fun _ => ?_)
    refine Sim.sim_advance fun _ => ?_
    refine Sim.sim_kind (fun t3 => ?_) ?_
    · refine Sim.sim_ite (fun _ => ?_) (fun _ => Sim.sim_pure _)
      refine Sim.sim_advance fun _ => ?_
      refine Sim.sim_loop (fun fuel fuel' => parseMembers_sim F fuel fuel' _)
        (fun classNode => ?_) (fun classNode => ?_)
      · refine Sim.sim_cur (fun t4 => ?_) ?_
        · refine Sim.sim_ite
            (fun _ => Sim.sim_fail_at (reports_value _ _ (by simp [valuePrefixes])))
            (fun _ => ?_)
          exact Sim.sim_advance fun _ => Sim.sim_pure _
        · simp only [hE, ne_eq, reduceCtorEq, not_false_eq_true, if_true]
          exact Sim.sim_fail_edge (reports_value _ _ (by simp [valuePrefixes]))
      · refine EdgeFail.edge_cur ?_
        simp only [hE, ne_eq, reduceCtorEq, not_false_eq_true, if_true]
        exact EdgeFail.edge_fail (reports_value _ _ (by simp [valuePrefixes]))
    · simp only [hE, hx3, reduceCtorEq, if_false]
      exact Sim.sim_pure _
  · simp only [hE, ne_eq, reduceCtorEq, not_false_eq_true, if_true]
    exact Sim.sim_fail_edge (reports_value _ _ (by simp [valuePrefixes]))

theorem parseInterface_sim (F : Frame) (hE : F.y.Kind = TokenKind.EOF) (t : Token) :
    F.Sim 1 (StartsWith t) parseInterface parseInterface := by
  unfold parseInterface
  refine Sim.sim_advance fun _ => ?_
  refine Sim.sim_cur (fun t2 => ?_) ?_
  · refine Sim.sim_ite (fun _ => Sim.sim_fail_at (reports_value _ _ (by simp [valuePrefixes])))
      (fun _ => ?_)
    exact Sim.sim_advance fun _ => Sim.sim_pure _
  · simp only [hE, ne_eq, reduceCtorEq, not_false_eq_true, if_true]
    exact Sim.sim_fail_edge (reports_value _ _ (by simp [valuePrefixes]))

theorem parseRelationship_sim (F : Frame) (hE : F.y.Kind = TokenKind.EOF) (hR : F.R = []) :
    F.Sim 1 Anywhere (parseRelationship F.L) (parseRelationship F.L) := by
  obtain ⟨hx1, hx2, hx3, hx4, hx5, hx6, hx7⟩ := F.hx
  unfold parseRelationship
  refine Sim.sim_cur (fun t => ?_) ?_
  · refine Sim.sim_ite
      (fun _ => Sim.sim_fail_at (reports_kind_suffix _ _ _ _ (Or.inr (Or.inr rfl))))
      (fun _ => ?_)
    refine Sim.sim_advance fun _ => ?_
    refine Sim.sim_cur_bind (fun t2 => ?_) ?_ (fun relationshipNode => ?_)
    · refine Sim.sim_ite (fun _ => ?_) (fun _ => Sim.sim_pure _)
      exact Sim.sim_advance fun _ => Sim.sim_pure _
    · simp only [hE, hx1, reduceCtorEq, if_false]
      exact Sim.sim_pure _
    refine Sim.sim_cur (fun t3 => ?_) ?_
    · refine Sim.sim_ite
        (fun _ => Sim.sim_fail_at (reports_kind _ _ _ (Or.inr (Or.inl rfl))))
        (fun _ => ?_)
      refine Sim.sim_advance fun _ => ?_
      refine Sim.sim_cur_bind (fun t4 => ?_) ?_ (fun relationshipNode => ?_)
      · refine Sim.sim_ite (fun _ => ?_) (fun _ => Sim.sim_pure _)
        exact Sim.sim_advance fun _ => Sim.sim_pure _
      · simp only [hE, hx1, reduceCtorEq, if_false]
        exact Sim.sim_pure _
      refine Sim.sim_cur (fun t5 => ?_) ?_
      · refine Sim.sim_ite
          (fun _ => Sim.sim_fail_at (reports_value _ _ (by simp [valuePrefixes])))
          (fun _ => ?_)
        refine Sim.sim_advance fun _ => ?_
        refine Sim.sim_cur (fun t6 => ?_) ?_
        · refine Sim.sim_ite (fun _ => ?_) (fun _ => Sim.sim_pure _)
          refine Sim.sim_advance fun _ => ?_
          refine Sim.sim_cur (fun t7 => ?_) ?_
          · refine Sim.sim_ite (fun _ => Sim.sim_fail_at (reports_middle _ _ _ _ _)) (fun _ => ?_)
            exact Sim.sim_advance fun _ => Sim.sim_pure _
          · simp only [hE, ne_eq, reduceCtorEq, not_false_eq_true, if_true]
            exact Sim.sim_fail_edge (reports_middle _ _ _ _ _)
        · simp only [hE, hx2, reduceCtorEq, if_false]
          exact Sim.sim_pure _
      · simp only [hE, ne_eq, reduceCtorEq, not_false_eq_true, if_true]
        exact Sim.sim_fail_edge (reports_value _ _ (by simp [valuePrefixes]))
    · -- the cursor of `T` is on `y`, its last token, where an operator is expected
      refine Sim.sim_of_edgeFail ?_
      by_cases hrel : F.L.IsRelationshipKind F.y.Kind = true
      · simp only [hrel, not_true_eq_false, if_false]
        refine EdgeFail.edge_advance_last hR fun _ => ?_
        refine EdgeFail.edge_cur ?_
        simp only [hE, reduceCtorEq, if_false, pure_bind_M]
        refine EdgeFail.edge_cur ?_
        simp only [hE, ne_eq, reduceCtorEq, not_false_eq_true, if_true]
        exact EdgeFail.edge_fail (reports_value _ _ (by simp [valuePrefixes]))
      · simp only [hrel, not_false_eq_true, if_true]
        exact EdgeFail.edge_fail (reports_kind _ _ _ (Or.inr (Or.inl rfl)))
  · have hne : F.y.Kind ≠ TokenKind.IDENTIFIER := by rw [hE]; exact fun h => nomatch h
    rw [if_pos hne]
    exact Sim.sim_fail_edge (reports_kind_suffix _ _ _ _ (Or.inr (Or.inr rfl)))

theorem parseEntity_sim (F : Frame) (hE : F.y.Kind = TokenKind.EOF) (hR : F.R = []) :
    F.Sim 1 Anywhere (parseEntity F.L) (parseEntity F.L) := by
  unfold parseEntity
  refine Sim.sim_cur (fun t => ?_) ?_
  · cases hk : t.Kind
    case CLASS => exact parseClass_sim F hE t
    case INTERFACE => exact parseInterface_sim F hE t
    case IDENTIFIER => exact (parseRelationship_sim F hE hR).sim_weaken
    all_goals
      simp only []
      rw [← hk]
      exact Sim.sim_fail_at (reports_kind _ _ _ (Or.inl rfl))
  · simp only [hE]
    exact Sim.sim_fail_edge (by
      have := @reports_kind F.L F.y "unexpected token: " ", Token value: " (Or.inl rfl)
      rwa [hE] at this)

theorem parseEntities_sim (F : Frame) (hE : F.y.Kind = TokenKind.EOF) (hR : F.R = [])
    (fuel : Nat) :
    ∀ (fuel' : Nat) (root : ASTNode),
      F.LSim (fun k => k = TokenKind.EOF) (min fuel fuel') Anywhere
        (parseEntities F.L fuel root) (parseEntities F.L fuel' root) := by
  induction fuel with
  | zero => intro fuel' node; rw [Nat.zero_min]; exact LSim.lsim_zero
  | succ fuel ih =>
    intro fuel' node
    cases fuel' with
    | zero => rw [Nat.min_zero]; exact LSim.lsim_zero
    | succ fuel' =>
      rw [Nat.succ_min_succ]
      simp only [parseEntities]
      refine LSim.lsim_kind (fun t => ?_) ?_
      · refine LSim.lsim_ite (fun _ => ?_) (fun hc => ?_)
        · exact LSim.lsim_bind_adv ((parseEntity_sim F hE hR).sim_weaken) fun node => ih fuel' _
        · exact LSim.lsim_exit_at _ (not_not.mp hc)
      · simp only [hE, ne_eq, not_true_eq_false, if_false]
        exact LSim.lsim_exit_edge _ hE

end Frame

/-! ## What the loops append, and what a rule starts with -/

theorem parse_eq_parseEntities (L : Lexer) (T : List Token) :
    Parse L (NewParser T) = parseEntities L (T.length + 1) (rootOf []) ⟨T, 0⟩ := rfl

theorem currentToken_state {p p1 : Parser} {t : Token}
    (h : currentToken p = Res.ok t p1) : p1 = p ∧ p.tokens[p.pos]? = some t := by
  unfold currentToken at h
  split at h
  · next t' ht =>
    injection h with h1 h2
    exact ⟨h2.symm, by rw [ht, h1]⟩
  · exact absurd h (fun h => nomatch h)

theorem currentTokenKind_apply (p : Parser) :
    currentTokenKind p = match currentToken p with
      | Res.ok t q => Res.ok t.Kind q
      | Res.error m q => Res.error m q
      | Res.outOfRange => Res.outOfRange
      | Res.outOfFuel => Res.outOfFuel := by
  unfold currentTokenKind
  rw [bind_apply]
  cases currentToken p <;> rfl

theorem parseEntities_children (L : Lexer) (fuel : Nat) :
    ∀ (root : ASTNode) (p : Parser) (r : ASTNode) (q : Parser),
      parseEntities L fuel root p = Res.ok r q →
      ∃ cs, r.Children = root.Children ++ cs ∧
        (cs = [] → ∃ t, p.tokens[p.pos]? = some t ∧ t.Kind = TokenKind.EOF) := by
  induction fuel with
  | zero =>
    intro root p r q h
    exact absurd h (fun h => nomatch h)
  | succ fuel ih =>
    intro root p r q h
    simp only [parseEntities, bind_apply, currentTokenKind_apply] at h
    cases hc : currentToken p with
    | ok t p1 =>
      obtain ⟨rfl, ht⟩ := currentToken_state hc
      rw [hc] at h
      simp only [] at h
      by_cases hk : t.Kind = TokenKind.EOF
      · simp only [hk, ne_eq, not_true_eq_false, if_false, pure_apply] at h
        injection h with h1 h2
        subst h1
        exact ⟨[], by simp, fun _ => ⟨t, ht, hk⟩⟩
      · simp only [hk, ne_eq, not_false_eq_true, if_true, bind_apply] at h
        cases he : parseEntity L p1 with
        | ok node p2 =>
          rw [he] at h
          obtain ⟨cs, hcs, -⟩ := ih _ _ _ _ h
          exact ⟨node :: cs, by simpa using hcs, fun h => nomatch h⟩
        | error m p2 => rw [he] at h; exact absurd h (fun h => nomatch h)
        | outOfRange => rw [he] at h; exact absurd h (fun h => nomatch h)
        | outOfFuel => rw [he] at h; exact absurd h (fun h => nomatch h)
    | error m p1 => rw [hc] at h; exact absurd h (fun h => nomatch h)
    | outOfRange => rw [hc] at h; exact absurd h (fun h => nomatch h)
    | outOfFuel => rw [hc] at h; exact absurd h (fun h => nomatch h)

theorem parseMembers_children (fuel : Nat) :
    ∀ (node : ASTNode) (p : Parser) (v : ASTNode) (q : Parser),
      parseMembers fuel node p = Res.ok v q →
      ∃ cs, v.Children = node.Children ++ cs ∧ (cs = [] → v = node ∧ q = p) := by
  induction fuel with
  | zero =>
    intro node p v q h
    exact absurd h (fun h => nomatch h)
  | succ fuel ih =>
    intro node p v q h
    simp only [parseMembers, bind_apply, currentTokenKind_apply] at h
    cases hc : currentToken p with
    | ok t p1 =>
      obtain ⟨rfl, -⟩ := currentToken_state hc
      rw [hc] at h
      by_cases hk : t.Kind ≠ TokenKind.EOF ∧ t.Kind ≠ TokenKind.RBRACE
      · dsimp only at h
        rw [if_pos hk] at h
        simp only [bind_apply] at h
        cases he : parseMember p1 with
        | ok n p2 =>
          rw [he] at h
          obtain ⟨cs, hcs, -⟩ := ih _ _ _ _ h
          exact ⟨n :: cs, by simpa using hcs, fun h => nomatch h⟩
        | error m p2 => rw [he] at h; exact absurd h (fun h => nomatch h)
        | outOfRange => rw [he] at h; exact absurd h (fun h => nomatch h)
        | outOfFuel => rw [he] at h; exact absurd h (fun h => nomatch h)
      · dsimp only at h
        rw [if_neg hk] at h
        simp only [pure_apply] at h
        injection h with h1 h2
        subst h1 h2
        exact ⟨[], by simp, fun _ => ⟨rfl, rfl⟩⟩
    | error m p1 => rw [hc] at h; exact absurd h (fun h => nomatch h)
    | outOfRange => rw [hc] at h; exact absurd h (fun h => nomatch h)
    | outOfFuel => rw [hc] at h; exact absurd h (fun h => nomatch h)

theorem parseEntity_ok_kind (L : Lexer) {T : List Token} {n : Nat} {t : Token}
    {rest : List Token} {c : ASTNode} {q : Parser} (h0 : T.drop n = t :: rest)
    (h : parseEntity L ⟨T, n⟩ = Res.ok c q) :
    t.Kind = TokenKind.CLASS ∨ t.Kind = TokenKind.INTERFACE ∨
      t.Kind = TokenKind.IDENTIFIER := by
  simp only [parseEntity, bind_apply, currentToken_of_drop h0] at h
  cases hk : t.Kind <;> simp [hk, fail] at h ⊢

theorem parseMember_ok_kind {T : List Token} {n : Nat} {t : Token}
    {rest : List Token} {c : ASTNode} {q : Parser} (h0 : T.drop n = t :: rest)
    (h : parseMember ⟨T, n⟩ = Res.ok c q) :
    IsVisibility t.Kind ∨ t.Kind = TokenKind.IDENTIFIER := by
  by_cases hv : IsVisibility t.Kind
  · exact Or.inl hv
  · right
    have hv' : ¬ (t.Kind = TokenKind.DASH ∨ t.Kind = TokenKind.POUND ∨
        t.Kind = TokenKind.PLUS ∨ t.Kind = TokenKind.TILDE) := hv
    simp only [parseMember, bind_apply, currentToken_of_drop h0, hv', if_false,
      pure_apply] at h
    by_contra hk
    simp [hk, fail] at h

theorem quiet_of_entity_kind {k : TokenKind}
    (h : k = TokenKind.CLASS ∨ k = TokenKind.INTERFACE ∨ k = TokenKind.IDENTIFIER) :
    Quiet k := by
  rcases h with h | h | h <;> simp [Quiet, h]

theorem quiet_of_member_kind {k : TokenKind}
    (h : IsVisibility k ∨ k = TokenKind.IDENTIFIER) : Quiet k := by
  rcases h with (h | h | h | h) | h <;> simp [Quiet, h]

/-- The run of `Parse` on a document that starts `class name {`: everything up to the
member loop is determined. -/
theorem parse_class_block (L : Lexer) {T : List Token} {kw nm lb t3 : Token}
    {rest3 : List Token} (h0 : T.drop 0 = kw :: nm :: lb :: t3 :: rest3)
    (hkw : kw.Kind = TokenKind.CLASS) (hnm : nm.Kind = TokenKind.IDENTIFIER)
    (hlb : lb.Kind = TokenKind.LBRACE) :
    Parse L (NewParser T)
      = match parseMembers (T.length + 1)
          { ASTNode.zero NodeType.CLASS with Name := nm.Value } ⟨T, 3⟩ with
        | Res.ok v q =>
          (match currentToken q with
            | Res.ok closeToken q1 =>
              if closeToken.Kind ≠ TokenKind.RBRACE then
                Res.error ("expected '\x7d' got " ++ closeToken.Value) q1
              else
                (match advance q1 with
                  | Res.ok _ q2 => parseEntities L T.length (rootOf [v]) q2
                  | Res.error m q2 => Res.error m q2
                  | Res.outOfRange => Res.outOfRange
                  | Res.outOfFuel => Res.outOfFuel)
            | Res.error m q1 => Res.error m q1
            | Res.outOfRange => Res.outOfRange
            | Res.outOfFuel => Res.outOfFuel)
        | Res.error m q => Res.error m q
        | Res.outOfRange => Res.outOfRange
        | Res.outOfFuel => Res.outOfFuel := by
  have h1 := drop_succ_of_drop h0
  have h2 := drop_succ_of_drop h1
  simp only [Nat.zero_add, Nat.reduceAdd] at h1 h2
  simp only [Parse, NewParser, loopFuel, parseEntities, parseEntity, parseClass,
    bind_apply, pure_apply, fail,
    currentToken_of_drop h0, currentTokenKind_of_drop h0, advance_of_drop h0,
    currentToken_of_drop h1, currentTokenKind_of_drop h1, advance_of_drop h1,
    currentToken_of_drop h2, currentTokenKind_of_drop h2, advance_of_drop h2,
    hkw, hnm, hlb, ne_eq, reduceCtorEq, not_false_eq_true, not_true_eq_false,
    if_true, if_false]
  cases parseMembers (T.length + 1) _ ⟨T, 3⟩ with
  | ok v q =>
    simp only []
    cases currentToken q with
    | ok closeToken q1 =>
      simp only []
      by_cases hk : closeToken.Kind = TokenKind.RBRACE
      · simp only [hk, not_true_eq_false, if_false]
        cases hadv : advance q1 <;>
          simp [bind_apply, pure_apply, hadv, rootOf, ASTNode.zero]
      · simp [hk, fail]
    | error m q1 => rfl
    | outOfRange => rfl
    | outOfFuel => rfl
  | error m q => rfl
  | outOfRange => rfl
  | outOfFuel => rfl

theorem mentions_append_right (a b : String) : Mentions (a ++ b) b := by
  unfold Mentions
  rw [String.data_append]
  exact (List.suffix_append _ _).isInfix

theorem mentions_append_left {a b : String} (c : String) (h : Mentions a b) :
    Mentions (a ++ c) b := by
  unfold Mentions at h ⊢
  rw [String.data_append]
  exact h.trans (List.prefix_append _ _).isInfix

theorem mentions_of_reports {L : Lexer} {msg : String} {tok : Token}
    (h : Reports L msg tok) :
    (∃ s, msg = middleLabelPrefix ++ s) ∨ Mentions msg tok.Value := by
  rcases h with h | ⟨pre, -, rfl⟩ | ⟨pre, mid, suf, -, rfl⟩
  · exact Or.inl h
  · exact Or.inr (mentions_append_right _ _)
  · exact Or.inr (mentions_append_left _ (mentions_append_right _ _))

theorem length_le_paramTokens (ps : List (String × String)) :
    ps.length ≤ (paramTokens ps).length := by
  induction ps with
  | nil => simp [paramTokens]
  | cons d ps ih =>
    obtain ⟨nm, ty⟩ := d
    cases ps with
    | nil => simp [paramTokens]
    | cons q ps =>
      simp only [paramTokens, List.length_cons] at ih ⊢
      omega

theorem parseParameters_params (ps : List (String × String)) :
    ∀ (fuel : Nat) (node : ASTNode) (T : List Token) (n : Nat) (cv : String)
      (rest : List Token),
      T.drop n = paramTokens ps ++ ⟨TokenKind.RPAREN, cv⟩ :: rest → ps.length < fuel →
      parseParameters fuel node ⟨T, n⟩
        = Res.ok { node with Parameters := node.Parameters ++ ps.map paramNode }
            ⟨T, n + (paramTokens ps).length⟩ := by
  induction ps with
  | nil =>
    intro fuel node T n cv rest h hf
    obtain ⟨fuel, rfl⟩ : ∃ f, fuel = f + 1 := ⟨fuel - 1, by simp at hf; omega⟩
    simp only [paramTokens, List.nil_append] at h
    cases node
    simp [parseParameters, bind_apply, pure_apply, currentTokenKind_of_drop h, paramTokens]
  | cons d ps ih =>
    intro fuel node T n cv rest h hf
    obtain ⟨fuel, rfl⟩ : ∃ f, fuel = f + 1 := ⟨fuel - 1, by simp at hf; omega⟩
    obtain ⟨nm, ty⟩ := d
    cases node
    cases ps with
    | nil =>
      simp only [paramTokens, List.cons_append, List.nil_append] at h
      have h1 := drop_succ_of_drop h
      have h2 := drop_succ_of_drop h1
      have h3 := drop_succ_of_drop h2
      simp only [parseParameters, parseField,
      currentToken_of_drop h,
      currentTokenKind_of_drop h,
      advance_of_drop h,
      currentToken_of_drop h1,
      currentTokenKind_of_drop h1,
      advance_of_drop h1,
      currentToken_of_drop h2,
      currentTokenKind_of_drop h2,
      advance_of_drop h2,
      currentToken_of_drop h3,
      currentTokenKind_of_drop h3,
      ne_eq, reduceCtorEq, not_false_eq_true, and_self, if_true, if_false,
      not_true_eq_false, or_self, bind_apply, pure_apply]
      rw [ih fuel _ T (n + 1 + 1 + 1) cv rest (by simpa [paramTokens] using h3)
        (by simpa using hf)]
      simp [paramTokens, paramNode, ASTNode.zero, Nat.add_assoc]
    | cons q ps =>
      simp only [paramTokens, List.cons_append] at h
      have h1 := drop_succ_of_drop h
      have h2 := drop_succ_of_drop h1
      have h3 := drop_succ_of_drop h2
      have h4 := drop_succ_of_drop h3
      have hne : ∃ t2 rest2, paramTokens (q :: ps) ++ ⟨TokenKind.RPAREN, cv⟩ :: rest
          = t2 :: rest2 := by
        cases hq : paramTokens (q :: ps) ++ ⟨TokenKind.RPAREN, cv⟩ :: rest with
        | nil => simp at hq
        | cons t2 rest2 => exact ⟨t2, rest2, rfl⟩
      obtain ⟨t2, rest2, hq⟩ := hne
      have h3' := h3
      rw [hq] at h3'
      simp only [parseParameters, parseField,
      currentToken_of_drop h,
      currentTokenKind_of_drop h,
      advance_of_drop h,
      currentToken_of_drop h1,
      currentTokenKind_of_drop h1,
      advance_of_drop h1,
      currentToken_of_drop h2,
      currentTokenKind_of_drop h2,
      advance_of_drop h2,
      currentToken_of_drop h3,
      currentTokenKind_of_drop h3,
      advance_of_drop h3',
      ne_eq, reduceCtorEq, not_false_eq_true, and_self, if_true, if_false,
      not_true_eq_false, or_self, bind_apply, pure_apply]
      rw [ih fuel _ T (n + 1 + 1 + 1 + 1) cv rest h4 (by simp at hf ⊢; omega)]
      simp [paramTokens, paramNode, ASTNode.zero, Nat.add_assoc]
      omega

/-! ## Documents, entity by entity -/

/-- A document that parses to a root with the single child `c`: the tokens `s` in front
of the end-of-input token are one entity, and `parseEntity` reads exactly them. -/
theorem parseEntity_of_single (L : Lexer) (s : List Token) (e : Token)
    (he : e.Kind = TokenKind.EOF) (hs : ∀ t ∈ s, t.Kind ≠ TokenKind.EOF)
    (root c : ASTNode) (q : Parser)
    (h : Parse L (NewParser (s ++ [e])) = Res.ok root q) (hc : root.Children = [c]) :
    (∃ t s', s = t :: s' ∧ (t.Kind = TokenKind.CLASS ∨ t.Kind = TokenKind.INTERFACE ∨
        t.Kind = TokenKind.IDENTIFIER)) ∧
    parseEntity L ⟨s ++ [e], 0⟩ = Res.ok c ⟨s ++ [e], s.length⟩ := by
  rw [parse_eq_parseEntities] at h
  simp only [parseEntities, bind_apply] at h
  have h0 : (s ++ [e]).drop 0 = s ++ e :: [] := rfl
  cases s with
  | nil =>
    exfalso
    have h0' : ([] ++ [e]).drop 0 = e :: [] := rfl
    simp only [currentTokenKind_of_drop h0', he, ne_eq, not_true_eq_false, if_false,
      pure_apply] at h
    injection h with h1 h2
    subst h1
    simp [rootOf] at hc
  | cons t s' =>
    have hsim := Frame.parseEntity_sim (selfFrame L (t :: s' ++ [e]) e [] he) he rfl
      (t :: s') 0 0 trivial ⟨h0, h0⟩
    change Frame.Outcome _ 1 (t :: s') 0 0 (parseEntity L ⟨t :: s' ++ [e], 0⟩) _ at hsim
    have h0' : (t :: s' ++ [e]).drop 0 = t :: (s' ++ [e]) := rfl
    have htk : t.Kind ≠ TokenKind.EOF := hs t (List.mem_cons_self _ _)
    simp only [currentTokenKind_of_drop h0', htk, ne_eq, not_false_eq_true, if_true,
      bind_apply] at h
    cases hr : parseEntity L ⟨t :: s' ++ [e], 0⟩ with
    | ok c1 q1 =>
      rw [hr] at h hsim
      obtain ⟨j, -, hj, hq1, -⟩ := hsim
      obtain ⟨cs, hcs, hnil⟩ := parseEntities_children L _ _ _ _ _ h
      rw [hc] at hcs
      simp only [rootOf, ASTNode.zero, List.nil_append, List.singleton_append] at hcs
      injection hcs with hc1 hcs'
      subst hc1
      obtain ⟨t', ht', hk'⟩ := hnil hcs'.symm
      subst hq1
      simp only [selfFrame, Nat.zero_add] at ht' ⊢
      have hjs : j = (t :: s').length := by
        by_contra hne
        have hlt : j < (t :: s').length := by omega
        rw [List.getElem?_append_left hlt] at ht'
        exact hs t' (List.getElem?_mem ht') hk'
      subst hjs
      exact ⟨⟨t, s', rfl, parseEntity_ok_kind L h0' hr⟩, rfl⟩
    | error m q1 => rw [hr] at h; exact absurd h (fun h => nomatch h)
    | outOfRange => rw [hr] at h; exact absurd h (fun h => nomatch h)
    | outOfFuel => rw [hr] at h; exact absurd h (fun h => nomatch h)

theorem quiet_head_of_segments (L : Lexer) (e : Token) (he : e.Kind = TokenKind.EOF)
    (segs : List (List Token × ASTNode)) (h : ∀ sc ∈ segs, SingleEntity L sc.1 sc.2) :
    ∃ x R', (segs.map Prod.fst).flatten ++ [e] = x :: R' ∧ Quiet x.Kind := by
  cases segs with
  | nil => exact ⟨e, [], rfl, by simp [Quiet, he]⟩
  | cons sc segs =>
    obtain ⟨hs, e', q, root, he', hp, hc⟩ := h sc (List.mem_cons_self _ _)
    obtain ⟨⟨t, s', hts, hk⟩, -⟩ := parseEntity_of_single L sc.1 e' he' hs root sc.2 q hp hc
    refine ⟨t, s' ++ (segs.map Prod.fst).flatten ++ [e], ?_, quiet_of_entity_kind hk⟩
    simp [hts]

theorem parseEntities_segments (L : Lexer) (e : Token) (he : e.Kind = TokenKind.EOF)
    (segs : List (List Token × ASTNode)) :
    (∀ sc ∈ segs, SingleEntity L sc.1 sc.2) →
    ∀ (pre : List Token) (root : ASTNode) (fuel : Nat),
      ((segs.map Prod.fst).flatten).length < fuel →
      parseEntities L fuel root ⟨pre ++ (segs.map Prod.fst).flatten ++ [e], pre.length⟩
        = Res.ok { root with Children := root.Children ++ segs.map Prod.snd }
            ⟨pre ++ (segs.map Prod.fst).flatten ++ [e],
              pre.length + ((segs.map Prod.fst).flatten).length⟩ := by
  induction segs with
  | nil =>
    intro _ pre root fuel hf
    obtain ⟨fuel, rfl⟩ : ∃ f, fuel = f + 1 := ⟨fuel - 1, by omega⟩
    simp only [List.map_nil, List.flatten_nil, List.append_nil, List.length_nil,
      Nat.add_zero]
    have h0 : (pre ++ [e]).drop pre.length = e :: [] := by simp
    cases root
    simp [parseEntities, bind_apply, pure_apply, currentTokenKind_of_drop h0, he]
  | cons sc segs ih =>
    intro hall pre root fuel hf
    have hrest : ∀ sc' ∈ segs, SingleEntity L sc'.1 sc'.2 :=
      fun sc' h => hall sc' (List.mem_cons_of_mem _ h)
    obtain ⟨hs, e', q, root1, he', hp, hc⟩ := hall sc (List.mem_cons_self _ _)
    obtain ⟨⟨t, s', hts, hk⟩, hent⟩ :=
      parseEntity_of_single L sc.1 e' he' hs root1 sc.2 q hp hc
    obtain ⟨x, R', hxR, hxq⟩ := quiet_head_of_segments L e he segs hrest
    obtain ⟨fuel, rfl⟩ : ∃ f, fuel = f + 1 := ⟨fuel - 1, by omega⟩
    have hT' : pre ++ ((sc :: segs).map Prod.fst).flatten ++ [e]
        = pre ++ (sc.1 ++ x :: R') := by
      simp only [List.map_cons, List.flatten_cons, List.append_assoc]
      rw [← hxR]
    have hT2 : pre ++ ((sc :: segs).map Prod.fst).flatten ++ [e]
        = (pre ++ sc.1) ++ (segs.map Prod.fst).flatten ++ [e] := by
      simp only [List.map_cons, List.flatten_cons, List.append_assoc]
    have hd' : (pre ++ ((sc :: segs).map Prod.fst).flatten ++ [e]).drop pre.length
        = sc.1 ++ x :: R' := by
      rw [hT', List.drop_left]
    have hsim := Frame.parseEntity_sim
      { L := L, T := sc.1 ++ [e'], T' := pre ++ ((sc :: segs).map Prod.fst).flatten ++ [e],
        y := e', x := x, R := [], R' := R', hy := Or.inl he', hx := hxq }
      he' rfl sc.1 0 pre.length trivial ⟨rfl, hd'⟩
    change Frame.Outcome _ 1 sc.1 0 pre.length (parseEntity L ⟨sc.1 ++ [e'], 0⟩)
      (parseEntity L ⟨pre ++ ((sc :: segs).map Prod.fst).flatten ++ [e], pre.length⟩) at hsim
    rw [hent] at hsim
    obtain ⟨j, -, -, hq1, hr'⟩ := hsim
    have hj : j = sc.1.length := by
      injection hq1 with _ h2
      omega
    subst hj
    have hd0 : (pre ++ ((sc :: segs).map Prod.fst).flatten ++ [e]).drop pre.length
        = t :: (s' ++ x :: R') := by
      rw [hd', hts]; rfl
    have htk : t.Kind ≠ TokenKind.EOF := hs t (by rw [hts]; exact List.mem_cons_self _ _)
    simp only [parseEntities, bind_apply, currentTokenKind_of_drop hd0, htk, ne_eq,
      not_false_eq_true, if_true, hr']
    have hlen : ((segs.map Prod.fst).flatten).length < fuel := by
      simp only [List.map_cons, List.flatten_cons, List.length_append, hts,
        List.length_cons] at hf
      omega
    have := ih hrest (pre ++ sc.1) { root with Children := root.Children ++ [sc.2] } fuel hlen
    rw [← hT2] at this
    simp only [List.length_append] at this
    rw [this]
    simp [Nat.add_assoc]

/-- C1: when each of the segments `s1 .. sk` is free of end-of-input tokens and parses
on its own (closed by an end-of-input token) to a root with exactly one child `ci`, the
document `s1 ++ ... ++ sk` closed by an end-of-input token parses to the ROOT node named
`"root"` whose children are exactly `[c1, ..., ck]`, in that order, and the cursor ends
on the end-of-input token. -/
theorem parse_concatenated_entities (L : Lexer) (e : Token) (he : e.Kind = TokenKind.EOF)
    (segs : List (List Token × ASTNode))
    (hsegs : ∀ sc ∈ segs, SingleEntity L sc.1 sc.2) :
    Parse L (NewParser ((segs.map Prod.fst).flatten ++ [e]))
      = Res.ok (rootOf (segs.map Prod.snd))
          ⟨(segs.map Prod.fst).flatten ++ [e], ((segs.map Prod.fst).flatten).length⟩ := by
  rw [parse_eq_parseEntities]
  have := parseEntities_segments L e he segs hsegs [] (rootOf [])
    (((segs.map Prod.fst).flatten ++ [e]).length + 1) (by simp; omega)
  simp only [List.nil_append, List.length_nil, Nat.zero_add] at this
  rw [this]
  simp [rootOf]

/-- Witness of C1: `class A` followed by `A --|> B`. -/
theorem parse_concatenated_entities_witness :
    (⟨TokenKind.EOF, ""⟩ : Token).Kind = TokenKind.EOF ∧
    (∀ sc ∈ sampleEntities, SingleEntity sampleLexer sc.1 sc.2) ∧
    Parse sampleLexer
        (NewParser ((sampleEntities.map Prod.fst).flatten ++ [⟨TokenKind.EOF, ""⟩]))
      = Res.ok (rootOf (sampleEntities.map Prod.snd))
          ⟨(sampleEntities.map Prod.fst).flatten ++ [⟨TokenKind.EOF, ""⟩],
            ((sampleEntities.map Prod.fst).flatten).length⟩ := by
  have h : ∀ sc ∈ sampleEntities, SingleEntity sampleLexer sc.1 sc.2 := by
    intro sc hsc
    simp only [sampleEntities, List.mem_cons, List.mem_singleton, List.not_mem_nil,
      or_false] at hsc
    rcases hsc with rfl | rfl
    · exact ⟨by simp, ⟨TokenKind.EOF, ""⟩, _, _, rfl, rfl, rfl⟩
    · exact ⟨by simp, ⟨TokenKind.EOF, ""⟩, _, _, rfl, rfl, rfl⟩
  exact ⟨rfl, h, parse_concatenated_entities sampleLexer ⟨TokenKind.EOF, ""⟩ rfl
    sampleEntities h⟩

/-! ## Relationships, methods, fields and classes -/

/-- C2: a relationship with both side labels and a middle label,
`a "l" op "r" b : "m"`, parses to a ROOT with exactly one child, a RELATIONSHIP node
whose source, target and three labels are the token values, whose type is the kind name
of the operator and whose name is `a ++ " " ++ op.Value ++ " " ++ b`, built from the
operator's literal. -/
theorem parse_labelled_relationship (L : Lexer) (a l r b m cv ev : String) (op : Token)
    (hop : L.IsRelationshipKind op.Kind = true) :
    Parse L (NewParser [⟨TokenKind.IDENTIFIER, a⟩, ⟨TokenKind.QUOTATION, l⟩, op,
        ⟨TokenKind.QUOTATION, r⟩, ⟨TokenKind.IDENTIFIER, b⟩, ⟨TokenKind.COLON, cv⟩,
        ⟨TokenKind.QUOTATION, m⟩, ⟨TokenKind.EOF, ev⟩])
      = Res.ok (rootOf [{ ASTNode.zero NodeType.RELATIONSHIP with
            SourceClass := a, LeftLabel := l, RightLabel := r, TargetClass := b,
            MiddleLabel := m, RelationshipType := L.TokenKindName op.Kind,
            Name := a ++ " " ++ op.Value ++ " " ++ b }])
          ⟨[⟨TokenKind.IDENTIFIER, a⟩, ⟨TokenKind.QUOTATION, l⟩, op,
            ⟨TokenKind.QUOTATION, r⟩, ⟨TokenKind.IDENTIFIER, b⟩, ⟨TokenKind.COLON, cv⟩,
            ⟨TokenKind.QUOTATION, m⟩, ⟨TokenKind.EOF, ev⟩], 7⟩ := by
  simp [Parse, loopFuel, parseEntities, parseEntity, parseRelationship, currentTokenKind,
    currentToken, nextToken, advance, fail, bind, M.bind, pure, M.pure, NewParser, hop,
    rootOf, ASTNode.zero]

/-- Witness of C2: `A "1" --|> "many" B : "extends"` with the sample lexer. -/
theorem parse_labelled_relationship_witness :
    sampleLexer.IsRelationshipKind (TokenKind.OTHER 0) = true ∧
    Parse sampleLexer (NewParser [⟨TokenKind.IDENTIFIER, "A"⟩, ⟨TokenKind.QUOTATION, "1"⟩,
        ⟨TokenKind.OTHER 0, "--|>"⟩, ⟨TokenKind.QUOTATION, "many"⟩,
        ⟨TokenKind.IDENTIFIER, "B"⟩, ⟨TokenKind.COLON, ":"⟩,
        ⟨TokenKind.QUOTATION, "extends"⟩, ⟨TokenKind.EOF, ""⟩])
      = Res.ok (rootOf [{ ASTNode.zero NodeType.RELATIONSHIP with
            SourceClass := "A", LeftLabel := "1", RightLabel := "many", TargetClass := "B",
            MiddleLabel := "extends",
            RelationshipType := sampleLexer.TokenKindName (TokenKind.OTHER 0),
            Name := "A" ++ " " ++ "--|>" ++ " " ++ "B" }])
          ⟨[⟨TokenKind.IDENTIFIER, "A"⟩, ⟨TokenKind.QUOTATION, "1"⟩,
            ⟨TokenKind.OTHER 0, "--|>"⟩, ⟨TokenKind.QUOTATION, "many"⟩,
            ⟨TokenKind.IDENTIFIER, "B"⟩, ⟨TokenKind.COLON, ":"⟩,
            ⟨TokenKind.QUOTATION, "extends"⟩, ⟨TokenKind.EOF, ""⟩], 7⟩ :=
  ⟨rfl, parse_labelled_relationship sampleLexer "A" "1" "many" "B" "extends" ":" ""
    ⟨TokenKind.OTHER 0, "--|>"⟩ rfl⟩

/-- C3: the member `f ( name_1 : type_1 , ... , name_k : type_k ) : t [ ]`, wherever it
stands before a further token, parses to a METHOD node named `f` with return type
`t ++ "[]"` and exactly the `k` parameters, each a FIELD node with the declared name and
type and no visibility or default, in declaration order; the cursor ends behind `]`. -/
theorem parseMember_method (f : String) (ps : List (String × String)) (t : String)
    (pre : List Token) (r : Token) (rest : List Token) :
    parseMember ⟨pre ++ methodTokens f ps t ++ r :: rest, pre.length⟩
      = Res.ok (methodNode f ps t)
          ⟨pre ++ methodTokens f ps t ++ r :: rest,
            pre.length + (methodTokens f ps t).length⟩ := by
  have h : (pre ++ methodTokens f ps t ++ r :: rest).drop pre.length
      = ⟨TokenKind.IDENTIFIER, f⟩ :: ⟨TokenKind.LPAREN, "("⟩ ::
        (paramTokens ps ++ ⟨TokenKind.RPAREN, ")"⟩ :: ⟨TokenKind.COLON, ":"⟩ ::
          ⟨TokenKind.IDENTIFIER, t⟩ :: ⟨TokenKind.LBRACKET, "["⟩ ::
          ⟨TokenKind.RBRACKET, "]"⟩ :: r :: rest) := by
    rw [List.append_assoc, List.drop_left]
    simp [methodTokens]
  generalize pre ++ methodTokens f ps t ++ r :: rest = T at h ⊢
  have h1 := drop_succ_of_drop h
  obtain ⟨t2, rest2, hq⟩ : ∃ t2 rest2, paramTokens ps ++ ⟨TokenKind.RPAREN, ")"⟩ ::
      ⟨TokenKind.COLON, ":"⟩ :: ⟨TokenKind.IDENTIFIER, t⟩ :: ⟨TokenKind.LBRACKET, "["⟩ ::
      ⟨TokenKind.RBRACKET, "]"⟩ :: r :: rest = t2 :: rest2 := by
    cases hq : paramTokens ps ++ ⟨TokenKind.RPAREN, ")"⟩ ::
      ⟨TokenKind.COLON, ":"⟩ :: ⟨TokenKind.IDENTIFIER, t⟩ :: ⟨TokenKind.LBRACKET, "["⟩ ::
      ⟨TokenKind.RBRACKET, "]"⟩ :: r :: rest with
    | nil => simp at hq
    | cons t2 rest2 => exact ⟨t2, rest2, rfl⟩
  have h1' := h1
  rw [hq] at h1'
  have h2 := drop_succ_of_drop h1'
  rw [← hq] at h2
  have hlen : ps.length < T.length + 1 := by
    have := congrArg List.length h
    have := length_le_paramTokens ps
    simp at *
    omega
  have h3 := drop_add_of_drop h2 (Nat.le_refl (paramTokens ps).length)
  simp only [List.drop_length, List.nil_append] at h3
  have h4 := drop_succ_of_drop h3
  have h5 := drop_succ_of_drop h4
  have h6 := drop_succ_of_drop h5
  have h7 := drop_succ_of_drop h6
  simp only [parseMember, parseMethod, loopFuel,
      currentToken_of_drop h,
      currentTokenKind_of_drop h,
      advance_of_drop h,
      currentToken_of_drop h1,
      currentTokenKind_of_drop h1,
      advance_of_drop h1',
      currentToken_of_drop h3,
      currentTokenKind_of_drop h3,
      advance_of_drop h3,
      currentToken_of_drop h4,
      currentTokenKind_of_drop h4,
      advance_of_drop h4,
      currentToken_of_drop h5,
      currentTokenKind_of_drop h5,
      advance_of_drop h5,
      currentToken_of_drop h6,
      currentTokenKind_of_drop h6,
      advance_of_drop h6,
      currentToken_of_drop h7,
      advance_of_drop h7,
      parseParameters_params ps _ _ T _ ")" _ h2 hlen,
      ne_eq, reduceCtorEq, not_false_eq_true, and_self, if_true, if_false,
      not_true_eq_false, or_self, bind_apply, pure_apply]
  simp [methodNode, methodTokens, ASTNode.zero, String.append_assoc]
  omega

/-- C4: the member `[v] n : t [ ] = d`, wherever it stands before a further token, parses
to a FIELD node with name `n`, value type `t ++ "[]"`, default `d` and the value of the
visibility token `v` as visibility, the empty string when there is none; the cursor
ends behind `d`. -/
theorem parseMember_field (v : Option Token) (hv : ∀ tok ∈ v, IsVisibility tok.Kind)
    (n t d : String) (pre : List Token) (r : Token) (rest : List Token) :
    parseMember ⟨pre ++ fieldTokens v n t d ++ r :: rest, pre.length⟩
      = Res.ok { ASTNode.zero NodeType.FIELD with
            Name := n, ValueType := t ++ "[]", Default := d,
            Visibility := (v.map Token.Value).getD "" }
          ⟨pre ++ fieldTokens v n t d ++ r :: rest,
            pre.length + (fieldTokens v n t d).length⟩ := by
  have h : (pre ++ fieldTokens v n t d ++ r :: rest).drop pre.length
      = fieldTokens v n t d ++ r :: rest := by
    rw [List.append_assoc, List.drop_left]
  generalize pre ++ fieldTokens v n t d ++ r :: rest = T at h ⊢
  cases v with
  | none =>
    simp only [fieldTokens, Option.toList, List.nil_append, List.cons_append] at h
    have h1 := drop_succ_of_drop h
    have h2 := drop_succ_of_drop h1
    have h3 := drop_succ_of_drop h2
    have h4 := drop_succ_of_drop h3
    have h5 := drop_succ_of_drop h4
    have h6 := drop_succ_of_drop h5
    have h7 := drop_succ_of_drop h6
    simp only [parseMember, parseField,
      currentToken_of_drop h,
      currentTokenKind_of_drop h,
      advance_of_drop h,
      currentToken_of_drop h1,
      currentTokenKind_of_drop h1,
      advance_of_drop h1,
      currentToken_of_drop h2,
      currentTokenKind_of_drop h2,
      advance_of_drop h2,
      currentToken_of_drop h3,
      currentTokenKind_of_drop h3,
      advance_of_drop h3,
      currentToken_of_drop h4,
      currentTokenKind_of_drop h4,
      advance_of_drop h4,
      currentToken_of_drop h5,
      currentTokenKind_of_drop h5,
      advance_of_drop h5,
      currentToken_of_drop h6,
      currentTokenKind_of_drop h6,
      advance_of_drop h6,
      ne_eq, reduceCtorEq, not_false_eq_true, and_self, if_true, if_false,
      not_true_eq_false, or_self, bind_apply, pure_apply]
    simp [fieldTokens, ASTNode.zero, String.append_assoc]
  | some tok =>
    have hk := hv tok rfl
    simp only [fieldTokens, Option.toList, List.singleton_append, List.cons_append] at h
    have h0 := drop_succ_of_drop h
    have h1 := drop_succ_of_drop h0
    have h2 := drop_succ_of_drop h1
    have h3 := drop_succ_of_drop h2
    have h4 := drop_succ_of_drop h3
    have h5 := drop_succ_of_drop h4
    have h6 := drop_succ_of_drop h5
    have h7 := drop_succ_of_drop h6
    have hvis : tok.Kind = TokenKind.DASH ∨ tok.Kind = TokenKind.POUND ∨
        tok.Kind = TokenKind.PLUS ∨ tok.Kind = TokenKind.TILDE := hk
    simp only [parseMember, parseField,
      currentToken_of_drop h,
      currentTokenKind_of_drop h,
      advance_of_drop h,
      currentToken_of_drop h0,
      currentTokenKind_of_drop h0,
      advance_of_drop h0,
      currentToken_of_drop h1,
      currentTokenKind_of_drop h1,
      advance_of_drop h1,
      currentToken_of_drop h2,
      currentTokenKind_of_drop h2,
      advance_of_drop h2,
      currentToken_of_drop h3,
      currentTokenKind_of_drop h3,
      advance_of_drop h3,
      currentToken_of_drop h4,
      currentTokenKind_of_drop h4,
      advance_of_drop h4,
      currentToken_of_drop h5,
      currentTokenKind_of_drop h5,
      advance_of_drop h5,
      currentToken_of_drop h6,
      currentTokenKind_of_drop h6,
      advance_of_drop h6,
      hvis,
      ne_eq, reduceCtorEq, not_false_eq_true, and_self, if_true, if_false,
      not_true_eq_false, or_self, bind_apply, pure_apply]
    simp [fieldTokens, ASTNode.zero, String.append_assoc]

/-- Witness of C4: `+ name : Type [ ] = default` inside the body of `class Foo`. -/
theorem parseMember_field_witness :
    (∀ tok ∈ some (⟨TokenKind.PLUS, "+"⟩ : Token), IsVisibility tok.Kind) ∧
    parseMember ⟨[⟨TokenKind.CLASS, "class"⟩, ⟨TokenKind.IDENTIFIER, "Foo"⟩,
          ⟨TokenKind.LBRACE, "\x7b"⟩]
        ++ fieldTokens (some ⟨TokenKind.PLUS, "+"⟩) "name" "Type" "default"
        ++ ⟨TokenKind.RBRACE, "\x7d"⟩ :: [⟨TokenKind.EOF, ""⟩], 3⟩
      = Res.ok { ASTNode.zero NodeType.FIELD with
            Name := "name", ValueType := "Type" ++ "[]", Default := "default",
            Visibility := "+" }
          ⟨[⟨TokenKind.CLASS, "class"⟩, ⟨TokenKind.IDENTIFIER, "Foo"⟩,
              ⟨TokenKind.LBRACE, "\x7b"⟩]
            ++ fieldTokens (some ⟨TokenKind.PLUS, "+"⟩) "name" "Type" "default"
            ++ ⟨TokenKind.RBRACE, "\x7d"⟩ :: [⟨TokenKind.EOF, ""⟩], 3 + 8⟩ :=
  ⟨fun tok h => by
      cases h
      exact Or.inr (Or.inr (Or.inl rfl)),
    parseMember_field (some ⟨TokenKind.PLUS, "+"⟩)
      (fun tok h => by
        cases h
        exact Or.inr (Or.inr (Or.inl rfl)))
      "name" "Type" "default"
      [⟨TokenKind.CLASS, "class"⟩, ⟨TokenKind.IDENTIFIER, "Foo"⟩, ⟨TokenKind.LBRACE, "\x7b"⟩]
      ⟨TokenKind.RBRACE, "\x7d"⟩ [⟨TokenKind.EOF, ""⟩]⟩

/-- C5: `class n` without a brace block parses to a ROOT with exactly one child, a
CLASS node named `n` that has no children. -/
theorem parse_class_without_body (L : Lexer) (cv n ev : String) :
    Parse L (NewParser [⟨TokenKind.CLASS, cv⟩, ⟨TokenKind.IDENTIFIER, n⟩,
        ⟨TokenKind.EOF, ev⟩])
      = Res.ok (rootOf [{ ASTNode.zero NodeType.CLASS with Name := n }])
          ⟨[⟨TokenKind.CLASS, cv⟩, ⟨TokenKind.IDENTIFIER, n⟩, ⟨TokenKind.EOF, ev⟩], 2⟩ :=
  rfl

/-! ## Class bodies, member by member -/

/-- A class that parses to a single class node with the single child `n`: the tokens
`m` of its body are one member, and `parseMember` reads exactly them. -/
theorem parseMember_of_single (L : Lexer) (kw nm lb rb e : Token)
    (hkw : kw.Kind = TokenKind.CLASS) (hnm : nm.Kind = TokenKind.IDENTIFIER)
    (hlb : lb.Kind = TokenKind.LBRACE) (hrb : rb.Kind = TokenKind.RBRACE)
    (m : List Token) (n : ASTNode) (h : SingleMember L kw nm lb rb e m n) :
    (∃ t m', m = t :: m' ∧ (IsVisibility t.Kind ∨ t.Kind = TokenKind.IDENTIFIER)) ∧
    parseMember ⟨kw :: nm :: lb :: (m ++ [rb, e]), 3⟩
      = Res.ok n ⟨kw :: nm :: lb :: (m ++ [rb, e]), 3 + m.length⟩ := by
  obtain ⟨hm, q, root, cls, hp, hroot, hcls⟩ := h
  obtain ⟨T, hT⟩ : ∃ T, kw :: nm :: lb :: (m ++ [rb, e]) = T := ⟨_, rfl⟩
  rw [hT] at hp ⊢
  have h3 : T.drop 3 = m ++ rb :: [e] := by rw [← hT]; rfl
  obtain ⟨t3, rest3, hq⟩ : ∃ t3 rest3, m ++ [rb, e] = t3 :: rest3 := by
    cases hq : m ++ [rb, e] with
    | nil => simp at hq
    | cons t3 rest3 => exact ⟨t3, rest3, rfl⟩
  have h0 : T.drop 0 = kw :: nm :: lb :: t3 :: rest3 := by rw [← hT, hq]; rfl
  have hlenT : T.length = m.length + 5 := by rw [← hT]; simp
  rw [parse_class_block L h0 hkw hnm hlb] at hp
  have hxq : Quiet rb.Kind := by simp [Quiet, hrb]
  have hsim := Frame.parseMembers_sim (bodyFrame L T T rb rb [e] [e] hrb hxq)
    (T.length + 1) (T.length + 1) { ASTNode.zero NodeType.CLASS with Name := nm.Value }
    m 3 3 trivial (by omega) ⟨h3, h3⟩
  change Frame.LoopOutcome _ Closing m 3 3
    (parseMembers (T.length + 1) _ ⟨T, 3⟩) (parseMembers (T.length + 1) _ ⟨T, 3⟩) at hsim
  cases hr : parseMembers (T.length + 1)
      { ASTNode.zero NodeType.CLASS with Name := nm.Value } ⟨T, 3⟩ with
  | ok v q2 =>
    rw [hr] at hsim hp
    obtain ⟨j, tok, hj, hq2, htok, -, -⟩ := hsim
    subst hq2
    simp only [bodyFrame] at htok hp hr
    -- the token on which the member loop stops, and the one behind it
    have hdj : T.drop (3 + j) = m.drop j ++ rb :: [e] := drop_add_of_drop h3 hj
    obtain ⟨rest', hd⟩ : ∃ rest', T.drop (3 + j) = tok :: rest' ∧ rest' ≠ [] := by
      rcases Nat.lt_or_ge j m.length with hlt | hge
      · rw [List.getElem?_append_left hlt] at htok
        have : m.drop j = tok :: m.drop (j + 1) := by
          rw [List.drop_eq_getElem_cons hlt]
          congr 1
          rw [List.getElem?_eq_getElem hlt] at htok
          exact Option.some.inj htok
        exact ⟨m.drop (j + 1) ++ rb :: [e], by rw [hdj, this]; rfl, by simp⟩
      · have hjm : j = m.length := by omega
        subst hjm
        simp at htok
        subst htok
        exact ⟨[e], by simpa using hdj, by simp⟩
    obtain ⟨hd, hne⟩ := hd
    obtain ⟨t5, rest5, hr5⟩ : ∃ t5 rest5, rest' = t5 :: rest5 := by
      cases rest' with
      | nil => exact absurd rfl hne
      | cons t5 rest5 => exact ⟨t5, rest5, rfl⟩
    subst hr5
    simp only [currentToken_of_drop hd, advance_of_drop hd] at hp
    by_cases hk : tok.Kind = TokenKind.RBRACE
    swap
    · simp [hk] at hp
    simp only [hk, ne_eq, not_true_eq_false, if_false] at hp
    obtain ⟨cs, hcs, hnil⟩ := parseEntities_children L _ _ _ _ _ hp
    rw [hroot] at hcs
    simp only [rootOf, ASTNode.zero, List.singleton_append] at hcs
    injection hcs with hv hcs'
    subst hv
    obtain ⟨t', ht', hk'⟩ := hnil hcs'.symm
    simp only [] at ht'
    have hjm : j = m.length := by
      by_contra hne'
      have hlt : j < m.length := by omega
      have h5 : T[3 + j + 1]? = (m ++ [rb])[j + 1]? := by
        rw [← hT]
        simp only [Nat.add_assoc]
        rw [show 3 + (j + 1) = (j + 1) + 3 by omega]
        simp only [List.getElem?_cons_succ]
        rw [show m ++ [rb, e] = (m ++ [rb]) ++ [e] by simp]
        exact List.getElem?_append_left (by simp; omega)
      rw [h5] at ht'
      have hmem := List.getElem?_mem ht'
      rcases List.mem_append.mp hmem with hm' | hm'
      · exact hm t' hm' hk'
      · simp at hm'
        rw [hm', hrb] at hk'
        exact absurd hk' (fun h => nomatch h)
    subst hjm
    -- the first iteration of the member loop
    obtain ⟨cs1, hcs1, -⟩ := parseMembers_children _ _ _ _ _ hr
    simp only [parseMembers, bind_apply] at hr
    cases m with
    | nil =>
      exfalso
      have h3' : T.drop 3 = rb :: [e] := h3
      simp only [currentTokenKind_of_drop h3', hrb, ne_eq, reduceCtorEq, not_false_eq_true,
        not_true_eq_false, and_false, if_false, pure_apply] at hr
      injection hr with hv _
      rw [← hv] at hcls
      simp [ASTNode.zero] at hcls
    | cons t m' =>
      have h3' : T.drop 3 = t :: (m' ++ rb :: [e]) := h3
      by_cases hcl : t.Kind ≠ TokenKind.EOF ∧ t.Kind ≠ TokenKind.RBRACE
      swap
      · exfalso
        simp only [currentTokenKind_of_drop h3'] at hr
        rw [if_neg hcl] at hr
        simp only [pure_apply] at hr
        injection hr with hv _
        rw [← hv] at hcls
        simp [ASTNode.zero] at hcls
      simp only [currentTokenKind_of_drop h3'] at hr
      rw [if_pos hcl] at hr
      simp only [bind_apply] at hr
      cases hmem : parseMember ⟨T, 3⟩ with
      | ok n1 q1 =>
        rw [hmem] at hr
        obtain ⟨cs2, hcs2, hnil2⟩ := parseMembers_children _ _ _ _ _ hr
        rw [hcls] at hcs2
        simp only [ASTNode.zero, List.nil_append, List.singleton_append] at hcs2
        injection hcs2 with hn hcs2'
        subst hn
        obtain ⟨-, hq1⟩ := hnil2 hcs2'.symm
        rw [← hq1]
        exact ⟨⟨t, m', rfl, parseMember_ok_kind h3' hmem⟩, rfl⟩
      | error msg q1 => rw [hmem] at hr; exact absurd hr (fun h => nomatch h)
      | outOfRange => rw [hmem] at hr; exact absurd hr (fun h => nomatch h)
      | outOfFuel => rw [hmem] at hr; exact absurd hr (fun h => nomatch h)
  | error msg q2 => rw [hr] at hp; exact absurd hp (fun h => nomatch h)
  | outOfRange => rw [hr] at hp; exact absurd hp (fun h => nomatch h)
  | outOfFuel => rw [hr] at hp; exact absurd hp (fun h => nomatch h)

theorem quiet_head_of_members (L : Lexer) (kw nm lb rb e : Token)
    (hkw : kw.Kind = TokenKind.CLASS) (hnm : nm.Kind = TokenKind.IDENTIFIER)
    (hlb : lb.Kind = TokenKind.LBRACE) (hrb : rb.Kind = TokenKind.RBRACE)
    (segs : List (List Token × ASTNode))
    (h : ∀ mn ∈ segs, SingleMember L kw nm lb rb e mn.1 mn.2) :
    ∃ x R', (segs.map Prod.fst).flatten ++ [rb, e] = x :: R' ∧ Quiet x.Kind := by
  cases segs with
  | nil => exact ⟨rb, [e], rfl, by simp [Quiet, hrb]⟩
  | cons mn segs =>
    obtain ⟨⟨t, m', htm, hk⟩, -⟩ := parseMember_of_single L kw nm lb rb e hkw hnm hlb hrb
      mn.1 mn.2 (h mn (List.mem_cons_self _ _))
    refine ⟨t, m' ++ (segs.map Prod.fst).flatten ++ [rb, e], ?_, quiet_of_member_kind hk⟩
    simp [htm]

theorem parseMembers_segments (L : Lexer) (kw nm lb rb e : Token)
    (hkw : kw.Kind = TokenKind.CLASS) (hnm : nm.Kind = TokenKind.IDENTIFIER)
    (hlb : lb.Kind = TokenKind.LBRACE) (hrb : rb.Kind = TokenKind.RBRACE)
    (segs : List (List Token × ASTNode)) :
    (∀ mn ∈ segs, SingleMember L kw nm lb rb e mn.1 mn.2) →
    ∀ (pre : List Token) (node : ASTNode) (fuel : Nat),
      ((segs.map Prod.fst).flatten).length < fuel →
      parseMembers fuel node ⟨pre ++ (segs.map Prod.fst).flatten ++ [rb, e], pre.length⟩
        = Res.ok { node with Children := node.Children ++ segs.map Prod.snd }
            ⟨pre ++ (segs.map Prod.fst).flatten ++ [rb, e],
              pre.length + ((segs.map Prod.fst).flatten).length⟩ := by
  induction segs with
  | nil =>
    intro _ pre node fuel hf
    obtain ⟨fuel, rfl⟩ : ∃ f, fuel = f + 1 := ⟨fuel - 1, by omega⟩
    simp only [List.map_nil, List.flatten_nil, List.append_nil, List.length_nil,
      Nat.add_zero]
    have h0 : (pre ++ [rb, e]).drop pre.length = rb :: [e] := by simp
    cases node
    simp [parseMembers, bind_apply, pure_apply, currentTokenKind_of_drop h0, hrb]
  | cons mn segs ih =>
    intro hall pre node fuel hf
    have hrest : ∀ mn' ∈ segs, SingleMember L kw nm lb rb e mn'.1 mn'.2 :=
      fun mn' h => hall mn' (List.mem_cons_of_mem _ h)
    have hone := hall mn (List.mem_cons_self _ _)
    obtain ⟨⟨t, m', htm, hk⟩, hmem⟩ :=
      parseMember_of_single L kw nm lb rb e hkw hnm hlb hrb mn.1 mn.2 hone
    obtain ⟨x, R', hxR, hxq⟩ := quiet_head_of_members L kw nm lb rb e hkw hnm hlb hrb segs hrest
    obtain ⟨fuel, rfl⟩ : ∃ f, fuel = f + 1 := ⟨fuel - 1, by omega⟩
    have hT' : pre ++ ((mn :: segs).map Prod.fst).flatten ++ [rb, e]
        = pre ++ (mn.1 ++ x :: R') := by
      simp only [List.map_cons, List.flatten_cons, List.append_assoc]
      rw [← hxR]
    have hT2 : pre ++ ((mn :: segs).map Prod.fst).flatten ++ [rb, e]
        = (pre ++ mn.1) ++ (segs.map Prod.fst).flatten ++ [rb, e] := by
      simp only [List.map_cons, List.flatten_cons, List.append_assoc]
    have hd' : (pre ++ ((mn :: segs).map Prod.fst).flatten ++ [rb, e]).drop pre.length
        = mn.1 ++ x :: R' := by
      rw [hT', List.drop_left]
    have hsim := Frame.parseMember_sim
      (bodyFrame L (kw :: nm :: lb :: (mn.1 ++ [rb, e]))
        (pre ++ ((mn :: segs).map Prod.fst).flatten ++ [rb, e]) rb x [e] R' hrb hxq)
      mn.1 3 pre.length trivial ⟨rfl, hd'⟩
    change Frame.Outcome _ 1 mn.1 3 pre.length
      (parseMember ⟨kw :: nm :: lb :: (mn.1 ++ [rb, e]), 3⟩)
      (parseMember ⟨pre ++ ((mn :: segs).map Prod.fst).flatten ++ [rb, e], pre.length⟩)
      at hsim
    rw [hmem] at hsim
    obtain ⟨j, -, -, hq1, hr'⟩ := hsim
    simp only [bodyFrame] at hq1 hr'
    have hj : j = mn.1.length := by
      injection hq1 with _ h2
      omega
    subst hj
    have hd0 : (pre ++ ((mn :: segs).map Prod.fst).flatten ++ [rb, e]).drop pre.length
        = t :: (m' ++ x :: R') := by
      rw [hd', htm]; rfl
    have htk : t.Kind ≠ TokenKind.EOF ∧ t.Kind ≠ TokenKind.RBRACE := by
      rcases hk with (h | h | h | h) | h <;> simp [h]
    simp only [parseMembers, bind_apply, currentTokenKind_of_drop hd0]
    rw [if_pos htk]
    simp only [bind_apply, hr']
    have hlen : ((segs.map Prod.fst).flatten).length < fuel := by
      simp only [List.map_cons, List.flatten_cons, List.length_append, htm,
        List.length_cons] at hf
      omega
    have := ih hrest (pre ++ mn.1) { node with Children := node.Children ++ [mn.2] } fuel hlen
    rw [← hT2] at this
    simp only [List.length_append] at this
    rw [this]
    simp [Nat.add_assoc]

/-- C6: when each of the segments `m1 .. mk` is free of end-of-input tokens and the
class `class c { mi }` parses to a root whose single child has the single child `ni`,
the class `class c { m1 ... mk }` parses to a root whose single child is the CLASS node
named `c` with the children `[n1, ..., nk]`, in declaration order; the cursor ends on
the end-of-input token. -/
theorem parse_concatenated_members (L : Lexer) (kw nm lb rb e : Token)
    (hkw : kw.Kind = TokenKind.CLASS) (hnm : nm.Kind = TokenKind.IDENTIFIER)
    (hlb : lb.Kind = TokenKind.LBRACE) (hrb : rb.Kind = TokenKind.RBRACE)
    (he : e.Kind = TokenKind.EOF) (segs : List (List Token × ASTNode))
    (hsegs : ∀ mn ∈ segs, SingleMember L kw nm lb rb e mn.1 mn.2) :
    Parse L (NewParser (kw :: nm :: lb :: ((segs.map Prod.fst).flatten ++ [rb, e])))
      = Res.ok (rootOf [{ ASTNode.zero NodeType.CLASS with
            Name := nm.Value, Children := segs.map Prod.snd }])
          ⟨kw :: nm :: lb :: ((segs.map Prod.fst).flatten ++ [rb, e]),
            3 + ((segs.map Prod.fst).flatten).length + 1⟩ := by
  obtain ⟨T, hT⟩ : ∃ T, kw :: nm :: lb :: ((segs.map Prod.fst).flatten ++ [rb, e]) = T :=
    ⟨_, rfl⟩
  rw [hT]
  obtain ⟨t3, rest3, hq⟩ : ∃ t3 rest3, (segs.map Prod.fst).flatten ++ [rb, e] = t3 :: rest3 := by
    cases hq : (segs.map Prod.fst).flatten ++ [rb, e] with
    | nil => simp at hq
    | cons t3 rest3 => exact ⟨t3, rest3, rfl⟩
  have h0 : T.drop 0 = kw :: nm :: lb :: t3 :: rest3 := by rw [← hT, hq]; rfl
  have hlenT : T.length = ((segs.map Prod.fst).flatten).length + 5 := by rw [← hT]; simp
  have hTpre : T = [kw, nm, lb] ++ (segs.map Prod.fst).flatten ++ [rb, e] := by
    rw [← hT]; simp
  have hmem := parseMembers_segments L kw nm lb rb e hkw hnm hlb hrb segs hsegs
    [kw, nm, lb] { ASTNode.zero NodeType.CLASS with Name := nm.Value } (T.length + 1)
    (by omega)
  rw [← hTpre] at hmem
  have h3len : [kw, nm, lb].length = 3 := rfl
  rw [h3len] at hmem
  have hd : T.drop (3 + ((segs.map Prod.fst).flatten).length) = rb :: e :: [] := by
    rw [hTpre]
    exact List.drop_left' (by rw [List.length_append, h3len])
  have hd1 := drop_succ_of_drop hd
  obtain ⟨f, hf⟩ : ∃ f, T.length = f + 1 := ⟨T.length - 1, by omega⟩
  rw [parse_class_block L h0 hkw hnm hlb, hmem]
  simp only [currentToken_of_drop hd, advance_of_drop hd, hrb, ne_eq, not_true_eq_false,
    if_false]
  rw [hf]
  simp only [parseEntities, bind_apply, currentTokenKind_of_drop hd1, he, ne_eq,
    not_true_eq_false, if_false, pure_apply]
  simp [ASTNode.zero]

/-- Witness of C6: the class `Foo` with the members `x : int` and `+ run ( )`. -/
theorem parse_concatenated_members_witness :
    (∀ mn ∈ sampleMembers, SingleMember sampleLexer ⟨TokenKind.CLASS, "class"⟩
      ⟨TokenKind.IDENTIFIER, "Foo"⟩ ⟨TokenKind.LBRACE, "\x7b"⟩ ⟨TokenKind.RBRACE, "\x7d"⟩
      ⟨TokenKind.EOF, ""⟩ mn.1 mn.2) ∧
    Parse sampleLexer (NewParser (⟨TokenKind.CLASS, "class"⟩ ::
        ⟨TokenKind.IDENTIFIER, "Foo"⟩ :: ⟨TokenKind.LBRACE, "\x7b"⟩ ::
        ((sampleMembers.map Prod.fst).flatten
          ++ [⟨TokenKind.RBRACE, "\x7d"⟩, ⟨TokenKind.EOF, ""⟩])))
      = Res.ok (rootOf [{ ASTNode.zero NodeType.CLASS with
            Name := (⟨TokenKind.IDENTIFIER, "Foo"⟩ : Token).Value,
            Children := sampleMembers.map Prod.snd }])
          ⟨⟨TokenKind.CLASS, "class"⟩ :: ⟨TokenKind.IDENTIFIER, "Foo"⟩ ::
            ⟨TokenKind.LBRACE, "\x7b"⟩ :: ((sampleMembers.map Prod.fst).flatten
              ++ [⟨TokenKind.RBRACE, "\x7d"⟩, ⟨TokenKind.EOF, ""⟩]),
            3 + ((sampleMembers.map Prod.fst).flatten).length + 1⟩ := by
  have h : ∀ mn ∈ sampleMembers, SingleMember sampleLexer ⟨TokenKind.CLASS, "class"⟩
      ⟨TokenKind.IDENTIFIER, "Foo"⟩ ⟨TokenKind.LBRACE, "\x7b"⟩ ⟨TokenKind.RBRACE, "\x7d"⟩
      ⟨TokenKind.EOF, ""⟩ mn.1 mn.2 := by
    intro mn hmn
    simp only [sampleMembers, List.mem_cons, List.mem_singleton, List.not_mem_nil,
      or_false] at hmn
    rcases hmn with rfl | rfl
    · exact ⟨by simp, _, _, _, rfl, rfl, rfl⟩
    · exact ⟨by simp, _, _, _, rfl, rfl, rfl⟩
  exact ⟨h, parse_concatenated_members sampleLexer _ _ _ _ _ rfl rfl rfl rfl rfl
    sampleMembers h⟩

/-! ## Errors -/

/-- Counterexample to C7: on `class` followed by end-of-input `Parse` fails with the
cursor on the end-of-input token, and the message does not contain the kind name `EOF`
of that token. -/
theorem parse_error_without_kind_name :
    Parse sampleLexer (NewParser [⟨TokenKind.CLASS, "class"⟩, ⟨TokenKind.EOF, ""⟩])
      = Res.error "expected class name, got :"
          ⟨[⟨TokenKind.CLASS, "class"⟩, ⟨TokenKind.EOF, ""⟩], 1⟩ ∧
    [(⟨TokenKind.CLASS, "class"⟩ : Token), ⟨TokenKind.EOF, ""⟩][1]?
      = some ⟨TokenKind.EOF, ""⟩ ∧
    ¬ Mentions "expected class name, got :" (sampleLexer.TokenKindName TokenKind.EOF) := by
  refine ⟨rfl, rfl, ?_⟩
  unfold Mentions
  decide

/-- C7, amended: when `Parse` fails on a token sequence that ends with an end-of-input
token, the cursor rests on a token `tok` of the sequence and the message is of one of
three forms (`Reports`): the middle-label message; one of the fixed texts of
`valuePrefixes` followed by the value of `tok`; or a message that has the kind name of
`tok` and then its value. Unless it is the middle-label message, it contains the
value of `tok`. -/
theorem parse_error_reports_token (L : Lexer) (W : List Token) (e : Token)
    (he : e.Kind = TokenKind.EOF) (msg : String) (q : Parser)
    (h : Parse L (NewParser (W ++ [e])) = Res.error msg q) :
    ∃ tok, q.tokens = W ++ [e] ∧ (W ++ [e])[q.pos]? = some tok ∧ Reports L msg tok ∧
      ((∃ s, msg = middleLabelPrefix ++ s) ∨ Mentions msg tok.Value) := by
  have hsim := Frame.parseEntities_sim (selfFrame L (W ++ [e]) e [] he) he rfl
    ((W ++ [e]).length + 1) ((W ++ [e]).length + 1) (rootOf []) W 0 0 trivial
    (by simp; omega) ⟨rfl, rfl⟩
  rw [parse_eq_parseEntities] at h
  change Frame.LoopOutcome _ _ W 0 0
    (parseEntities L ((W ++ [e]).length + 1) (rootOf []) ⟨W ++ [e], 0⟩) _ at hsim
  rw [h] at hsim
  obtain ⟨j, tok, -, hq, htok, hrep⟩ := hsim
  subst hq
  exact ⟨tok, rfl, by simpa [selfFrame] using htok, hrep, mentions_of_reports hrep⟩

/-- Witness of C7, amended: `class` followed by end-of-input. -/
theorem parse_error_reports_token_witness :
    (⟨TokenKind.EOF, ""⟩ : Token).Kind = TokenKind.EOF ∧
    Parse sampleLexer (NewParser ([⟨TokenKind.CLASS, "class"⟩] ++ [⟨TokenKind.EOF, ""⟩]))
      = Res.error "expected class name, got :"
          ⟨[⟨TokenKind.CLASS, "class"⟩, ⟨TokenKind.EOF, ""⟩], 1⟩ ∧
    ∃ tok, (⟨[⟨TokenKind.CLASS, "class"⟩, ⟨TokenKind.EOF, ""⟩], 1⟩ : Parser).tokens
        = [⟨TokenKind.CLASS, "class"⟩] ++ [⟨TokenKind.EOF, ""⟩] ∧
      ([(⟨TokenKind.CLASS, "class"⟩ : Token)] ++ [⟨TokenKind.EOF, ""⟩])[
        (⟨[⟨TokenKind.CLASS, "class"⟩, ⟨TokenKind.EOF, ""⟩], 1⟩ : Parser).pos]? = some tok ∧
      Reports sampleLexer "expected class name, got :" tok ∧
      ((∃ s, "expected class name, got :" = middleLabelPrefix ++ s) ∨
        Mentions "expected class name, got :" tok.Value) :=
  ⟨rfl, rfl, parse_error_reports_token sampleLexer [⟨TokenKind.CLASS, "class"⟩]
    ⟨TokenKind.EOF, ""⟩ rfl "expected class name, got :"
    ⟨[⟨TokenKind.CLASS, "class"⟩, ⟨TokenKind.EOF, ""⟩], 1⟩ rfl⟩

/-- C8: a class whose brace block is not closed before the first end-of-input token
makes `Parse` return an error and no node; when the end-of-input token directly follows
the `{`, the message is `"expected '}' got "` followed by the value of that token. -/
theorem parse_unterminated_class_body (L : Lexer) (c i lb e : Token) (W R : List Token)
    (hc : c.Kind = TokenKind.CLASS) (hi : i.Kind = TokenKind.IDENTIFIER)
    (hlb : lb.Kind = TokenKind.LBRACE) (he : e.Kind = TokenKind.EOF)
    (hW : ∀ t ∈ W, t.Kind ≠ TokenKind.EOF ∧ t.Kind ≠ TokenKind.RBRACE) :
    (∃ msg q, Parse L (NewParser (c :: i :: lb :: (W ++ e :: R))) = Res.error msg q) ∧
    (W = [] → Parse L (NewParser (c :: i :: lb :: (W ++ e :: R)))
      = Res.error ("expected '\x7d' got " ++ e.Value) ⟨c :: i :: lb :: (W ++ e :: R), 3⟩) := by
  obtain ⟨T, hT⟩ : ∃ T, c :: i :: lb :: (W ++ e :: R) = T := ⟨_, rfl⟩
  rw [hT]
  have h0 : T.drop 0 = c :: i :: lb :: (W ++ e :: R) := by rw [← hT]; rfl
  have h1 := drop_succ_of_drop h0
  have h2 := drop_succ_of_drop h1
  have h3 := drop_succ_of_drop h2
  simp only [Nat.zero_add, Nat.reduceAdd] at h1 h2 h3
  obtain ⟨t3, rest3, hq⟩ : ∃ t3 rest3, W ++ e :: R = t3 :: rest3 := by
    cases hq : W ++ e :: R with
    | nil => simp at hq
    | cons t3 rest3 => exact ⟨t3, rest3, rfl⟩
  have h0' : T.drop 0 = c :: i :: lb :: t3 :: rest3 := by rw [h0, hq]
  have hrun := parse_class_block L h0' hc hi hlb
  have hsim := Frame.parseMembers_sim (selfFrame L T e R he) (T.length + 1) (T.length + 1)
    { ASTNode.zero NodeType.CLASS with Name := i.Value } W 3 3 trivial
    (by
      have := congrArg List.length hT
      simp at this ⊢
      omega)
    ⟨h3, h3⟩
  rw [hrun]
  change Frame.LoopOutcome _ Closing W 3 3
    (parseMembers (T.length + 1) _ ⟨T, 3⟩) (parseMembers (T.length + 1) _ ⟨T, 3⟩) at hsim
  cases hr : parseMembers (T.length + 1)
      { ASTNode.zero NodeType.CLASS with Name := i.Value } ⟨T, 3⟩ with
  | ok v q =>
    rw [hr] at hsim
    obtain ⟨j, tok, hj, hq', htok, hcl, -⟩ := hsim
    have hjW : j = W.length := by
      by_contra hne
      have hlt : j < W.length := by omega
      have : tok ∈ W := by
        rw [List.getElem?_append_left hlt] at htok
        exact List.getElem?_mem htok
      rcases hcl with h | h
      · exact (hW tok this).1 h
      · exact (hW tok this).2 h
    subst hjW
    have hcur : T.drop (3 + W.length) = e :: R := by
      have := drop_add_of_drop h3 (Nat.le_refl W.length)
      simpa using this
    have hek : e.Kind ≠ TokenKind.RBRACE := by rw [he]; exact fun h => nomatch h
    subst hq'
    simp only [selfFrame, currentToken_of_drop hcur, hek, ne_eq, not_false_eq_true, if_true]
    refine ⟨⟨_, _, rfl⟩, ?_⟩
    intro hnil
    subst hnil
    rfl
  | error m q =>
    refine ⟨⟨m, q, rfl⟩, ?_⟩
    intro hnil
    subst hnil
    exfalso
    have h3e : T.drop 3 = e :: R := by simpa using h3
    have hfuel : ∃ f, T.length + 1 = f + 1 := ⟨_, rfl⟩
    simp [parseMembers, bind_apply, pure_apply, currentTokenKind_of_drop h3e, he] at hr
  | outOfRange => rw [hr] at hsim; exact hsim.elim
  | outOfFuel => rw [hr] at hsim; exact hsim.elim

/-- Witness of C8: `class Foo {` followed by end-of-input. -/
theorem parse_unterminated_class_body_witness :
    (∃ msg q, Parse sampleLexer (NewParser (⟨TokenKind.CLASS, "class"⟩ ::
        ⟨TokenKind.IDENTIFIER, "Foo"⟩ :: ⟨TokenKind.LBRACE, "\x7b"⟩ ::
        ([] ++ ⟨TokenKind.EOF, ""⟩ :: []))) = Res.error msg q) ∧
    (([] : List Token) = [] → Parse sampleLexer (NewParser (⟨TokenKind.CLASS, "class"⟩ ::
        ⟨TokenKind.IDENTIFIER, "Foo"⟩ :: ⟨TokenKind.LBRACE, "\x7b"⟩ ::
        ([] ++ ⟨TokenKind.EOF, ""⟩ :: [])))
      = Res.error ("expected '\x7d' got " ++ "")
          ⟨⟨TokenKind.CLASS, "class"⟩ :: ⟨TokenKind.IDENTIFIER, "Foo"⟩ ::
            ⟨TokenKind.LBRACE, "\x7b"⟩ :: ([] ++ ⟨TokenKind.EOF, ""⟩ :: []), 3⟩) :=
  parse_unterminated_class_body sampleLexer ⟨TokenKind.CLASS, "class"⟩
    ⟨TokenKind.IDENTIFIER, "Foo"⟩ ⟨TokenKind.LBRACE, "\x7b"⟩ ⟨TokenKind.EOF, ""⟩ [] []
    rfl rfl rfl rfl (fun _ h => nomatch h)

/-- C9: when the first token is the `class` keyword of a token sequence that ends with
an end-of-input token, a second token exists, and if it is not an identifier `Parse`
returns the error `"expected class name, got :"` followed by the value of that token,
with the cursor on it and no node. -/
theorem parse_class_without_name (L : Lexer) (c e : Token) (rest : List Token)
    (hc : c.Kind = TokenKind.CLASS) (hlast : (c :: rest).getLast? = some e)
    (he : e.Kind = TokenKind.EOF) :
    ∃ t rest', rest = t :: rest' ∧ (t.Kind ≠ TokenKind.IDENTIFIER →
      Parse L (NewParser (c :: rest))
        = Res.error ("expected class name, got :" ++ t.Value) ⟨c :: rest, 1⟩) := by
  cases rest with
  | nil =>
    simp at hlast
    rw [hlast, he] at hc
    exact absurd hc (by simp)
  | cons t rest' =>
    refine ⟨t, rest', rfl, fun ht => ?_⟩
    simp [Parse, loopFuel, parseEntities, parseEntity, parseClass, currentTokenKind,
      currentToken, nextToken, advance, fail, bind, M.bind, pure, M.pure, NewParser, hc, ht]

/-- Witness of C9: the input `class` followed by end-of-input. -/
theorem parse_class_without_name_witness :
    ∃ t rest', [(⟨TokenKind.EOF, ""⟩ : Token)] = t :: rest' ∧
      (t.Kind ≠ TokenKind.IDENTIFIER →
        Parse sampleLexer (NewParser [⟨TokenKind.CLASS, "class"⟩, ⟨TokenKind.EOF, ""⟩])
          = Res.error ("expected class name, got :" ++ t.Value)
              ⟨[⟨TokenKind.CLASS, "class"⟩, ⟨TokenKind.EOF, ""⟩], 1⟩) :=
  parse_class_without_name sampleLexer ⟨TokenKind.CLASS, "class"⟩ ⟨TokenKind.EOF, ""⟩
    [⟨TokenKind.EOF, ""⟩] rfl rfl rfl

/-- C10: when the first token is of a kind other than EOF, CLASS, INTERFACE and
IDENTIFIER, `Parse` fails at once with the message
`"unexpected token: " ++ TokenKindName kind ++ ", Token value: " ++ value`. -/
theorem parse_unexpected_token (L : Lexer) (t : Token) (rest : List Token)
    (h1 : t.Kind ≠ TokenKind.EOF) (h2 : t.Kind ≠ TokenKind.CLASS)
    (h3 : t.Kind ≠ TokenKind.INTERFACE) (h4 : t.Kind ≠ TokenKind.IDENTIFIER) :
    Parse L (NewParser (t :: rest))
      = Res.error
          ("unexpected token: " ++ L.TokenKindName t.Kind ++ ", Token value: " ++ t.Value)
          ⟨t :: rest, 0⟩ := by
  obtain ⟨k, v⟩ := t
  cases k <;>
    simp [Parse, loopFuel, parseEntities, parseEntity, currentTokenKind,
      currentToken, fail, bind, M.bind, pure, M.pure, NewParser] at h1 h2 h3 h4 ⊢

/-- Witness of C10: a document that starts with `}`. -/
theorem parse_unexpected_token_witness :
    Parse sampleLexer (NewParser [⟨TokenKind.RBRACE, "\x7d"⟩, ⟨TokenKind.EOF, ""⟩])
      = Res.error ("unexpected token: " ++ sampleLexer.TokenKindName TokenKind.RBRACE
            ++ ", Token value: " ++ "\x7d")
          ⟨[⟨TokenKind.RBRACE, "\x7d"⟩, ⟨TokenKind.EOF, ""⟩], 0⟩ :=
  parse_unexpected_token sampleLexer ⟨TokenKind.RBRACE, "\x7d"⟩ [⟨TokenKind.EOF, ""⟩]
    (by decide) (by decide) (by decide) (by decide)

/-! ## Runs on a sequence that ends with end-of-input -/

theorem drop_of_terminated {W : List Token} {e : Token} {n : Nat} (h : n ≤ W.length) :
    (W ++ [e]).drop n = W.drop n ++ e :: [] :=
  List.drop_append_of_le_length h

theorem within_of_outcome {α : Type} (L : Lexer) (T : List Token) (e : Token)
    (he : e.Kind = TokenKind.EOF) {d : Nat} {W : List Token} {n : Nat} {r r' : Res α}
    (hH : (selfFrame L T e [] he).Here W n n)
    (h : (selfFrame L T e [] he).Outcome d W n n r r') : r.Within T := by
  have hlen := congrArg List.length hH.1
  simp [selfFrame] at hlen
  cases r with
  | ok v q =>
    obtain ⟨j, -, hj, hq, -⟩ := h
    subst hq
    exact ⟨rfl, by simp only [selfFrame]; omega⟩
  | error m q =>
    obtain ⟨j, tok, hj, hq, -, -⟩ := h
    subst hq
    exact ⟨rfl, by simp only [selfFrame]; omega⟩
  | outOfRange => exact h
  | outOfFuel => exact h

theorem within_of_loopOutcome {α : Type} (L : Lexer) (T : List Token) (e : Token)
    (he : e.Kind = TokenKind.EOF) {E : TokenKind → Prop} {W : List Token} {n : Nat}
    {r r' : Res α} (hH : (selfFrame L T e [] he).Here W n n)
    (h : (selfFrame L T e [] he).LoopOutcome E W n n r r') : r.Within T := by
  have hlen := congrArg List.length hH.1
  simp [selfFrame] at hlen
  cases r with
  | ok v q =>
    obtain ⟨j, tok, hj, hq, -⟩ := h
    subst hq
    exact ⟨rfl, by simp only [selfFrame]; omega⟩
  | error m q =>
    obtain ⟨j, tok, hj, hq, -, -⟩ := h
    subst hq
    exact ⟨rfl, by simp only [selfFrame]; omega⟩
  | outOfRange => exact h
  | outOfFuel => exact h

theorem here_of_terminated (L : Lexer) (W : List Token) (e : Token)
    (he : e.Kind = TokenKind.EOF) {n : Nat} (h : n ≤ W.length) :
    (selfFrame L (W ++ [e]) e [] he).Here (W.drop n) n n :=
  ⟨drop_of_terminated h, drop_of_terminated h⟩

/-! ## The node of a successful run -/

theorem Post.post_pure {T : List Token} {α : Type} {P : α → Prop} {v : α} (h : P v) :
    Post T (pure v : M α) P := by
  intro p w q hp hr
  injection hr with h1 h2
  subst h1 h2
  exact ⟨hp, h⟩

theorem Post.post_fail {T : List Token} {α : Type} {P : α → Prop} {m : String} :
    Post T (fail m : M α) P :=
  fun _ _ _ _ hr => nomatch hr

theorem Post.post_bind {T : List Token} {α β : Type} {Q : α → Prop} {P : β → Prop}
    {a : M α} {f : α → M β} (ha : Post T a Q) (hf : ∀ v, Q v → Post T (f v) P) :
    Post T (a >>= f) P := by
  intro p w q hp hr
  rw [bind_apply] at hr
  cases h : a p with
  | ok v p1 =>
    rw [h] at hr
    obtain ⟨hp1, hv⟩ := ha p v p1 hp h
    exact hf v hv p1 w q hp1 hr
  | error m p1 => rw [h] at hr; exact nomatch hr
  | outOfRange => rw [h] at hr; exact nomatch hr
  | outOfFuel => rw [h] at hr; exact nomatch hr

theorem Post.post_mono {T : List Token} {α : Type} {P Q : α → Prop} {a : M α}
    (ha : Post T a P) (h : ∀ v, P v → Q v) : Post T a Q :=
  fun p v q hp hr => ⟨(ha p v q hp hr).1, h v (ha p v q hp hr).2⟩

theorem Post.post_ite {T : List Token} {α : Type} {P : α → Prop} {c : Prop} [Decidable c]
    {a b : M α} (h1 : c → Post T a P) (h2 : ¬ c → Post T b P) :
    Post T (if c then a else b) P := by
  by_cases hc : c
  · simpa [hc] using h1 hc
  · simpa [hc] using h2 hc

theorem post_currentToken (T : List Token) : Post T currentToken (fun t => t ∈ T) := by
  intro p v q hp hr
  obtain ⟨rfl, ht⟩ := currentToken_state hr
  exact ⟨hp, by rw [← hp]; exact List.getElem?_mem ht⟩

theorem post_currentTokenKind (T : List Token) : Post T currentTokenKind (fun _ => True) :=
  Post.post_bind (post_currentToken T) fun _ _ => Post.post_pure trivial

theorem nextToken_tokens {p q : Parser} {t : Token} (h : nextToken p = Res.ok t q) :
    q.tokens = p.tokens := by
  unfold nextToken at h
  split at h
  · exact (currentToken_state h).1 ▸ rfl
  · exact (currentToken_state h).1 ▸ rfl

theorem post_advance (T : List Token) : Post T advance (fun _ => True) := by
  intro p v q hp hr
  simp only [advance, bind_apply] at hr
  cases hc : nextToken p with
  | ok t p1 =>
    rw [hc] at hr
    injection hr with _ h2
    subst h2
    exact ⟨(nextToken_tokens hc).trans hp, trivial⟩
  | error m p1 => rw [hc] at hr; exact nomatch hr
  | outOfRange => rw [hc] at hr; exact nomatch hr
  | outOfFuel => rw [hc] at hr; exact nomatch hr

theorem post_loopFuel (T : List Token) : Post T loopFuel (fun _ => True) := by
  intro p v q hp hr
  injection hr with _ h2
  subst h2
  exact ⟨hp, trivial⟩

/-- A block of straight-line code that only moves the cursor: whatever it returns. -/
theorem post_parseField (T : List Token) (N : String → Prop) (name visibility : String)
    (hname : N name) : Post T (parseField name visibility) (FieldShape N) := by
  unfold parseField
  refine Post.post_bind (post_currentTokenKind T) fun k _ => ?_
  refine Post.post_bind (Q := fun _ => True) ?_ fun valueType _ => ?_
  · repeat' first
      | exact Post.post_pure trivial
      | exact Post.post_fail
      | refine Post.post_ite (fun _ => ?_) (fun _ => ?_)
      | refine Post.post_bind (post_advance T) (fun _ _ => ?_)
      | refine Post.post_bind (post_currentToken T) (fun _ _ => ?_)
  · refine Post.post_bind (post_currentTokenKind T) fun k _ => ?_
    refine Post.post_bind (Q := fun _ => True) ?_ fun defaultValue _ => ?_
    · repeat' first
        | exact Post.post_pure trivial
        | exact Post.post_fail
        | refine Post.post_ite (fun _ => ?_) (fun _ => ?_)
        | refine Post.post_bind (post_advance T) (fun _ _ => ?_)
        | refine Post.post_bind (post_currentToken T) (fun _ _ => ?_)
    · exact Post.post_pure ⟨rfl, hname, rfl, rfl⟩

theorem post_parseParameters (T : List Token) (N : String → Prop)
    (hN : ∀ t ∈ T, t.Kind = TokenKind.IDENTIFIER → N t.Value) (fuel : Nat) :
    ∀ node, MethodShape N node → Post T (parseParameters fuel node) (MethodShape N) := by
  induction fuel with
  | zero => intro node _ p v q _ hr; exact nomatch hr
  | succ fuel ih =>
    intro node hnode
    simp only [parseParameters]
    refine Post.post_bind (post_currentTokenKind T) fun k _ => ?_
    refine Post.post_ite (fun _ => ?_) (fun _ => Post.post_pure hnode)
    refine Post.post_bind (post_currentToken T) fun nameToken hmem => ?_
    refine Post.post_ite (fun hid => ?_) (fun _ => Post.post_fail)
    refine Post.post_bind (post_advance T) fun _ _ => ?_
    refine Post.post_bind (post_parseField T N _ _ (hN _ hmem hid)) fun propertyNode hp => ?_
    have hnode' : MethodShape N
        { node with Parameters := node.Parameters ++ [propertyNode] } := by
      obtain ⟨h1, h2, h3, h4⟩ := hnode
      refine ⟨h1, h2, h3, ?_⟩
      intro p hp'
      rcases List.mem_append.mp hp' with h | h
      · exact h4 p h
      · rw [List.mem_singleton.mp h]; exact hp
    refine Post.post_bind (post_currentTokenKind T) fun k _ => ?_
    refine Post.post_ite (fun _ => ?_) (fun _ => ih _ hnode')
    exact Post.post_bind (post_advance T) fun _ _ => ih _ hnode'

theorem post_parseMethod (T : List Token) (N : String → Prop)
    (hN : ∀ t ∈ T, t.Kind = TokenKind.IDENTIFIER → N t.Value) (name visibility : String)
    (hname : N name) : Post T (parseMethod name visibility) (MethodShape N) := by
  unfold parseMethod
  refine Post.post_bind (post_advance T) fun _ _ => ?_
  refine Post.post_bind (post_loopFuel T) fun fuel _ => ?_
  refine Post.post_bind (post_parseParameters T N hN fuel _
    ⟨rfl, hname, rfl, fun p hp => nomatch hp⟩) fun methodNode hm => ?_
  have hret : ∀ s, MethodShape N { methodNode with ReturnType := s } := fun _ => hm
  repeat' first
    | exact Post.post_pure (hret _)
    | exact Post.post_pure hm
    | exact Post.post_fail
    | refine Post.post_ite (fun _ => ?_) (fun _ => ?_)
    | refine Post.post_bind (post_advance T) (fun _ _ => ?_)
    | refine Post.post_bind (post_currentToken T) (fun _ _ => ?_)
    | refine Post.post_bind (post_currentTokenKind T) (fun _ _ => ?_)

theorem post_parseMember (T : List Token) (N : String → Prop)
    (hN : ∀ t ∈ T, t.Kind = TokenKind.IDENTIFIER → N t.Value) :
    Post T parseMember (fun m => FieldShape N m ∨ MethodShape N m) := by
  unfold parseMember
  refine Post.post_bind (post_currentToken T) fun first _ => ?_
  refine Post.post_bind (Q := fun _ => True) ?_ fun visibility _ => ?_
  · refine Post.post_ite (fun _ => ?_) (fun _ => Post.post_pure trivial)
    exact Post.post_bind (post_advance T) fun _ _ => Post.post_pure trivial
  · refine Post.post_bind (post_currentToken T) fun nameToken hmem => ?_
    refine Post.post_ite (fun _ => Post.post_fail) (fun hid => ?_)
    have hname : N nameToken.Value := hN _ hmem (not_not.mp hid)
    refine Post.post_bind (post_advance T) fun _ _ => ?_
    refine Post.post_bind (post_currentTokenKind T) fun k _ => ?_
    refine Post.post_ite (fun _ => ?_) (fun _ => ?_)
    · exact (post_parseMethod T N hN _ _ hname).post_mono fun _ h => Or.inr h
    · exact (post_parseField T N _ _ hname).post_mono fun _ h => Or.inl h

theorem post_parseMembers (T : List Token) (N : String → Prop)
    (hN : ∀ t ∈ T, t.Kind = TokenKind.IDENTIFIER → N t.Value) (fuel : Nat) :
    ∀ node, ClassShape N node → Post T (parseMembers fuel node) (ClassShape N) := by
  induction fuel with
  | zero => intro node _ p v q _ hr; exact nomatch hr
  | succ fuel ih =>
    intro node hnode
    simp only [parseMembers]
    refine Post.post_bind (post_currentTokenKind T) fun k _ => ?_
    refine Post.post_ite (fun _ => ?_) (fun _ => Post.post_pure hnode)
    refine Post.post_bind (post_parseMember T N hN) fun propertyNode hp => ?_
    refine ih _ ?_
    obtain ⟨h1, h2, h3, h4⟩ := hnode
    refine ⟨h1, h2, h3, ?_⟩
    intro m hm
    rcases List.mem_append.mp hm with h | h
    · exact h4 m h
    · rw [List.mem_singleton.mp h]; exact hp

theorem post_parseClass (T : List Token) (N : String → Prop)
    (hN : ∀ t ∈ T, t.Kind = TokenKind.IDENTIFIER → N t.Value) :
    Post T parseClass (ClassShape N) := by
  unfold parseClass
  refine Post.post_bind (post_advance T) fun _ _ => ?_
  refine Post.post_bind (post_currentToken T) fun nameToken hmem => ?_
  refine Post.post_ite (fun _ => Post.post_fail) (fun hid => ?_)
  have hname : N nameToken.Value := hN _ hmem (not_not.mp hid)
  have hnode : ClassShape N { ASTNode.zero NodeType.CLASS with Name := nameToken.Value } :=
    ⟨rfl, hname, rfl, fun m hm => nomatch hm⟩
  refine Post.post_bind (post_advance T) fun _ _ => ?_
  refine Post.post_bind (post_currentTokenKind T) fun k _ => ?_
  refine Post.post_ite (fun _ => ?_) (fun _ => Post.post_pure hnode)
  refine Post.post_bind (post_advance T) fun _ _ => ?_
  refine Post.post_bind (post_loopFuel T) fun fuel _ => ?_
  refine Post.post_bind (post_parseMembers T N hN fuel _ hnode) fun classNode hc => ?_
  refine Post.post_bind (post_currentToken T) fun closeToken _ => ?_
  refine Post.post_ite (fun _ => Post.post_fail) (fun _ => ?_)
  exact Post.post_bind (post_advance T) fun _ _ => Post.post_pure hc

theorem post_parseInterface (T : List Token) (N : String → Prop)
    (hN : ∀ t ∈ T, t.Kind = TokenKind.IDENTIFIER → N t.Value) :
    Post T parseInterface (LeafShape N) := by
  unfold parseInterface
  refine Post.post_bind (post_advance T) fun _ _ => ?_
  refine Post.post_bind (post_currentToken T) fun nameToken hmem => ?_
  refine Post.post_ite (fun _ => Post.post_fail) (fun hid => ?_)
  have hname : N nameToken.Value := hN _ hmem (not_not.mp hid)
  exact Post.post_bind (post_advance T) fun _ _ =>
    Post.post_pure ⟨Or.inl rfl, hname, rfl, rfl⟩

theorem post_parseRelationship (L : Lexer) (T : List Token) (N : String → Prop)
    (hrel : ∀ a b c : String, N (a ++ " " ++ b ++ " " ++ c)) :
    Post T (parseRelationship L) (LeafShape N) := by
  unfold parseRelationship
  refine Post.post_bind (post_currentToken T) fun sourceToken _ => ?_
  refine Post.post_ite (fun _ => Post.post_fail) (fun _ => ?_)
  refine Post.post_bind (post_advance T) fun _ _ => ?_
  refine Post.post_bind (post_currentToken T) fun leftToken _ => ?_
  refine Post.post_bind
    (Q := fun n : ASTNode => n.Typ = NodeType.RELATIONSHIP ∧ n.Children = [] ∧
      n.Parameters = []) ?_ fun relationshipNode hn => ?_
  · refine Post.post_ite (fun _ => ?_) (fun _ => Post.post_pure ⟨rfl, rfl, rfl⟩)
    exact Post.post_bind (post_advance T) fun _ _ => Post.post_pure ⟨rfl, rfl, rfl⟩
  refine Post.post_bind (post_currentToken T) fun relationshipToken _ => ?_
  refine Post.post_ite (fun _ => Post.post_fail) (fun _ => ?_)
  refine Post.post_bind (post_advance T) fun _ _ => ?_
  refine Post.post_bind (post_currentToken T) fun rightToken _ => ?_
  refine Post.post_bind
    (Q := fun n : ASTNode => n.Typ = NodeType.RELATIONSHIP ∧ n.Children = [] ∧
      n.Parameters = []) ?_ fun relationshipNode hn2 => ?_
  · refine Post.post_ite (fun _ => ?_) (fun _ => Post.post_pure hn)
    exact Post.post_bind (post_advance T) fun _ _ => Post.post_pure hn
  refine Post.post_bind (post_currentToken T) fun targetToken _ => ?_
  refine Post.post_ite (fun _ => Post.post_fail) (fun _ => ?_)
  refine Post.post_bind (post_advance T) fun _ _ => ?_
  refine Post.post_bind (post_currentToken T) fun colonToken _ => ?_
  refine Post.post_ite (fun _ => ?_)
    (fun _ => Post.post_pure ⟨Or.inr hn2.1, hrel _ _ _, hn2.2.1, hn2.2.2⟩)
  refine Post.post_bind (post_advance T) fun _ _ => ?_
  refine Post.post_bind (post_currentToken T) fun middleToken _ => ?_
  refine Post.post_ite (fun _ => Post.post_fail) (fun _ => ?_)
  exact Post.post_bind (post_advance T) fun _ _ =>
    Post.post_pure ⟨Or.inr hn2.1, hrel _ _ _, hn2.2.1, hn2.2.2⟩

theorem post_parseEntity (L : Lexer) (T : List Token) (N : String → Prop)
    (hN : ∀ t ∈ T, t.Kind = TokenKind.IDENTIFIER → N t.Value)
    (hrel : ∀ a b c : String, N (a ++ " " ++ b ++ " " ++ c)) :
    Post T (parseEntity L) (fun c => ClassShape N c ∨ LeafShape N c) := by
  unfold parseEntity
  refine Post.post_bind (post_currentToken T) fun token _ => ?_
  cases token.Kind
  case CLASS => exact (post_parseClass T N hN).post_mono fun _ h => Or.inl h
  case INTERFACE => exact (post_parseInterface T N hN).post_mono fun _ h => Or.inr h
  case IDENTIFIER => exact (post_parseRelationship L T N hrel).post_mono fun _ h => Or.inr h
  all_goals exact Post.post_fail

theorem post_parseEntities (L : Lexer) (T : List Token) (N : String → Prop)
    (hN : ∀ t ∈ T, t.Kind = TokenKind.IDENTIFIER → N t.Value)
    (hrel : ∀ a b c : String, N (a ++ " " ++ b ++ " " ++ c)) (fuel : Nat) :
    ∀ root, RootShape N root → Post T (parseEntities L fuel root) (RootShape N) := by
  induction fuel with
  | zero => intro node _ p v q _ hr; exact nomatch hr
  | succ fuel ih =>
    intro root hroot
    simp only [parseEntities]
    refine Post.post_bind (post_currentTokenKind T) fun k _ => ?_
    refine Post.post_ite (fun _ => ?_) (fun _ => Post.post_pure hroot)
    refine Post.post_bind (post_parseEntity L T N hN hrel) fun node hp => ?_
    refine ih _ ?_
    obtain ⟨h1, h2, h3, h4⟩ := hroot
    refine ⟨h1, h2, h3, ?_⟩
    intro m hm
    rcases List.mem_append.mp hm with h | h
    · exact h4 m h
    · rw [List.mem_singleton.mp h]; exact hp

/-- The node that a successful `Parse` returns, for any property `N` of names that the
values of the identifier tokens, the names given to relationships and `"root"` have. -/
theorem post_Parse (L : Lexer) (T : List Token) (N : String → Prop)
    (hN : ∀ t ∈ T, t.Kind = TokenKind.IDENTIFIER → N t.Value)
    (hrel : ∀ a b c : String, N (a ++ " " ++ b ++ " " ++ c)) (hroot : N "root")
    {root : ASTNode} {q : Parser} (h : Parse L (NewParser T) = Res.ok root q) :
    RootShape N root := by
  have hpost : Post T (Parse L) (RootShape N) := by
    unfold Parse
    refine Post.post_bind (post_loopFuel T) fun fuel _ => ?_
    exact post_parseEntities L T N hN hrel fuel _ ⟨rfl, hroot, rfl, fun c hc => nomatch hc⟩
  exact (hpost (NewParser T) root q rfl h).2

theorem append_space_ne_empty (a b c : String) : a ++ " " ++ b ++ " " ++ c ≠ "" := by
  intro h
  have := congrArg String.length h
  simp only [String.length_append] at this
  have h1 : " ".length = 1 := rfl
  have h0 : "".length = 0 := rfl
  omega

/-- C13: when `Parse` succeeds, the node it returns has type ROOT; every child of the
root has type CLASS, INTERFACE or RELATIONSHIP; every child of a CLASS node has type FIELD
or METHOD. The tree has no further CLASS node: a child of the root that is not a CLASS
has no children, the members have no children, and the parameters of a member are FIELD
nodes without children or parameters. -/
theorem parse_node_types (L : Lexer) (T : List Token) (root : ASTNode) (q : Parser)
    (h : Parse L (NewParser T) = Res.ok root q) :
    root.Typ = NodeType.ROOT ∧
    ∀ c ∈ root.Children,
      (c.Typ = NodeType.CLASS ∨ c.Typ = NodeType.INTERFACE ∨
        c.Typ = NodeType.RELATIONSHIP) ∧
      (c.Typ ≠ NodeType.CLASS → c.Children = []) ∧
      c.Parameters = [] ∧
      ∀ m ∈ c.Children, (m.Typ = NodeType.FIELD ∨ m.Typ = NodeType.METHOD) ∧
        m.Children = [] ∧
        ∀ p ∈ m.Parameters, p.Typ = NodeType.FIELD ∧ p.Children = [] ∧
          p.Parameters = [] := by
  obtain ⟨h1, -, -, h4⟩ := post_Parse L T (fun _ => True) (fun _ _ _ => trivial)
    (fun _ _ _ => trivial) trivial h
  refine ⟨h1, fun c hc => ?_⟩
  rcases h4 c hc with ⟨c1, -, c3, c4⟩ | ⟨c1, -, c3, c4⟩
  · refine ⟨Or.inl c1, fun hne => absurd c1 hne, c3, fun m hm => ?_⟩
    rcases c4 m hm with ⟨m1, -, m3, m4⟩ | ⟨m1, -, m3, m4⟩
    · exact ⟨Or.inl m1, m3, fun p hp => by rw [m4] at hp; exact nomatch hp⟩
    · exact ⟨Or.inr m1, m3, fun p hp => ⟨(m4 p hp).1, (m4 p hp).2.2.1, (m4 p hp).2.2.2⟩⟩
  · refine ⟨Or.inr c1, fun _ => c3, c4, fun m hm => ?_⟩
    rw [c3] at hm
    exact nomatch hm

/-- Witness of C13: the sample document, a class with a method and a relationship. -/
theorem parse_node_types_witness :
    ∃ root q, Parse sampleLexer (NewParser sampleDocument) = Res.ok root q ∧
      root.Typ = NodeType.ROOT ∧
      ∀ c ∈ root.Children,
        (c.Typ = NodeType.CLASS ∨ c.Typ = NodeType.INTERFACE ∨
          c.Typ = NodeType.RELATIONSHIP) ∧
        (c.Typ ≠ NodeType.CLASS → c.Children = []) ∧
        c.Parameters = [] ∧
        ∀ m ∈ c.Children, (m.Typ = NodeType.FIELD ∨ m.Typ = NodeType.METHOD) ∧
          m.Children = [] ∧
          ∀ p ∈ m.Parameters, p.Typ = NodeType.FIELD ∧ p.Children = [] ∧
            p.Parameters = [] :=
  ⟨_, _, rfl, parse_node_types sampleLexer sampleDocument _ _ rfl⟩

/-- C14: when every IDENTIFIER token of the sequence has a non-empty value and `Parse`
succeeds, the root, every top-level entity, every class member and every method
parameter has a non-empty name. -/
theorem parse_names_nonempty (L : Lexer) (T : List Token)
    (hT : ∀ t ∈ T, t.Kind = TokenKind.IDENTIFIER → t.Value ≠ "")
    (root : ASTNode) (q : Parser) (h : Parse L (NewParser T) = Res.ok root q) :
    root.Name ≠ "" ∧
    ∀ c ∈ root.Children, c.Name ≠ "" ∧
      ∀ m ∈ c.Children, m.Name ≠ "" ∧
        ∀ p ∈ m.Parameters, p.Name ≠ "" := by
  obtain ⟨-, h2, -, h4⟩ := post_Parse L T (fun s => s ≠ "") hT append_space_ne_empty
    (by decide) h
  refine ⟨h2, fun c hc => ?_⟩
  rcases h4 c hc with ⟨-, c2, -, c4⟩ | ⟨-, c2, c3, -⟩
  · refine ⟨c2, fun m hm => ?_⟩
    rcases c4 m hm with ⟨-, m2, -, m4⟩ | ⟨-, m2, -, m4⟩
    · exact ⟨m2, fun p hp => by rw [m4] at hp; exact nomatch hp⟩
    · exact ⟨m2, fun p hp => (m4 p hp).2.1⟩
  · refine ⟨c2, fun m hm => ?_⟩
    rw [c3] at hm
    exact nomatch hm

/-- Witness of C14: the sample document, whose identifiers have non-empty values. -/
theorem parse_names_nonempty_witness :
    (∀ t ∈ sampleDocument, t.Kind = TokenKind.IDENTIFIER → t.Value ≠ "") ∧
    ∃ root q, Parse sampleLexer (NewParser sampleDocument) = Res.ok root q ∧
      root.Name ≠ "" ∧
      ∀ c ∈ root.Children, c.Name ≠ "" ∧
        ∀ m ∈ c.Children, m.Name ≠ "" ∧
          ∀ p ∈ m.Parameters, p.Name ≠ "" :=
  ⟨by decide, _, _, rfl,
    parse_names_nonempty sampleLexer sampleDocument (by decide) _ _ rfl⟩

/-! ## Termination -/

theorem lt_window_of_not_eof {W : List Token} {e t : Token} {n : Nat}
    (he : e.Kind = TokenKind.EOF) (ht : (W ++ [e])[n]? = some t)
    (hk : t.Kind ≠ TokenKind.EOF) : n < W.length := by
  by_contra hn
  have hlen : n < (W ++ [e]).length := by
    by_contra h'
    rw [List.getElem?_eq_none (by omega)] at ht
    exact absurd ht (by simp)
  have hnW : n = W.length := by simp at hlen; omega
  subst hnW
  simp at ht
  rw [← ht] at hk
  exact hk he

theorem drop_eq_cons_of_getElem? {T : List Token} {n : Nat} {t : Token}
    (h : T[n]? = some t) : T.drop n = t :: T.drop (n + 1) := by
  obtain ⟨hn, rfl⟩ := List.getElem?_eq_some_iff.mp h
  exact List.drop_eq_getElem_cons hn

/-- One iteration of the loop of `Parse`, started on a token that is not end-of-input:
it fails, or it appends a node and goes on from a cursor that has moved. -/
theorem parseEntities_step (L : Lexer) (W : List Token) (e : Token)
    (he : e.Kind = TokenKind.EOF) (n : Nat) (t : Token) (ht : (W ++ [e])[n]? = some t)
    (hk : t.Kind ≠ TokenKind.EOF) (fuel : Nat) (root : ASTNode) :
    (∃ msg q, parseEntities L (fuel + 1) root ⟨W ++ [e], n⟩ = Res.error msg q) ∨
    ∃ node m, n < m ∧ m ≤ W.length ∧
      parseEntities L (fuel + 1) root ⟨W ++ [e], n⟩
        = parseEntities L fuel { root with Children := root.Children ++ [node] }
            ⟨W ++ [e], m⟩ := by
  have hn := lt_window_of_not_eof he ht hk
  have hH := here_of_terminated L W e he (Nat.le_of_lt hn)
  have hsim := Frame.parseEntity_sim (selfFrame L (W ++ [e]) e [] he) he rfl _ n n trivial hH
  change Frame.Outcome _ 1 (W.drop n) n n (parseEntity L ⟨W ++ [e], n⟩) _ at hsim
  simp only [parseEntities, bind_apply, currentTokenKind_of_drop (drop_eq_cons_of_getElem? ht),
    hk, ne_eq, not_false_eq_true, if_true]
  cases hr : parseEntity L ⟨W ++ [e], n⟩ with
  | ok node q =>
    rw [hr] at hsim
    obtain ⟨j, hj1, hj, hq, -⟩ := hsim
    subst hq
    simp only [List.length_drop] at hj
    exact Or.inr ⟨node, n + j, by omega, by omega, rfl⟩
  | error msg q => exact Or.inl ⟨msg, q, rfl⟩
  | outOfRange => rw [hr] at hsim; exact hsim.elim
  | outOfFuel => rw [hr] at hsim; exact hsim.elim

/-- One iteration of the member loop of `parseClass`. -/
theorem parseMembers_step (W : List Token) (e : Token)
    (he : e.Kind = TokenKind.EOF) (n : Nat) (t : Token) (ht : (W ++ [e])[n]? = some t)
    (hk : t.Kind ≠ TokenKind.EOF ∧ t.Kind ≠ TokenKind.RBRACE) (fuel : Nat)
    (classNode : ASTNode) :
    (∃ msg q, parseMembers (fuel + 1) classNode ⟨W ++ [e], n⟩ = Res.error msg q) ∨
    ∃ node m, n < m ∧ m ≤ W.length ∧
      parseMembers (fuel + 1) classNode ⟨W ++ [e], n⟩
        = parseMembers fuel { classNode with Children := classNode.Children ++ [node] }
            ⟨W ++ [e], m⟩ := by
  have hn := lt_window_of_not_eof he ht hk.1
  have hH := here_of_terminated sampleLexer W e he (Nat.le_of_lt hn)
  have hsim := Frame.parseMember_sim (selfFrame sampleLexer (W ++ [e]) e [] he) _ n n trivial hH
  change Frame.Outcome _ 1 (W.drop n) n n (parseMember ⟨W ++ [e], n⟩) _ at hsim
  simp only [parseMembers, bind_apply, currentTokenKind_of_drop (drop_eq_cons_of_getElem? ht)]
  rw [if_pos hk]
  simp only [bind_apply]
  cases hr : parseMember ⟨W ++ [e], n⟩ with
  | ok node q =>
    rw [hr] at hsim
    obtain ⟨j, hj1, hj, hq, -⟩ := hsim
    subst hq
    simp only [List.length_drop] at hj
    exact Or.inr ⟨node, n + j, by omega, by omega, rfl⟩
  | error msg q => exact Or.inl ⟨msg, q, rfl⟩
  | outOfRange => rw [hr] at hsim; exact hsim.elim
  | outOfFuel => rw [hr] at hsim; exact hsim.elim

/-- One iteration of the parameter loop of `parseMethod`. -/
theorem parseParameters_step (W : List Token) (e : Token)
    (he : e.Kind = TokenKind.EOF) (n : Nat) (t : Token) (ht : (W ++ [e])[n]? = some t)
    (hk : t.Kind ≠ TokenKind.RPAREN ∧ t.Kind ≠ TokenKind.EOF) (fuel : Nat)
    (methodNode : ASTNode) :
    (∃ msg q, parseParameters (fuel + 1) methodNode ⟨W ++ [e], n⟩ = Res.error msg q) ∨
    ∃ node m, n < m ∧ m ≤ W.length ∧
      parseParameters (fuel + 1) methodNode ⟨W ++ [e], n⟩
        = parseParameters fuel
            { methodNode with Parameters := methodNode.Parameters ++ [node] }
            ⟨W ++ [e], m⟩ := by
  have hn := lt_window_of_not_eof he ht hk.2
  have hd0 := drop_eq_cons_of_getElem? ht
  have hH := here_of_terminated sampleLexer W e he (Nat.succ_le_of_lt hn)
  have hd1 : (W ++ [e]).drop (n + 1) = W.drop (n + 1) ++ e :: [] := hH.1
  obtain ⟨t2, rest2, hd1'⟩ : ∃ t2 rest2, (W ++ [e]).drop (n + 1) = t2 :: rest2 := by
    cases hw : W.drop (n + 1) with
    | nil => exact ⟨e, [], by rw [hd1, hw]; rfl⟩
    | cons t2 W' => exact ⟨t2, W' ++ [e], by rw [hd1, hw]; rfl⟩
  rw [hd1'] at hd0
  simp only [parseParameters, bind_apply, currentTokenKind_of_drop hd0,
    currentToken_of_drop hd0]
  rw [if_pos hk]
  simp only [bind_apply, currentToken_of_drop hd0]
  by_cases hid : t.Kind = TokenKind.IDENTIFIER
  swap
  · rw [if_neg hid]
    exact Or.inl ⟨_, _, rfl⟩
  rw [if_pos hid]
  simp only [bind_apply, advance_of_drop hd0]
  have hsim := Frame.parseField_sim (selfFrame sampleLexer (W ++ [e]) e [] he) t.Value ""
    _ (n + 1) (n + 1) trivial hH
  change Frame.Outcome _ 0 (W.drop (n + 1)) (n + 1) (n + 1)
    (parseField t.Value "" ⟨W ++ [e], n + 1⟩) _ at hsim
  cases hr : parseField t.Value "" ⟨W ++ [e], n + 1⟩ with
  | ok node q =>
    rw [hr] at hsim
    obtain ⟨j, -, hj, hq, -⟩ := hsim
    subst hq
    simp only [List.length_drop, selfFrame] at hj ⊢
    have hjW : n + 1 + j ≤ W.length := by omega
    have hdj : (W ++ [e]).drop (n + 1 + j) = W.drop (n + 1 + j) ++ e :: [] :=
      drop_of_terminated hjW
    cases hw : W.drop (n + 1 + j) with
    | nil =>
      rw [hw] at hdj
      simp only [List.nil_append] at hdj
      simp only [currentTokenKind_of_drop hdj, he, reduceCtorEq, if_false]
      exact Or.inr ⟨node, n + 1 + j, by omega, hjW, rfl⟩
    | cons t3 W' =>
      rw [hw] at hdj
      have hlt : n + 1 + j < W.length := by
        have := congrArg List.length hw
        simp at this
        omega
      simp only [currentTokenKind_of_drop hdj]
      by_cases hc : t3.Kind = TokenKind.COMMA
      · rw [if_pos hc]
        have hdj' : (W ++ [e]).drop (n + 1 + j) = t3 :: (W' ++ [e]) := hdj
        obtain ⟨t4, rest4, h4⟩ : ∃ t4 rest4, W' ++ [e] = t4 :: rest4 := by
          cases h : W' ++ [e] with
          | nil => simp at h
          | cons t4 rest4 => exact ⟨t4, rest4, rfl⟩
        rw [h4] at hdj'
        simp only [bind_apply, advance_of_drop hdj']
        exact Or.inr ⟨node, n + 1 + j + 1, by omega, by omega, rfl⟩
      · rw [if_neg hc]
        exact Or.inr ⟨node, n + 1 + j, by omega, hjW, rfl⟩
  | error msg q => exact Or.inl ⟨msg, q, rfl⟩
  | outOfRange => rw [hr] at hsim; exact hsim.elim
  | outOfFuel => rw [hr] at hsim; exact hsim.elim

/-- C11: on a token sequence that ends with an end-of-input token `Parse` returns: a ROOT
node or an error, never the out-of-fuel result of a loop that has not finished. Every
iteration of the three loops (of `Parse`, of the member loop of `parseClass`, of the
parameter loop of `parseMethod`), started where the loop condition holds, either fails
or goes on from a cursor that has moved forward and is still on the sequence. -/
theorem parse_terminates (L : Lexer) (W : List Token) (e : Token)
    (he : e.Kind = TokenKind.EOF) :
    ((∃ root q, Parse L (NewParser (W ++ [e])) = Res.ok root q ∧
        root.Typ = NodeType.ROOT) ∨
      (∃ msg q, Parse L (NewParser (W ++ [e])) = Res.error msg q)) ∧
    ∀ n t, (W ++ [e])[n]? = some t → ∀ (fuel : Nat) (node : ASTNode),
      (t.Kind ≠ TokenKind.EOF →
        (∃ msg q, parseEntities L (fuel + 1) node ⟨W ++ [e], n⟩ = Res.error msg q) ∨
        ∃ child m, n < m ∧ m ≤ W.length ∧
          parseEntities L (fuel + 1) node ⟨W ++ [e], n⟩
            = parseEntities L fuel { node with Children := node.Children ++ [child] }
                ⟨W ++ [e], m⟩) ∧
      (t.Kind ≠ TokenKind.EOF ∧ t.Kind ≠ TokenKind.RBRACE →
        (∃ msg q, parseMembers (fuel + 1) node ⟨W ++ [e], n⟩ = Res.error msg q) ∨
        ∃ child m, n < m ∧ m ≤ W.length ∧
          parseMembers (fuel + 1) node ⟨W ++ [e], n⟩
            = parseMembers fuel { node with Children := node.Children ++ [child] }
                ⟨W ++ [e], m⟩) ∧
      (t.Kind ≠ TokenKind.RPAREN ∧ t.Kind ≠ TokenKind.EOF →
        (∃ msg q, parseParameters (fuel + 1) node ⟨W ++ [e], n⟩ = Res.error msg q) ∨
        ∃ param m, n < m ∧ m ≤ W.length ∧
          parseParameters (fuel + 1) node ⟨W ++ [e], n⟩
            = parseParameters fuel { node with Parameters := node.Parameters ++ [param] }
                ⟨W ++ [e], m⟩) := by
  constructor
  · have hH := here_of_terminated L W e he (Nat.zero_le W.length)
    have hsim := Frame.parseEntities_sim (selfFrame L (W ++ [e]) e [] he) he rfl
      ((W ++ [e]).length + 1) ((W ++ [e]).length + 1) (rootOf []) (W.drop 0) 0 0 trivial
      (by simp; omega) hH
    change Frame.LoopOutcome _ _ _ 0 0 (Parse L (NewParser (W ++ [e]))) _ at hsim
    cases hr : Parse L (NewParser (W ++ [e])) with
    | ok root q =>
      exact Or.inl ⟨root, q, rfl, (post_Parse L _ (fun _ => True) (fun _ _ _ => trivial)
        (fun _ _ _ => trivial) trivial hr).1⟩
    | error msg q => exact Or.inr ⟨msg, q, rfl⟩
    | outOfRange => rw [hr] at hsim; exact hsim.elim
    | outOfFuel => rw [hr] at hsim; exact hsim.elim
  · intro n t ht fuel node
    exact ⟨fun hk => parseEntities_step L W e he n t ht hk fuel node,
      fun hk => parseMembers_step W e he n t ht hk fuel node,
      fun hk => parseParameters_step W e he n t ht hk fuel node⟩

/-- Witness of C11: the input `class` followed by end-of-input. -/
theorem parse_terminates_witness :
    (⟨TokenKind.EOF, ""⟩ : Token).Kind = TokenKind.EOF ∧
    ((∃ root q, Parse sampleLexer (NewParser ([⟨TokenKind.CLASS, "class"⟩] ++ [⟨TokenKind.EOF, ""⟩]))
        = Res.ok root q ∧ root.Typ = NodeType.ROOT) ∨
      (∃ msg q, Parse sampleLexer
        (NewParser ([⟨TokenKind.CLASS, "class"⟩] ++ [⟨TokenKind.EOF, ""⟩])) = Res.error msg q)) :=
  ⟨rfl, (parse_terminates sampleLexer [⟨TokenKind.CLASS, "class"⟩] ⟨TokenKind.EOF, ""⟩ rfl).1⟩

/-! ## The cursor stays in range -/

/-- The rules that begin by passing a token, started on the last token. -/
theorem within_at_last (T : List Token) (e : Token) (he : e.Kind = TokenKind.EOF) (n : Nat)
    (h : T.drop n = [e]) :
    (parseClass ⟨T, n⟩).Within T ∧ (parseInterface ⟨T, n⟩).Within T ∧
    ∀ name visibility, (parseMethod name visibility ⟨T, n⟩).Within T := by
  have hn : n < T.length := by
    have := congrArg List.length h
    simp at this
    omega
  refine ⟨?_, ?_, fun name visibility => ?_⟩
  · simp [parseClass, bind_apply, advance_of_drop_last h, currentToken_of_drop h, he, fail,
      Res.Within, hn]
  · simp [parseInterface, bind_apply, advance_of_drop_last h, currentToken_of_drop h, he,
      fail, Res.Within, hn]
  · simp [parseMethod, bind_apply, advance_of_drop_last h, currentToken_of_drop h, he,
      fail, Res.Within, hn, loopFuel, parseParameters, currentTokenKind_of_drop h,
      pure_apply]

/-- C12: on a token sequence that ends with an end-of-input token, `Parse` and every
method it is made of, started with the cursor on any index of the sequence, return with
the cursor on an index of the sequence: no read `tokens[pos]` is out of range
(`Res.outOfRange` is the result of such a read, and every position the cursor takes is
read). -/
theorem parse_cursor_in_range (L : Lexer) (W : List Token) (e : Token)
    (he : e.Kind = TokenKind.EOF) :
    (Parse L (NewParser (W ++ [e]))).Within (W ++ [e]) ∧
    ∀ n, n < (W ++ [e]).length →
      (currentToken ⟨W ++ [e], n⟩).Within (W ++ [e]) ∧
      (nextToken ⟨W ++ [e], n⟩).Within (W ++ [e]) ∧
      (parseEntity L ⟨W ++ [e], n⟩).Within (W ++ [e]) ∧
      (parseClass ⟨W ++ [e], n⟩).Within (W ++ [e]) ∧
      (parseInterface ⟨W ++ [e], n⟩).Within (W ++ [e]) ∧
      (parseRelationship L ⟨W ++ [e], n⟩).Within (W ++ [e]) ∧
      (parseMember ⟨W ++ [e], n⟩).Within (W ++ [e]) ∧
      (∀ name visibility, (parseField name visibility ⟨W ++ [e], n⟩).Within (W ++ [e])) ∧
      (∀ name visibility, (parseMethod name visibility ⟨W ++ [e], n⟩).Within (W ++ [e])) := by
  constructor
  · have hH := here_of_terminated L W e he (Nat.zero_le W.length)
    have hsim := Frame.parseEntities_sim (selfFrame L (W ++ [e]) e [] he) he rfl
      ((W ++ [e]).length + 1) ((W ++ [e]).length + 1) (rootOf []) (W.drop 0) 0 0 trivial
      (by simp; omega) hH
    rw [parse_eq_parseEntities]
    exact within_of_loopOutcome L _ e he hH hsim
  · intro n hn
    have hnW : n ≤ W.length := by simp at hn; omega
    have hH := here_of_terminated L W e he hnW
    have hd : (W ++ [e]).drop n = W.drop n ++ e :: [] := drop_of_terminated hnW
    obtain ⟨t, rest, hd1⟩ : ∃ t rest, (W ++ [e]).drop n = t :: rest := by
      cases hw : W.drop n with
      | nil => exact ⟨e, [], by rw [hd, hw]; rfl⟩
      | cons t W' => exact ⟨t, W' ++ [e], by rw [hd, hw]; rfl⟩
    have hcur : (currentToken ⟨W ++ [e], n⟩).Within (W ++ [e]) := by
      rw [currentToken_of_drop hd1]
      exact ⟨rfl, hn⟩
    have hnext : (nextToken ⟨W ++ [e], n⟩).Within (W ++ [e]) := by
      cases rest with
      | nil =>
        rw [nextToken_of_drop_last hd1]
        exact ⟨rfl, hn⟩
      | cons t2 rest =>
        rw [nextToken_of_drop hd1]
        have := congrArg List.length hd1
        simp at this
        exact ⟨rfl, by simp; omega⟩
    refine ⟨hcur, hnext, ?_, ?_, ?_, ?_, ?_, ?_, ?_⟩
    · exact within_of_outcome L _ e he hH
        (Frame.parseEntity_sim (selfFrame L (W ++ [e]) e [] he) he rfl _ n n trivial hH)
    · cases hw : W.drop n with
      | nil =>
        rw [hw] at hd
        exact (within_at_last _ e he n hd).1
      | cons t W' =>
        rw [hw] at hH
        exact within_of_outcome L _ e he hH
          (Frame.parseClass_sim (selfFrame L (W ++ [e]) e [] he) he t _ n n ⟨W', rfl⟩ hH)
    · cases hw : W.drop n with
      | nil =>
        rw [hw] at hd
        exact (within_at_last _ e he n hd).2.1
      | cons t W' =>
        rw [hw] at hH
        exact within_of_outcome L _ e he hH
          (Frame.parseInterface_sim (selfFrame L (W ++ [e]) e [] he) he t _ n n ⟨W', rfl⟩ hH)
    · exact within_of_outcome L _ e he hH
        (Frame.parseRelationship_sim (selfFrame L (W ++ [e]) e [] he) he rfl _ n n trivial hH)
    · exact within_of_outcome L _ e he hH
        (Frame.parseMember_sim (selfFrame L (W ++ [e]) e [] he) _ n n trivial hH)
    · intro name visibility
      exact within_of_outcome L _ e he hH
        (Frame.parseField_sim (selfFrame L (W ++ [e]) e [] he) name visibility _ n n trivial hH)
    · intro name visibility
      cases hw : W.drop n with
      | nil =>
        rw [hw] at hd
        exact (within_at_last _ e he n hd).2.2 name visibility
      | cons t W' =>
        rw [hw] at hH
        exact within_of_outcome L _ e he hH
          (Frame.parseMethod_sim (selfFrame L (W ++ [e]) e [] he) t name visibility _ n n
            ⟨W', rfl⟩ hH)

/-- Witness of C12: the input `class` followed by end-of-input. -/
theorem parse_cursor_in_range_witness :
    (⟨TokenKind.EOF, ""⟩ : Token).Kind = TokenKind.EOF ∧
    (Parse sampleLexer (NewParser ([⟨TokenKind.CLASS, "class"⟩] ++ [⟨TokenKind.EOF, ""⟩]))).Within
      ([⟨TokenKind.CLASS, "class"⟩] ++ [⟨TokenKind.EOF, ""⟩]) :=
  ⟨rfl, (parse_cursor_in_range sampleLexer [⟨TokenKind.CLASS, "class"⟩] ⟨TokenKind.EOF, ""⟩ rfl).1⟩

/-- Without a token there is nothing under the cursor: the first read of `Parse` is out
of range. -/
theorem parse_of_no_tokens (L : Lexer) : Parse L (NewParser []) = Res.outOfRange := rfl

/-! ## The message for a missing middle label -/

/-- A relationship `a op b :` that is followed by a token other than a quoted label:
`Parse` fails with the cursor on that token, and the message is built from the operator
token `op`. -/
theorem parse_missing_middle_label (L : Lexer) (a b cv : String) (op t : Token)
    (rest : List Token) (hop : L.IsRelationshipKind op.Kind = true)
    (hq : op.Kind ≠ TokenKind.QUOTATION) (ht : t.Kind ≠ TokenKind.QUOTATION) :
    Parse L (NewParser (⟨TokenKind.IDENTIFIER, a⟩ :: op :: ⟨TokenKind.IDENTIFIER, b⟩ ::
        ⟨TokenKind.COLON, cv⟩ :: t :: rest))
      = Res.error
          ("expected Quotation token for middle label on relationship, got token type of:"
            ++ L.TokenKindName op.Kind ++ " and value of: " ++ op.Value)
          ⟨⟨TokenKind.IDENTIFIER, a⟩ :: op :: ⟨TokenKind.IDENTIFIER, b⟩ ::
            ⟨TokenKind.COLON, cv⟩ :: t :: rest, 4⟩ := by
  simp [Parse, loopFuel, parseEntities, parseEntity, parseRelationship, currentTokenKind,
    currentToken, nextToken, advance, fail, bind, M.bind, pure, M.pure, NewParser, hop, hq,
    ht]

/-- C16, the code at `A --|> B : }`: `Parse` fails with the cursor on the `}` that follows
the colon, and the message carries the kind name and the value of the operator `--|>`
(the token at index 1), not those of the `}` (the token at index 4) that was found. -/
theorem parse_middle_label_error_names_operator :
    Parse sampleLexer (NewParser sampleUnlabelled)
      = Res.error ("expected Quotation token for middle label on relationship, "
          ++ "got token type of:INHERITANCE and value of: --|>") ⟨sampleUnlabelled, 4⟩ ∧
    sampleUnlabelled[1]? = some ⟨TokenKind.OTHER 0, "--|>"⟩ ∧
    sampleUnlabelled[4]? = some ⟨TokenKind.RBRACE, "\x7d"⟩ ∧
    ¬ Mentions ("expected Quotation token for middle label on relationship, "
        ++ "got token type of:INHERITANCE and value of: --|>")
      (sampleLexer.TokenKindName TokenKind.RBRACE) ∧
    ¬ Mentions ("expected Quotation token for middle label on relationship, "
        ++ "got token type of:INHERITANCE and value of: --|>") "\x7d" := by
  refine ⟨rfl, rfl, rfl, ?_, ?_⟩
  · unfold Mentions
    set_option maxRecDepth 100000 in decide
  · unfold Mentions
    set_option maxRecDepth 100000 in decide

/-! ## Interfaces, and the cursor -/

/-- C17: `interface n` parses to a ROOT whose only child is an INTERFACE node named `n`
without children, and a `{` after `interface n` is not read as a body: whatever follows
it, `Parse` fails on the `{` with the top-level message
`"unexpected token: " ++ TokenKindName LBRACE ++ ", Token value: "` followed by the value
of the `{` token. -/
theorem parse_interface_without_body (L : Lexer) (iv n ev lv : String)
    (rest : List Token) :
    Parse L (NewParser [⟨TokenKind.INTERFACE, iv⟩, ⟨TokenKind.IDENTIFIER, n⟩,
        ⟨TokenKind.EOF, ev⟩])
      = Res.ok (rootOf [{ ASTNode.zero NodeType.INTERFACE with Name := n }])
          ⟨[⟨TokenKind.INTERFACE, iv⟩, ⟨TokenKind.IDENTIFIER, n⟩, ⟨TokenKind.EOF, ev⟩], 2⟩ ∧
    Parse L (NewParser (⟨TokenKind.INTERFACE, iv⟩ :: ⟨TokenKind.IDENTIFIER, n⟩ ::
        ⟨TokenKind.LBRACE, lv⟩ :: rest))
      = Res.error
          ("unexpected token: " ++ L.TokenKindName TokenKind.LBRACE ++ ", Token value: "
            ++ lv)
          ⟨⟨TokenKind.INTERFACE, iv⟩ :: ⟨TokenKind.IDENTIFIER, n⟩ ::
            ⟨TokenKind.LBRACE, lv⟩ :: rest, 2⟩ := by
  refine ⟨rfl, ?_⟩
  simp [Parse, loopFuel, parseEntities, parseEntity, parseInterface, currentTokenKind,
    currentToken, nextToken, advance, fail, bind, M.bind, pure, M.pure, NewParser, rootOf,
    ASTNode.zero]

/-- C18: from a state whose cursor is in range, `nextToken` moves the cursor by one and
returns the token there when the cursor is not on the last index; on the last index it
leaves the state unchanged and returns the current token, and so does a second
`nextToken`; in either case the cursor stays in range. -/
theorem nextToken_spec (p : Parser) (h : p.pos < p.tokens.length) :
    (p.pos < p.tokens.length - 1 →
      ∃ t, p.tokens[p.pos + 1]? = some t ∧
        nextToken p = Res.ok t ⟨p.tokens, p.pos + 1⟩) ∧
    (p.pos = p.tokens.length - 1 →
      ∃ t, p.tokens[p.pos]? = some t ∧ nextToken p = Res.ok t p ∧
        (nextToken >>= fun _ => nextToken) p = Res.ok t p) ∧
    (∃ t q, nextToken p = Res.ok t q ∧ q.tokens = p.tokens ∧ q.pos < q.tokens.length) := by
  obtain ⟨T, n⟩ := p
  simp only at h ⊢
  refine ⟨fun hlt => ?_, fun hlast => ?_, ?_⟩
  · have h1 : n + 1 < T.length := by omega
    exact ⟨T[n + 1], List.getElem?_eq_getElem h1,
      by simp [nextToken, hlt, currentToken, List.getElem?_eq_getElem h1]⟩
  · have hnlt : ¬ n < T.length - 1 := by omega
    have hcur : nextToken ⟨T, n⟩ = Res.ok T[n] ⟨T, n⟩ := by
      simp [nextToken, hnlt, currentToken, List.getElem?_eq_getElem h]
    exact ⟨T[n], List.getElem?_eq_getElem h, hcur, by rw [bind_apply, hcur]; exact hcur⟩
  · by_cases hlt : n < T.length - 1
    · have h1 : n + 1 < T.length := by omega
      exact ⟨T[n + 1], ⟨T, n + 1⟩,
        by simp [nextToken, hlt, currentToken, List.getElem?_eq_getElem h1], rfl, h1⟩
    · exact ⟨T[n], ⟨T, n⟩,
        by simp [nextToken, hlt, currentToken, List.getElem?_eq_getElem h], rfl, h⟩

/-- Witness of C18: the cursor on the last of the two tokens `class`, end-of-input. -/
theorem nextToken_spec_witness :
    (1 : Nat) < [(⟨TokenKind.CLASS, "class"⟩ : Token), ⟨TokenKind.EOF, ""⟩].length ∧
    ((1 : Nat) = [(⟨TokenKind.CLASS, "class"⟩ : Token), ⟨TokenKind.EOF, ""⟩].length - 1 →
      ∃ t, [(⟨TokenKind.CLASS, "class"⟩ : Token), ⟨TokenKind.EOF, ""⟩][1]? = some t ∧
        nextToken ⟨[⟨TokenKind.CLASS, "class"⟩, ⟨TokenKind.EOF, ""⟩], 1⟩
          = Res.ok t ⟨[⟨TokenKind.CLASS, "class"⟩, ⟨TokenKind.EOF, ""⟩], 1⟩ ∧
        (nextToken >>= fun _ => nextToken)
            ⟨[⟨TokenKind.CLASS, "class"⟩, ⟨TokenKind.EOF, ""⟩], 1⟩
          = Res.ok t ⟨[⟨TokenKind.CLASS, "class"⟩, ⟨TokenKind.EOF, ""⟩], 1⟩) :=
  ⟨by decide,
    (nextToken_spec ⟨[⟨TokenKind.CLASS, "class"⟩, ⟨TokenKind.EOF, ""⟩], 1⟩ (by decide)).2.1⟩

/-! ## Tokens behind the end of input -/

namespace Frame

variable {F : Frame} {α β : Type}

theorem Same.same_of_drop {W : List Token} {n n' j : Nat} {r r' : Res α}
    (h : F.Same (W.drop j) (n + j) (n' + j) r r') (hj : j ≤ W.length) :
    F.Same W n n' r r' := by
  cases r with
  | ok v q =>
    obtain ⟨i, hi, hq, hr⟩ := h
    refine ⟨j + i, ?_, ?_, ?_⟩
    · simp at hi; omega
    · rw [hq, Nat.add_assoc]
    · rw [hr, Nat.add_assoc]
  | error m q =>
    obtain ⟨i, hi, hq, hr⟩ := h
    refine ⟨j + i, ?_, ?_, ?_⟩
    · simp at hi; omega
    · rw [hq, Nat.add_assoc]
    · rw [hr, Nat.add_assoc]
  | outOfRange => trivial
  | outOfFuel => trivial

theorem Same.same_of_next {W : List Token} {t : Token} {n n' : Nat} {r r' : Res α}
    (h : F.Same W (n + 1) (n' + 1) r r') : F.Same (t :: W) n n' r r' :=
  @Same.same_of_drop F α (t :: W) n n' 1 r r' (by simpa using h) (by simp)

theorem Lock.lock_weaken {C : List Token → Prop} {a a' : M α} (h : F.Lock Anywhere a a') :
    F.Lock C a a' :=
  fun W n n' _ hH => h W n n' trivial hH

theorem Lock.lock_pure {C : List Token → Prop} (v : α) : F.Lock C (pure v) (pure v) := by
  intro W n n' _ _
  exact ⟨0, Nat.zero_le _, rfl, rfl⟩

theorem Lock.lock_fail {C : List Token → Prop} (m : String) :
    F.Lock C (fail m : M α) (fail m) := by
  intro W n n' _ _
  exact ⟨0, Nat.zero_le _, rfl, rfl⟩

theorem Lock.lock_bind {C : List Token → Prop} {a a' : M α} {f f' : α → M β}
    (ha : F.Lock C a a') (hf : ∀ v, F.Lock Anywhere (f v) (f' v)) :
    F.Lock C (a >>= f) (a' >>= f') := by
  intro W n n' hC hH
  have h1 := ha W n n' hC hH
  rw [bind_apply, bind_apply]
  cases hr : a ⟨F.T, n⟩ with
  | ok v q =>
    rw [hr] at h1
    obtain ⟨j, hj, hq, hr'⟩ := h1
    rw [hr', hq]
    exact Same.same_of_drop (hf v _ _ _ trivial (hH.here_drop hj)) hj
  | error m q =>
    rw [hr] at h1
    obtain ⟨j, hj, hq, hr'⟩ := h1
    rw [hr']
    exact ⟨j, hj, hq, rfl⟩
  | outOfRange => trivial
  | outOfFuel => trivial

theorem Lock.lock_cur (hxy : F.x = F.y) {k k' : Token → M α}
    (hin : ∀ t, F.Lock (StartsWith t) (k t) (k' t))
    (hedge : F.Lock AtEdge (k F.y) (k' F.y)) :
    F.Lock Anywhere (currentToken >>= k) (currentToken >>= k') := by
  intro W n n' _ hH
  rw [bind_apply, bind_apply]
  cases W with
  | nil =>
    rw [hH.here_cur_edge.1, hH.here_cur_edge.2, hxy]
    exact hedge [] n n' rfl hH
  | cons t W =>
    rw [hH.here_cur.1, hH.here_cur.2]
    exact hin t (t :: W) n n' ⟨W, rfl⟩ hH

theorem Lock.lock_cur_at {t : Token} {k k' : Token → M α}
    (h : F.Lock (StartsWith t) (k t) (k' t)) :
    F.Lock (StartsWith t) (currentToken >>= k) (currentToken >>= k') := by
  rintro W n n' ⟨W', rfl⟩ hH
  rw [bind_apply, bind_apply, hH.here_cur.1, hH.here_cur.2]
  exact h (t :: W') n n' ⟨W', rfl⟩ hH

theorem Lock.lock_kind (hxy : F.x = F.y) {k k' : TokenKind → M α}
    (hin : ∀ t, F.Lock (StartsWith t) (k t.Kind) (k' t.Kind))
    (hedge : F.Lock AtEdge (k F.y.Kind) (k' F.y.Kind)) :
    F.Lock Anywhere (currentTokenKind >>= k) (currentTokenKind >>= k') := by
  rw [currentTokenKind_bind, currentTokenKind_bind]
  exact Lock.lock_cur hxy hin hedge

theorem Lock.lock_kind_at {t : Token} {k k' : TokenKind → M α}
    (h : F.Lock (StartsWith t) (k t.Kind) (k' t.Kind)) :
    F.Lock (StartsWith t) (currentTokenKind >>= k) (currentTokenKind >>= k') := by
  rw [currentTokenKind_bind, currentTokenKind_bind]
  exact Lock.lock_cur_at h

/-- Passing a token of the window, in step. -/
theorem Lock.lock_advance {t : Token} {k k' : Unit → M α}
    (h : ∀ u, F.Lock Anywhere (k u) (k' u)) :
    F.Lock (StartsWith t) (LumaParser.advance >>= k) (LumaParser.advance >>= k') := by
  rintro W n n' ⟨W', rfl⟩ hH
  rw [bind_apply, bind_apply, hH.here_advance.1, hH.here_advance.2]
  exact Same.same_of_next (h () W' _ _ trivial hH.here_next)

theorem Lock.lock_ite {C : List Token → Prop} {c : Prop} [Decidable c] {a a' b b' : M α}
    (h1 : c → F.Lock C a a') (h2 : ¬ c → F.Lock C b b') :
    F.Lock C (if c then a else b) (if c then a' else b') := by
  by_cases hc : c
  · simpa [hc] using h1 hc
  · simpa [hc] using h2 hc

/-- A loop followed by the rest of its rule: the run on `T'` has at least the iteration
bound of the run on `T`. -/
theorem Lock.lock_loop {C : List Token → Prop} {body body' : Nat → M α} {f f' : α → M β}
    (hlen : F.T.length ≤ F.T'.length)
    (hloop : ∀ fuel fuel', fuel ≤ fuel' → F.Lock Anywhere (body fuel) (body' fuel'))
    (hf : ∀ v, F.Lock Anywhere (f v) (f' v)) :
    F.Lock C (loopFuel >>= fun fuel => body fuel >>= f)
      (loopFuel >>= fun fuel => body' fuel >>= f') := by
  intro W n n' hC hH
  rw [bind_apply, bind_apply]
  simp only [loopFuel]
  exact Lock.lock_bind (hloop _ _ (by omega)) hf W n n' trivial hH

theorem parseField_lock (F : Frame) (hE : F.y.Kind = TokenKind.EOF) (hxy : F.x = F.y)
    (name visibility : String) :
    F.Lock Anywhere (parseField name visibility) (parseField name visibility) := by
  unfold parseField
  refine Lock.lock_kind hxy (fun t => Lock.lock_bind ?_ fun valueType => ?_)
    (Lock.lock_bind ?_ fun valueType => ?_)
  case refine_1 =>
    -- the type annotation, cursor in the window
    refine Lock.lock_ite (fun _ => ?_) (fun _ => Lock.lock_pure _)
    refine Lock.lock_advance fun _ => ?_
    refine Lock.lock_cur hxy (fun t2 => ?_) ?_
    · refine Lock.lock_ite (fun _ => Lock.lock_fail _) (fun _ => ?_)
      refine Lock.lock_advance fun _ => ?_
      refine Lock.lock_cur hxy (fun t3 => ?_) ?_
      · refine Lock.lock_ite (fun _ => ?_) (fun _ => Lock.lock_pure _)
        refine Lock.lock_advance fun _ => ?_
        refine Lock.lock_cur hxy (fun t4 => ?_) ?_
        · refine Lock.lock_ite (fun _ => Lock.lock_fail _) (fun _ => ?_)
          exact Lock.lock_advance fun _ => Lock.lock_pure _
        · simp only [hE, ne_eq, reduceCtorEq, not_false_eq_true, if_true]
          exact Lock.lock_fail _
      · simp only [hE, reduceCtorEq, if_false]
        exact Lock.lock_pure _
    · simp only [hE, ne_eq, reduceCtorEq, not_false_eq_true, if_true]
      exact Lock.lock_fail _
  case refine_3 =>
    simp only [hE, reduceCtorEq, if_false]
    exact Lock.lock_pure _
  all_goals
    -- the default value
    refine Lock.lock_kind hxy (fun t => Lock.lock_bind ?_ fun _ => Lock.lock_pure _)
      (Lock.lock_bind ?_ fun _ => Lock.lock_pure _)
    · refine Lock.lock_ite (fun _ => ?_) (fun _ => Lock.lock_pure _)
      refine Lock.lock_advance fun _ => ?_
      refine Lock.lock_cur hxy (fun t2 => ?_) ?_
      · refine Lock.lock_ite (fun _ => Lock.lock_fail _) (fun _ => ?_)
        exact Lock.lock_advance fun _ => Lock.lock_pure _
      · simp only [hE, ne_eq, reduceCtorEq, not_false_eq_true, if_true]
        exact Lock.lock_fail _
    · simp only [hE, reduceCtorEq, if_false]
      exact Lock.lock_pure _

theorem parseParameters_lock (F : Frame) (hE : F.y.Kind = TokenKind.EOF) (hxy : F.x = F.y)
    (fuel : Nat) :
    ∀ (fuel' : Nat) (node : ASTNode), fuel ≤ fuel' →
      F.Lock Anywhere (parseParameters fuel node) (parseParameters fuel' node) := by
  induction fuel with
  | zero => intro fuel' node _ W n n' _ _; trivial
  | succ fuel ih =>
    intro fuel' node hle
    obtain ⟨fuel', rfl⟩ : ∃ f, fuel' = f + 1 := ⟨fuel' - 1, by omega⟩
    have hle' : fuel ≤ fuel' := by omega
    simp only [parseParameters]
    refine Lock.lock_kind hxy (fun t => ?_) ?_
    · refine Lock.lock_ite (fun _ => ?_) (fun hc => Lock.lock_pure _)
      refine Lock.lock_cur_at ?_
      refine Lock.lock_ite (fun _ => ?_) (fun _ => Lock.lock_fail _)
      refine Lock.lock_advance fun _ => ?_
      refine Lock.lock_bind (parseField_lock F hE hxy _ _) fun propertyNode => ?_
      refine Lock.lock_kind hxy (fun t2 => ?_) ?_
      · refine Lock.lock_ite (fun _ => ?_) (fun _ => (ih fuel' _ hle').lock_weaken)
        exact Lock.lock_advance fun _ => ih fuel' _ hle'
      · simp only [hE, reduceCtorEq, if_false]
        exact (ih fuel' _ hle').lock_weaken
    · simp only [hE, ne_eq, reduceCtorEq, not_false_eq_true, not_true_eq_false,
        and_false, if_false]
      exact Lock.lock_pure _

theorem parseMethod_lock (F : Frame) (hE : F.y.Kind = TokenKind.EOF) (hxy : F.x = F.y)
    (hlen : F.T.length ≤ F.T'.length) (t : Token) (name visibility : String) :
    F.Lock (StartsWith t) (parseMethod name visibility) (parseMethod name visibility) := by
  unfold parseMethod
  refine Lock.lock_advance fun _ => ?_
  refine Lock.lock_loop hlen (fun fuel fuel' h => parseParameters_lock F hE hxy fuel fuel' _ h)
    (fun methodNode => ?_)
  refine Lock.lock_cur hxy (fun t2 => ?_) ?_
  · refine Lock.lock_ite (fun _ => Lock.lock_fail _) (fun _ => ?_)
    refine Lock.lock_advance fun _ => ?_
    refine Lock.lock_kind hxy (fun t3 => ?_) ?_
    · refine Lock.lock_ite (fun _ => ?_) (fun _ => Lock.lock_pure _)
      refine Lock.lock_advance fun _ => ?_
      refine Lock.lock_cur hxy (fun t4 => ?_) ?_
      · refine Lock.lock_ite (fun _ => Lock.lock_fail _) (fun _ => ?_)
        refine Lock.lock_advance fun _ => ?_
        refine Lock.lock_cur hxy (fun t5 => ?_) ?_
        · refine Lock.lock_ite (fun _ => ?_) (fun _ => Lock.lock_pure _)
          refine Lock.lock_advance fun _ => ?_
          refine Lock.lock_cur hxy (fun t6 => ?_) ?_
          · refine Lock.lock_ite (fun _ => Lock.lock_fail _) (fun _ => ?_)
            exact Lock.lock_advance fun _ => Lock.lock_pure _
          · simp only [hE, ne_eq, reduceCtorEq, not_false_eq_true, if_true]
            exact Lock.lock_fail _
        · simp only [hE, reduceCtorEq, if_false]
          exact Lock.lock_pure _
      · simp only [hE, ne_eq, reduceCtorEq, not_false_eq_true, if_true]
        exact Lock.lock_fail _
    · simp only [hE, reduceCtorEq, if_false]
      exact Lock.lock_pure _
  · simp only [hE, ne_eq, reduceCtorEq, not_false_eq_true, if_true]
    exact Lock.lock_fail _

theorem parseMember_lock (F : Frame) (hE : F.y.Kind = TokenKind.EOF) (hxy : F.x = F.y)
    (hlen : F.T.length ≤ F.T'.length) :
    F.Lock Anywhere parseMember parseMember := by
  unfold parseMember
  refine Lock.lock_cur hxy (fun t => Lock.lock_bind ?_ fun visibility => ?_)
    (Lock.lock_bind ?_ fun visibility => ?_)
  case refine_1 =>
    refine Lock.lock_ite (fun _ => ?_) (fun _ => Lock.lock_pure _)
    exact Lock.lock_advance fun _ => Lock.lock_pure _
  case refine_3 =>
    simp only [hE, reduceCtorEq, or_self, if_false]
    exact Lock.lock_pure _
  all_goals
    refine Lock.lock_cur hxy (fun t2 => ?_) ?_
    · refine Lock.lock_ite (fun _ => Lock.lock_fail _) (fun _ => ?_)
      refine Lock.lock_advance fun _ => ?_
      refine Lock.lock_kind hxy (fun t3 => ?_) ?_
      · exact Lock.lock_ite (fun _ => parseMethod_lock F hE hxy hlen t3 _ _)
          (fun _ => (parseField_lock F hE hxy _ _).lock_weaken)
      · simp only [hE, reduceCtorEq, if_false]
        exact (parseField_lock F hE hxy _ _).lock_weaken
    · simp only [hE, ne_eq, reduceCtorEq, not_false_eq_true, if_true]
      exact Lock.lock_fail _

theorem parseMembers_lock (F : Frame) (hE : F.y.Kind = TokenKind.EOF) (hxy : F.x = F.y)
    (hlen : F.T.length ≤ F.T'.length) (fuel : Nat) :
    ∀ (fuel' : Nat) (node : ASTNode), fuel ≤ fuel' →
      F.Lock Anywhere (parseMembers fuel node) (parseMembers fuel' node) := by
  induction fuel with
  | zero => intro fuel' node _ W n n' _ _; trivial
  | succ fuel ih =>
    intro fuel' node hle
    obtain ⟨fuel', rfl⟩ : ∃ f, fuel' = f + 1 := ⟨fuel' - 1, by omega⟩
    have hle' : fuel ≤ fuel' := by omega
    simp only [parseMembers]
    refine Lock.lock_kind hxy (fun t => ?_) ?_
    · refine Lock.lock_ite (fun _ => ?_) (fun hc => Lock.lock_pure _)
      exact Lock.lock_bind ((parseMember_lock F hE hxy hlen).lock_weaken)
        fun propertyNode => ih fuel' _ hle'
    · simp only [hE, ne_eq, reduceCtorEq, not_false_eq_true, not_true_eq_false,
        false_and, if_false]
      exact Lock.lock_pure _

theorem parseClass_lock (F : Frame) (hE : F.y.Kind = TokenKind.EOF) (hxy : F.x = F.y)
    (hlen : F.T.length ≤ F.T'.length) (t : Token) :
    F.Lock (StartsWith t) parseClass parseClass := by
  unfold parseClass
  refine Lock.lock_advance fun _ => ?_
  refine Lock.lock_cur hxy (fun t2 => ?_) ?_
  · refine Lock.lock_ite (fun _ => Lock.lock_fail _) (fun _ => ?_)
    refine Lock.lock_advance fun _ => ?_
    refine Lock.lock_kind hxy (fun t3 => ?_) ?_
    · refine Lock.lock_ite (fun _ => ?_) (fun _ => Lock.lock_pure _)
      refine Lock.lock_advance fun _ => ?_
      refine Lock.lock_loop hlen
        (fun fuel fuel' h => parseMembers_lock F hE hxy hlen fuel fuel' _ h)
        (fun classNode => ?_)
      refine Lock.lock_cur hxy (fun t4 => ?_) ?_
      · refine Lock.lock_ite (fun _ => Lock.lock_fail _) (fun _ => ?_)
        exact Lock.lock_advance fun _ => Lock.lock_pure _
      · simp only [hE, ne_eq, reduceCtorEq, not_false_eq_true, if_true]
        exact Lock.lock_fail _
    · simp only [hE, reduceCtorEq, if_false]
      exact Lock.lock_pure _
  · simp only [hE, ne_eq, reduceCtorEq, not_false_eq_true, if_true]
    exact Lock.lock_fail _

theorem parseInterface_lock (F : Frame) (hE : F.y.Kind = TokenKind.EOF) (hxy : F.x = F.y)
    (t : Token) : F.Lock (StartsWith t) parseInterface parseInterface := by
  unfold parseInterface
  refine Lock.lock_advance fun _ => ?_
  refine Lock.lock_cur hxy (fun t2 => ?_) ?_
  · refine Lock.lock_ite (fun _ => Lock.lock_fail _) (fun _ => ?_)
    exact Lock.lock_advance fun _ => Lock.lock_pure _
  · simp only [hE, ne_eq, reduceCtorEq, not_false_eq_true, if_true]
    exact Lock.lock_fail _

theorem parseRelationship_lock (F : Frame) (hE : F.y.Kind = TokenKind.EOF) (hxy : F.x = F.y)
    (hrel : F.L.IsRelationshipKind TokenKind.EOF = false) :
    F.Lock Anywhere (parseRelationship F.L) (parseRelationship F.L) := by
  unfold parseRelationship
  refine Lock.lock_cur hxy (fun t => ?_) ?_
  · refine Lock.lock_ite (fun _ => Lock.lock_fail _) (fun _ => ?_)
    refine Lock.lock_advance fun _ => ?_
    refine Lock.lock_cur hxy (fun t2 => Lock.lock_bind ?_ fun relationshipNode => ?_)
      (Lock.lock_bind ?_ fun relationshipNode => ?_)
    case refine_3 =>
      simp only [hE, reduceCtorEq, if_false]
      exact Lock.lock_pure _
    case refine_1 =>
      refine Lock.lock_ite (fun _ => ?_) (fun _ => Lock.lock_pure _)
      exact Lock.lock_advance fun _ => Lock.lock_pure _
    all_goals
      refine Lock.lock_cur hxy (fun t3 => ?_) ?_
      · refine Lock.lock_ite (fun _ => Lock.lock_fail _) (fun _ => ?_)
        refine Lock.lock_advance fun _ => ?_
        refine Lock.lock_cur hxy (fun t4 => Lock.lock_bind ?_ fun relationshipNode => ?_)
          (Lock.lock_bind ?_ fun relationshipNode => ?_)
        case refine_3 =>
          simp only [hE, reduceCtorEq, if_false]
          exact Lock.lock_pure _
        case refine_1 =>
          refine Lock.lock_ite (fun _ => ?_) (fun _ => Lock.lock_pure _)
          exact Lock.lock_advance fun _ => Lock.lock_pure _
        all_goals
          refine Lock.lock_cur hxy (fun t5 => ?_) ?_
          · refine Lock.lock_ite (fun _ => Lock.lock_fail _) (fun _ => ?_)
            refine Lock.lock_advance fun _ => ?_
            refine Lock.lock_cur hxy (fun t6 => ?_) ?_
            · refine Lock.lock_ite (fun _ => ?_) (fun _ => Lock.lock_pure _)
              refine Lock.lock_advance fun _ => ?_
              refine Lock.lock_cur hxy (fun t7 => ?_) ?_
              · refine Lock.lock_ite (fun _ => Lock.lock_fail _) (fun _ => ?_)
                exact Lock.lock_advance fun _ => Lock.lock_pure _
              · simp only [hE, ne_eq, reduceCtorEq, not_false_eq_true, if_true]
                exact Lock.lock_fail _
            · simp only [hE, reduceCtorEq, if_false]
              exact Lock.lock_pure _
          · simp only [hE, ne_eq, reduceCtorEq, not_false_eq_true, if_true]
            exact Lock.lock_fail _
      · have hno : ¬ F.L.IsRelationshipKind F.y.Kind = true := by rw [hE, hrel]; simp
        rw [if_pos hno]
        exact Lock.lock_fail _
  · have hne : F.y.Kind ≠ TokenKind.IDENTIFIER := by rw [hE]; exact fun h => nomatch h
    rw [if_pos hne]
    exact Lock.lock_fail _

theorem parseEntity_lock (F : Frame) (hE : F.y.Kind = TokenKind.EOF) (hxy : F.x = F.y)
    (hrel : F.L.IsRelationshipKind TokenKind.EOF = false)
    (hlen : F.T.length ≤ F.T'.length) :
    F.Lock Anywhere (parseEntity F.L) (parseEntity F.L) := by
  unfold parseEntity
  refine Lock.lock_cur hxy (fun t => ?_) ?_
  · cases hk : t.Kind
    case CLASS => exact parseClass_lock F hE hxy hlen t
    case INTERFACE => exact parseInterface_lock F hE hxy t
    case IDENTIFIER => exact (parseRelationship_lock F hE hxy hrel).lock_weaken
    all_goals exact Lock.lock_fail _
  · simp only [hE]
    exact Lock.lock_fail _

theorem parseEntities_lock (F : Frame) (hE : F.y.Kind = TokenKind.EOF) (hxy : F.x = F.y)
    (hrel : F.L.IsRelationshipKind TokenKind.EOF = false)
    (hlen : F.T.length ≤ F.T'.length) (fuel : Nat) :
    ∀ (fuel' : Nat) (root : ASTNode), fuel ≤ fuel' →
      F.Lock Anywhere (parseEntities F.L fuel root) (parseEntities F.L fuel' root) := by
  induction fuel with
  | zero => intro fuel' node _ W n n' _ _; trivial
  | succ fuel ih =>
    intro fuel' node hle
    obtain ⟨fuel', rfl⟩ : ∃ f, fuel' = f + 1 := ⟨fuel' - 1, by omega⟩
    have hle' : fuel ≤ fuel' := by omega
    simp only [parseEntities]
    refine Lock.lock_kind hxy (fun t => ?_) ?_
    · refine Lock.lock_ite (fun _ => ?_) (fun hc => Lock.lock_pure _)
      exact Lock.lock_bind ((parseEntity_lock F hE hxy hrel hlen).lock_weaken)
        fun node => ih fuel' _ hle'
    · simp only [hE, ne_eq, not_true_eq_false, if_false]
      exact Lock.lock_pure _

end Frame

/-- A successful run of the loop of `Parse` ends on an end-of-input token. -/
theorem parseEntities_ends_on_eof (L : Lexer) (fuel : Nat) :
    ∀ (root : ASTNode) (p : Parser) (r : ASTNode) (q : Parser),
      parseEntities L fuel root p = Res.ok r q →
      ∃ t, q.tokens[q.pos]? = some t ∧ t.Kind = TokenKind.EOF := by
  induction fuel with
  | zero =>
    intro root p r q h
    exact absurd h (fun h => nomatch h)
  | succ fuel ih =>
    intro root p r q h
    simp only [parseEntities, bind_apply, currentTokenKind_apply] at h
    cases hc : currentToken p with
    | ok t p1 =>
      obtain ⟨rfl, ht⟩ := currentToken_state hc
      rw [hc] at h
      simp only [] at h
      by_cases hk : t.Kind = TokenKind.EOF
      · simp only [hk, ne_eq, not_true_eq_false, if_false, pure_apply] at h
        injection h with h1 h2
        subst h2
        exact ⟨t, ht, hk⟩
      · simp only [hk, ne_eq, not_false_eq_true, if_true, bind_apply] at h
        cases he : parseEntity L p1 with
        | ok node p2 =>
          rw [he] at h
          exact ih _ _ _ _ h
        | error m p2 => rw [he] at h; exact absurd h (fun h => nomatch h)
        | outOfRange => rw [he] at h; exact absurd h (fun h => nomatch h)
        | outOfFuel => rw [he] at h; exact absurd h (fun h => nomatch h)
    | error m p1 => rw [hc] at h; exact absurd h (fun h => nomatch h)
    | outOfRange => rw [hc] at h; exact absurd h (fun h => nomatch h)
    | outOfFuel => rw [hc] at h; exact absurd h (fun h => nomatch h)

/-- On a token sequence that ends with an end-of-input token `Parse` returns, with a node
or with an error. -/
theorem parse_returns (L : Lexer) (W : List Token) (e : Token) (he : e.Kind = TokenKind.EOF) :
    (∃ root q, Parse L (NewParser (W ++ [e])) = Res.ok root q) ∨
    (∃ msg q, Parse L (NewParser (W ++ [e])) = Res.error msg q) := by
  have hH := here_of_terminated L W e he (Nat.zero_le W.length)
  have hsim := Frame.parseEntities_sim (selfFrame L (W ++ [e]) e [] he) he rfl
    ((W ++ [e]).length + 1) ((W ++ [e]).length + 1) (rootOf []) (W.drop 0) 0 0 trivial
    (by simp; omega) hH
  change Frame.LoopOutcome _ _ _ 0 0 (Parse L (NewParser (W ++ [e]))) _ at hsim
  cases hr : Parse L (NewParser (W ++ [e])) with
  | ok root q => exact Or.inl ⟨root, q, rfl⟩
  | error msg q => exact Or.inr ⟨msg, q, rfl⟩
  | outOfRange => rw [hr] at hsim; exact hsim.elim
  | outOfFuel => rw [hr] at hsim; exact hsim.elim

/-- C19: when end-of-input is not a relationship-operator kind, tokens behind the
end-of-input token `e` change nothing: `Parse` on `ts ++ [e] ++ us` returns the node or
the error that it returns on `ts ++ [e]`, with the cursor on the same index, which is
never behind `e`; when `ts` has no end-of-input token, a successful `Parse` ends with the
cursor on `e`. -/
theorem parse_ignores_tokens_after_eof (L : Lexer)
    (hrel : L.IsRelationshipKind TokenKind.EOF = false) (ts : List Token) (e : Token)
    (he : e.Kind = TokenKind.EOF) (us : List Token) :
    (∀ root q, Parse L (NewParser (ts ++ [e])) = Res.ok root q →
      q.pos ≤ ts.length ∧
      Parse L (NewParser (ts ++ [e] ++ us)) = Res.ok root ⟨ts ++ [e] ++ us, q.pos⟩ ∧
      ((∀ t ∈ ts, t.Kind ≠ TokenKind.EOF) → q.pos = ts.length)) ∧
    (∀ msg q, Parse L (NewParser (ts ++ [e])) = Res.error msg q →
      q.pos ≤ ts.length ∧
      Parse L (NewParser (ts ++ [e] ++ us)) = Res.error msg ⟨ts ++ [e] ++ us, q.pos⟩) ∧
    ((∃ root q, Parse L (NewParser (ts ++ [e])) = Res.ok root q) ∨
      (∃ msg q, Parse L (NewParser (ts ++ [e])) = Res.error msg q)) := by
  have hT' : ts ++ [e] ++ us = ts ++ e :: us := by simp
  rw [hT']
  have hH : (tailFrame L ts e us he).Here ts 0 0 := ⟨rfl, rfl⟩
  have hlock := Frame.parseEntities_lock (tailFrame L ts e us he) he rfl hrel
    (by simp [tailFrame]) ((ts ++ [e]).length + 1) ((ts ++ e :: us).length + 1) (rootOf [])
    (by simp) ts 0 0 trivial hH
  change Frame.Same _ ts 0 0 (Parse L (NewParser (ts ++ [e])))
    (Parse L (NewParser (ts ++ e :: us))) at hlock
  refine ⟨fun root q h => ?_, fun msg q h => ?_, ?_⟩
  · rw [h] at hlock
    obtain ⟨j, hj, hq, hr⟩ := hlock
    subst hq
    simp only [Nat.zero_add, tailFrame] at hr ⊢
    refine ⟨hj, hr, fun hts => ?_⟩
    rw [parse_eq_parseEntities] at h
    obtain ⟨t, ht, hk⟩ := parseEntities_ends_on_eof L _ _ _ _ _ h
    simp only [Nat.zero_add, tailFrame] at ht
    by_contra hne
    have hlt : j < ts.length := by omega
    rw [List.getElem?_append_left hlt] at ht
    exact hts t (List.getElem?_mem ht) hk
  · rw [h] at hlock
    obtain ⟨j, hj, hq, hr⟩ := hlock
    subst hq
    simp only [Nat.zero_add, tailFrame] at hr ⊢
    exact ⟨hj, hr⟩
  · exact parse_returns L ts e he

/-- Witness of C19: `class Foo` followed by end-of-input, and the same with a `}` behind
the end-of-input token. -/
theorem parse_ignores_tokens_after_eof_witness :
    sampleLexer.IsRelationshipKind TokenKind.EOF = false ∧
    (⟨TokenKind.EOF, ""⟩ : Token).Kind = TokenKind.EOF ∧
    Parse sampleLexer (NewParser ([⟨TokenKind.CLASS, "class"⟩, ⟨TokenKind.IDENTIFIER, "Foo"⟩]
        ++ [⟨TokenKind.EOF, ""⟩]))
      = Res.ok (rootOf [{ ASTNode.zero NodeType.CLASS with Name := "Foo" }])
          ⟨[⟨TokenKind.CLASS, "class"⟩, ⟨TokenKind.IDENTIFIER, "Foo"⟩]
            ++ [⟨TokenKind.EOF, ""⟩], 2⟩ ∧
    Parse sampleLexer (NewParser ([⟨TokenKind.CLASS, "class"⟩, ⟨TokenKind.IDENTIFIER, "Foo"⟩]
        ++ [⟨TokenKind.EOF, ""⟩] ++ [⟨TokenKind.RBRACE, "\x7d"⟩]))
      = Res.ok (rootOf [{ ASTNode.zero NodeType.CLASS with Name := "Foo" }])
          ⟨[⟨TokenKind.CLASS, "class"⟩, ⟨TokenKind.IDENTIFIER, "Foo"⟩]
            ++ [⟨TokenKind.EOF, ""⟩] ++ [⟨TokenKind.RBRACE, "\x7d"⟩], 2⟩ :=
  ⟨rfl, rfl, rfl,
    ((parse_ignores_tokens_after_eof sampleLexer rfl
      [⟨TokenKind.CLASS, "class"⟩, ⟨TokenKind.IDENTIFIER, "Foo"⟩] ⟨TokenKind.EOF, ""⟩ rfl
      [⟨TokenKind.RBRACE, "\x7d"⟩]).1 _ _ rfl).2.1⟩

/-! ## Commas in parameter lists -/

namespace Gap

variable {G : Gap} {α β : Type}

theorem pre_length {W : List Token} {n n' : Nat} (h : G.Pre W n n') :
    G.T.length - n = W.length + 1 + G.R.length := by
  have := congrArg List.length h.1
  simp at this
  omega

theorem pre_post_absurd {W U : List Token} {n n' : Nat} (h1 : G.Pre W n n')
    (h2 : G.Post U n n') : False := by
  have h : W ++ G.y :: G.R = W ++ G.x :: G.R' := by
    rw [← h1.1, ← h1.2.1, h2.1, h2.2]
  have h' := List.append_cancel_left h
  injection h' with hy hR
  rcases G.hyx with ⟨-, hR'⟩ | ⟨hy1, hx1, -⟩
  · rw [hR] at hR'
    have := congrArg List.length hR'
    simp at this
  · rw [hy, hx1] at hy1
    exact absurd hy1 (by simp)

theorem pre_edge_cons_absurd {t : Token} {W : List Token} {n n' : Nat} (h1 : G.Pre [] n n')
    (h2 : G.Pre (t :: W) n n') : False := by
  have a := pre_length h1
  have b := pre_length h2
  simp at a b
  omega

theorem Pre.pre_next {t : Token} {W : List Token} {n n' : Nat} (h : G.Pre (t :: W) n n') :
    G.Pre W (n + 1) (n' + 1) := by
  refine ⟨drop_succ_of_drop h.1, drop_succ_of_drop h.2.1, fun hy t2 ht2 => ?_⟩
  refine h.2.2 hy t2 ?_
  cases W with
  | nil => simp at ht2
  | cons t3 W => simpa [List.getLast?_cons_cons] using ht2

theorem Pre.pre_advance {t : Token} {W : List Token} {n n' : Nat} (h : G.Pre (t :: W) n n') :
    advance ⟨G.T, n⟩ = Res.ok () ⟨G.T, n + 1⟩ ∧
    advance ⟨G.T', n'⟩ = Res.ok () ⟨G.T', n' + 1⟩ := by
  obtain ⟨h1, h2, -⟩ := h
  constructor
  · cases W with
    | nil => exact advance_of_drop h1
    | cons t2 W => exact advance_of_drop h1
  · cases W with
    | nil => exact advance_of_drop h2
    | cons t2 W => exact advance_of_drop h2

theorem Tok.tok_cur {t : Token} {n n' : Nat} (h : G.Tok t n n') :
    currentToken ⟨G.T, n⟩ = Res.ok t ⟨G.T, n⟩ ∧
    currentToken ⟨G.T', n'⟩ = Res.ok t ⟨G.T', n'⟩ := by
  rcases h with ⟨W, h⟩ | ⟨U, h⟩
  · exact ⟨currentToken_of_drop h.1, currentToken_of_drop h.2.1⟩
  · exact ⟨currentToken_of_drop h.1, currentToken_of_drop h.2⟩

theorem Edge.edge_tokens {n n' : Nat} (h : G.Edge n n') :
    currentToken ⟨G.T, n⟩ = Res.ok G.y ⟨G.T, n⟩ ∧
    currentToken ⟨G.T', n'⟩ = Res.ok G.x ⟨G.T', n'⟩ :=
  ⟨currentToken_of_drop h.1, currentToken_of_drop h.2.1⟩

/-- The outcome of a run, seen from an earlier pair of cursors. -/
theorem Out.out_from {eo : Prop} {n n' n1 n1' : Nat} {r r' : Res α}
    (h : G.Out eo n1 n1' r r')
    (hA : (∃ t W, G.Pre (t :: W) n1 n1') → ∃ t W, G.Pre (t :: W) n n')
    (hB : (∃ W, G.Pre W n1 n1') → ∃ W, G.Pre W n n')
    (hC : (∃ t U, G.Post (t :: U) n1 n1') → Inert G.x.Kind ∨ ∃ t U, G.Post (t :: U) n n') :
    G.Out eo n n' r r' := by
  intro v q hr
  obtain ⟨m, m', hq, h⟩ := h v q hr
  refine ⟨m, m', hq, ?_⟩
  rcases h with ⟨h1, h2, h3⟩ | ⟨h0, h1, h2, h3⟩ | ⟨h1, h2, h3⟩
  · exact Or.inl ⟨hA h1, h2, h3⟩
  · exact Or.inr (Or.inl ⟨h0, hB h1, h2, h3⟩)
  · refine Or.inr (Or.inr ⟨h1, h2, ?_⟩)
    rcases h3 with h3 | h3
    · exact Or.inl h3
    · exact hC h3

theorem Cross.cross_mono {eo : Prop} {C D : Nat → Nat → Prop} {a a' : M α}
    (h : G.Cross eo D a a') (hCD : ∀ n n', C n n' → D n n') : G.Cross eo C a a' :=
  fun n n' hC => h n n' (hCD n n' hC)

theorem Cross.cross_allow {C : Nat → Nat → Prop} {a a' : M α} (h : G.Cross False C a a') :
    G.Cross True C a a' := by
  intro n n' hC v q hr
  obtain ⟨m, m', hq, h⟩ := h n n' hC v q hr
  refine ⟨m, m', hq, ?_⟩
  rcases h with h | ⟨h0, -⟩ | h
  · exact Or.inl h
  · exact h0.elim
  · exact Or.inr (Or.inr h)

theorem Cross.cross_fail {eo : Prop} {C : Nat → Nat → Prop} {m : String} {a' : M α} :
    G.Cross eo C (fail m) a' :=
  fun _ _ _ _ _ hr => nomatch hr

theorem Cross.cross_pure_off {eo : Prop} (v : α) : G.Cross eo G.Off (pure v) (pure v) := by
  rintro n n' ⟨t, h⟩ w q hr
  injection hr with h1 h2
  subst h1 h2
  refine ⟨n, n', rfl, ?_⟩
  rcases h with ⟨W, h⟩ | ⟨U, h⟩
  · exact Or.inl ⟨⟨t, W, h⟩, ⟨t, W, h⟩, rfl⟩
  · exact Or.inr (Or.inr ⟨⟨t, U, h⟩, rfl, Or.inr ⟨t, U, h⟩⟩)

theorem Cross.cross_pure_edge (v : α) : G.Cross True G.Edge (pure v) (pure v) := by
  intro n n' h w q hr
  injection hr with h1 h2
  subst h1 h2
  exact ⟨n, n', rfl, Or.inr (Or.inl ⟨trivial, ⟨[], h⟩, h, fun _ => rfl⟩)⟩

theorem Cross.cross_pure (v : α) : G.Cross True G.Any (pure v) (pure v) := by
  rintro n n' (h | h)
  · exact Cross.cross_pure_off v n n' h
  · exact Cross.cross_pure_edge v n n' h

theorem Cross.cross_bind {eo : Prop} {C : Nat → Nat → Prop} {a a' : M α} {f f' : α → M β}
    (ha : G.Cross True C a a') (hf : ∀ v, G.Cross eo G.Any (f v) (f' v)) :
    G.Cross eo C (a >>= f) (a' >>= f') := by
  intro n n' hC w q hr
  rw [bind_apply] at hr
  cases h : a ⟨G.T, n⟩ with
  | ok v q1 =>
    rw [h] at hr
    obtain ⟨m, m', hq, hcl⟩ := ha n n' hC v q1 h
    subst hq
    rw [bind_apply]
    rcases hcl with ⟨h1, ⟨t, W, h2⟩, h3⟩ | ⟨-, h1, h2, h3⟩ | ⟨⟨t, U, h1⟩, h2, h3⟩
    · rw [h3]
      refine Out.out_from (hf v m m' (Or.inl ⟨t, Or.inl ⟨W, h2⟩⟩)) (fun _ => h1)
        (fun _ => ?_) (fun ⟨_, _, hp⟩ => (pre_post_absurd h2 hp).elim) w q hr
      obtain ⟨t0, W0, h0⟩ := h1
      exact ⟨_, h0⟩
    · obtain ⟨m2, m2', hq2, hcl2⟩ := hf v m m' (Or.inr h2) w q hr
      refine ⟨m2, m2', hq2, ?_⟩
      rcases hcl2 with ⟨⟨_, _, hp⟩, -⟩ | ⟨h0, -, k2, k3⟩ | ⟨k1, k2, k3⟩
      · exact (pre_edge_cons_absurd h2 hp).elim
      · refine Or.inr (Or.inl ⟨h0, h1, k2, fun hQ => ?_⟩)
        rw [h3 hQ]
        exact k3 hQ
      · have hQ : Inert G.x.Kind := by
          rcases k3 with k3 | ⟨_, _, hp⟩
          · exact k3
          · exact (pre_post_absurd h2 hp).elim
        refine Or.inr (Or.inr ⟨k1, ?_, Or.inl hQ⟩)
        rw [h3 hQ]
        exact k2
    · rw [h2]
      obtain ⟨m2, m2', hq2, hcl2⟩ := hf v m m' (Or.inl ⟨t, Or.inr ⟨U, h1⟩⟩) w q hr
      refine ⟨m2, m2', hq2, ?_⟩
      rcases hcl2 with ⟨⟨_, _, hp⟩, -⟩ | ⟨-, ⟨_, hp⟩, -⟩ | ⟨k1, k2, -⟩
      · exact (pre_post_absurd hp h1).elim
      · exact (pre_post_absurd hp h1).elim
      · exact Or.inr (Or.inr ⟨k1, k2, h3⟩)
  | error m q1 => rw [h] at hr; exact nomatch hr
  | outOfRange => rw [h] at hr; exact nomatch hr
  | outOfFuel => rw [h] at hr; exact nomatch hr

theorem Cross.cross_ite {eo : Prop} {C : Nat → Nat → Prop} {c : Prop} [Decidable c]
    {a a' b b' : M α} (h1 : c → G.Cross eo C a a') (h2 : ¬ c → G.Cross eo C b b') :
    G.Cross eo C (if c then a else b) (if c then a' else b') := by
  by_cases hc : c
  · simpa [hc] using h1 hc
  · simpa [hc] using h2 hc

theorem Cross.cross_cur_at {eo : Prop} {t : Token} {k k' : Token → M α}
    (h : G.Cross eo (G.Tok t) (k t) (k' t)) :
    G.Cross eo (G.Tok t) (currentToken >>= k) (currentToken >>= k') := by
  intro n n' hT
  rw [bind_apply, bind_apply, hT.tok_cur.1, hT.tok_cur.2]
  exact h n n' hT

theorem Cross.cross_cur_edge {eo : Prop} {k k' : Token → M α}
    (h : G.Cross eo G.Edge (k G.y) (k' G.x)) :
    G.Cross eo G.Edge (currentToken >>= k) (currentToken >>= k') := by
  intro n n' hE
  rw [bind_apply, bind_apply, hE.edge_tokens.1, hE.edge_tokens.2]
  exact h n n' hE

theorem Cross.cross_cur {eo : Prop} {k k' : Token → M α}
    (hin : ∀ t, G.Cross eo (G.Tok t) (k t) (k' t))
    (hedge : G.Cross eo G.Edge (k G.y) (k' G.x)) :
    G.Cross eo G.Any (currentToken >>= k) (currentToken >>= k') := by
  rintro n n' (⟨t, h⟩ | h)
  · exact Cross.cross_cur_at (hin t) n n' h
  · exact Cross.cross_cur_edge hedge n n' h

theorem Cross.cross_cur_top {eo : Prop} {k k' : Token → M α}
    (hin : ∀ t, G.Cross eo (G.Tok t) (k t) (k' t))
    (hedge : G.y.Kind = TokenKind.COMMA → G.Cross eo G.Edge (k G.y) (k' G.x)) :
    G.Cross eo G.Top (currentToken >>= k) (currentToken >>= k') := by
  rintro n n' (⟨t, h⟩ | ⟨h, hy⟩)
  · exact Cross.cross_cur_at (hin t) n n' h
  · exact Cross.cross_cur_edge (hedge hy) n n' h

theorem Cross.cross_kind {eo : Prop} {k k' : TokenKind → M α}
    (hin : ∀ t, G.Cross eo (G.Tok t) (k t.Kind) (k' t.Kind))
    (hedge : G.Cross eo G.Edge (k G.y.Kind) (k' G.x.Kind)) :
    G.Cross eo G.Any (currentTokenKind >>= k) (currentTokenKind >>= k') := by
  rw [currentTokenKind_bind, currentTokenKind_bind]
  exact Cross.cross_cur hin hedge

theorem Cross.cross_kind_top {eo : Prop} {k k' : TokenKind → M α}
    (hin : ∀ t, G.Cross eo (G.Tok t) (k t.Kind) (k' t.Kind))
    (hedge : G.y.Kind = TokenKind.COMMA → G.Cross eo G.Edge (k G.y.Kind) (k' G.x.Kind)) :
    G.Cross eo G.Top (currentTokenKind >>= k) (currentTokenKind >>= k') := by
  rw [currentTokenKind_bind, currentTokenKind_bind]
  exact Cross.cross_cur_top hin hedge

/-- Passing a token that both runs are on. -/
theorem Cross.cross_advance {eo : Prop} {t : Token} {k k' : Unit → M α}
    (h : ∀ u, G.Cross eo G.Any (k u) (k' u)) :
    G.Cross eo (G.Tok t) (LumaParser.advance >>= k) (LumaParser.advance >>= k') := by
  rintro n n' (⟨W, hP⟩ | ⟨U, hP⟩)
  · rw [bind_apply, bind_apply, hP.pre_advance.1, hP.pre_advance.2]
    have hnext := hP.pre_next
    have hAny : G.Any (n + 1) (n' + 1) := by
      cases W with
      | nil => exact Or.inr hnext
      | cons t2 W => exact Or.inl ⟨t2, Or.inl ⟨W, hnext⟩⟩
    exact Out.out_from (h () _ _ hAny) (fun _ => ⟨t, W, hP⟩) (fun _ => ⟨_, hP⟩)
      (fun ⟨_, _, hp⟩ => (pre_post_absurd hnext hp).elim)
  · rw [bind_apply, bind_apply]
    cases U with
    | nil =>
      rw [advance_of_drop_last hP.1, advance_of_drop_last hP.2]
      exact h () n n' (Or.inl ⟨t, Or.inr ⟨[], hP⟩⟩)
    | cons t2 U =>
      rw [advance_of_drop hP.1, advance_of_drop hP.2]
      have hnext : G.Post (t2 :: U) (n + 1) (n' + 1) :=
        ⟨drop_succ_of_drop hP.1, drop_succ_of_drop hP.2⟩
      exact Out.out_from (h () _ _ (Or.inl ⟨t2, Or.inr ⟨U, hnext⟩⟩))
        (fun ⟨_, _, hp⟩ => (pre_post_absurd hp hnext).elim)
        (fun ⟨_, hp⟩ => (pre_post_absurd hp hnext).elim)
        (fun _ => Or.inr ⟨t, t2 :: U, hP⟩)

/-- Passing a `(` or a comma that both runs are on: when the comma of the setting is the
one of `T'`, the next token is not at its place. -/
theorem Cross.cross_advance_top {eo : Prop} {t : Token} {k k' : Unit → M α}
    (ht : t.Kind = TokenKind.COMMA ∨ t.Kind = TokenKind.LPAREN)
    (h : ∀ u, G.Cross eo G.Top (k u) (k' u)) :
    G.Cross eo (G.Tok t) (LumaParser.advance >>= k) (LumaParser.advance >>= k') := by
  rintro n n' (⟨W, hP⟩ | ⟨U, hP⟩)
  · rw [bind_apply, bind_apply, hP.pre_advance.1, hP.pre_advance.2]
    have hnext := hP.pre_next
    have hTop : G.Top (n + 1) (n' + 1) := by
      cases W with
      | nil =>
        refine Or.inr ⟨hnext, ?_⟩
        rcases G.hyx with ⟨hy, -⟩ | ⟨hy, -, -⟩
        · exact hy
        · have := hP.2.2 hy t rfl
          rcases ht with ht | ht
          · exact absurd ht this.1
          · exact absurd ht this.2
      | cons t2 W => exact Or.inl ⟨t2, Or.inl ⟨W, hnext⟩⟩
    exact Out.out_from (h () _ _ hTop) (fun _ => ⟨t, W, hP⟩) (fun _ => ⟨_, hP⟩)
      (fun ⟨_, _, hp⟩ => (pre_post_absurd hnext hp).elim)
  · rw [bind_apply, bind_apply]
    cases U with
    | nil =>
      rw [advance_of_drop_last hP.1, advance_of_drop_last hP.2]
      exact h () n n' (Or.inl ⟨t, Or.inr ⟨[], hP⟩⟩)
    | cons t2 U =>
      rw [advance_of_drop hP.1, advance_of_drop hP.2]
      have hnext : G.Post (t2 :: U) (n + 1) (n' + 1) :=
        ⟨drop_succ_of_drop hP.1, drop_succ_of_drop hP.2⟩
      exact Out.out_from (h () _ _ (Or.inl ⟨t2, Or.inr ⟨U, hnext⟩⟩))
        (fun ⟨_, _, hp⟩ => (pre_post_absurd hp hnext).elim)
        (fun ⟨_, hp⟩ => (pre_post_absurd hp hnext).elim)
        (fun _ => Or.inr ⟨t, t2 :: U, hP⟩)

/-- At the place of the comma the run on `T'` only matters when `x` opens no optional
part. -/
theorem Cross.cross_edge_congr {eo : Prop} {a a1 a2 : M α}
    (h12 : Inert G.x.Kind → a1 = a2) (h : G.Cross eo G.Edge a a1) :
    G.Cross eo G.Edge a a2 := by
  intro n n' hE v q hr
  obtain ⟨m, m', hq, hcl⟩ := h n n' hE v q hr
  refine ⟨m, m', hq, ?_⟩
  rcases hcl with ⟨⟨_, _, hp⟩, -⟩ | ⟨h0, h1, h2, h3⟩ | ⟨h1, h2, h3⟩
  · exact (pre_edge_cons_absurd hE hp).elim
  · exact Or.inr (Or.inl ⟨h0, h1, h2, fun hQ => by rw [← h12 hQ]; exact h3 hQ⟩)
  · have hQ : Inert G.x.Kind := by
      rcases h3 with h3 | ⟨_, _, hp⟩
      · exact h3
      · exact (pre_post_absurd hE hp).elim
    exact Or.inr (Or.inr ⟨h1, by rw [← h12 hQ]; exact h2, Or.inl hQ⟩)

theorem y_kind_ne {K : TokenKind} (G : Gap) (h1 : K ≠ TokenKind.COMMA)
    (h2 : K ≠ TokenKind.RPAREN) : G.y.Kind ≠ K := by
  rcases G.hyx with ⟨hy, -⟩ | ⟨hy, -, -⟩ <;> rw [hy] <;> exact fun h => by
    first
      | exact h1 h.symm
      | exact h2 h.symm

/-- An optional part that starts with a token of kind `K`, looked for at the place of the
comma: neither run finds it. -/
theorem Cross.cross_opt_edge {eo : Prop} {K : TokenKind} {a a' b b' : M α}
    (h1 : K ≠ TokenKind.COMMA) (h2 : K ≠ TokenKind.RPAREN)
    (hK : Inert G.x.Kind → G.x.Kind ≠ K) (h : G.Cross eo G.Edge b b') :
    G.Cross eo G.Edge (if G.y.Kind = K then a else b) (if G.x.Kind = K then a' else b') := by
  rw [if_neg (y_kind_ne G h1 h2)]
  exact Cross.cross_edge_congr (fun hQ => (if_neg (hK hQ)).symm) h

/-- A token of kind `K` that a rule requires, looked for at the place of the comma: the
run on `T` fails. -/
theorem Cross.cross_req_edge {eo : Prop} {K : TokenKind} {m : String} {a a' : M α}
    (h1 : K ≠ TokenKind.COMMA) (h2 : K ≠ TokenKind.RPAREN) :
    G.Cross eo G.Edge (if G.y.Kind ≠ K then fail m else a) a' := by
  rw [if_pos (y_kind_ne G h1 h2)]
  exact Cross.cross_fail

end Gap

/-! ### Iteration bounds -/

theorem Extends.ext_refl {α : Type} (a : M α) : Extends a a := fun _ _ => rfl

theorem Extends.ext_bind {α β : Type} (a : M α) {f g : α → M β}
    (h : ∀ v, Extends (f v) (g v)) : Extends (a >>= f) (a >>= g) := by
  intro p hp
  rw [bind_apply] at hp ⊢
  rw [bind_apply]
  cases ha : a p with
  | ok v q =>
    rw [ha] at hp
    exact h v q hp
  | error m q => rfl
  | outOfRange => rfl
  | outOfFuel => rfl

theorem Extends.ext_ite {α : Type} {c : Prop} [Decidable c] {a a' b b' : M α}
    (h1 : Extends a a') (h2 : Extends b b') :
    Extends (if c then a else b) (if c then a' else b') := by
  by_cases hc : c
  · simpa [hc] using h1
  · simpa [hc] using h2

theorem parseParameters_extends (fuel : Nat) :
    ∀ node, Extends (parseParameters fuel node) (parseParameters (fuel + 1) node) := by
  induction fuel with
  | zero => intro node p hp; exact absurd rfl hp
  | succ fuel ih =>
    intro node
    rw [parseParameters, parseParameters]
    refine Extends.ext_bind _ fun k => Extends.ext_ite ?_ (Extends.ext_refl _)
    refine Extends.ext_bind _ fun nameToken => Extends.ext_ite ?_ (Extends.ext_refl _)
    refine Extends.ext_bind _ fun _ => Extends.ext_bind _ fun propertyNode => ?_
    refine Extends.ext_bind _ fun k => Extends.ext_ite ?_ (ih _)
    exact Extends.ext_bind _ fun _ => ih _

theorem parseMembers_extends (fuel : Nat) :
    ∀ node, Extends (parseMembers fuel node) (parseMembers (fuel + 1) node) := by
  induction fuel with
  | zero => intro node p hp; exact absurd rfl hp
  | succ fuel ih =>
    intro node
    rw [parseMembers, parseMembers]
    refine Extends.ext_bind _ fun k => Extends.ext_ite ?_ (Extends.ext_refl _)
    exact Extends.ext_bind _ fun propertyNode => ih _

theorem parseEntities_extends (L : Lexer) (fuel : Nat) :
    ∀ root, Extends (parseEntities L fuel root) (parseEntities L (fuel + 1) root) := by
  induction fuel with
  | zero => intro node p hp; exact absurd rfl hp
  | succ fuel ih =>
    intro node
    rw [parseEntities, parseEntities]
    refine Extends.ext_bind _ fun k => Extends.ext_ite ?_ (Extends.ext_refl _)
    exact Extends.ext_bind _ fun node => ih _

/-- A loop that returns a value under one iteration bound returns it under every bound
under which it returns at all. -/
theorem fuel_transfer {α : Type} {body : Nat → M α}
    (hext : ∀ fuel, Extends (body fuel) (body (fuel + 1))) {f g : Nat} {p q : Parser} {v : α}
    (hf : body f p = Res.ok v q) (hg : body g p ≠ Res.outOfFuel) : body g p = Res.ok v q := by
  have up : ∀ (a d : Nat), body a p ≠ Res.outOfFuel → body (a + d) p = body a p := by
    intro a d ha
    induction d with
    | zero => rfl
    | succ d ih =>
      have := hext (a + d) p (by rw [ih]; exact ha)
      rw [← Nat.add_assoc, this, ih]
  rcases Nat.le_total f g with h | h
  · obtain ⟨d, rfl⟩ := Nat.exists_eq_add_of_le h
    rw [up f d (by rw [hf]; exact fun h => nomatch h), hf]
  · obtain ⟨d, rfl⟩ := Nat.exists_eq_add_of_le h
    rw [← up g d hg, hf]

theorem parseParameters_total (T : List Token)
    (hT : ∃ W e, T = W ++ [e] ∧ e.Kind = TokenKind.EOF) (n : Nat) (hn : n < T.length)
    (node : ASTNode) : parseParameters (T.length + 1) node ⟨T, n⟩ ≠ Res.outOfFuel := by
  obtain ⟨W, e, rfl, he⟩ := hT
  have hnW : n ≤ W.length := by simp at hn; omega
  have hH := here_of_terminated sampleLexer W e he hnW
  have hsim := Frame.parseParameters_sim (selfFrame sampleLexer (W ++ [e]) e [] he)
    ((W ++ [e]).length + 1) ((W ++ [e]).length + 1) node (W.drop n) n n trivial
    (by simp; omega) hH
  intro h
  change Frame.LoopOutcome _ _ _ n n (parseParameters _ node ⟨W ++ [e], n⟩) _ at hsim
  rw [h] at hsim
  exact hsim

theorem parseMembers_total (T : List Token)
    (hT : ∃ W e, T = W ++ [e] ∧ e.Kind = TokenKind.EOF) (n : Nat) (hn : n < T.length)
    (node : ASTNode) : parseMembers (T.length + 1) node ⟨T, n⟩ ≠ Res.outOfFuel := by
  obtain ⟨W, e, rfl, he⟩ := hT
  have hnW : n ≤ W.length := by simp at hn; omega
  have hH := here_of_terminated sampleLexer W e he hnW
  have hsim := Frame.parseMembers_sim (selfFrame sampleLexer (W ++ [e]) e [] he)
    ((W ++ [e]).length + 1) ((W ++ [e]).length + 1) node (W.drop n) n n trivial
    (by simp; omega) hH
  intro h
  change Frame.LoopOutcome _ _ _ n n (parseMembers _ node ⟨W ++ [e], n⟩) _ at hsim
  rw [h] at hsim
  exact hsim

theorem parseEntities_total (L : Lexer) (T : List Token)
    (hT : ∃ W e, T = W ++ [e] ∧ e.Kind = TokenKind.EOF) (n : Nat) (hn : n < T.length)
    (node : ASTNode) : parseEntities L (T.length + 1) node ⟨T, n⟩ ≠ Res.outOfFuel := by
  obtain ⟨W, e, rfl, he⟩ := hT
  have hnW : n ≤ W.length := by simp at hn; omega
  have hH := here_of_terminated L W e he hnW
  have hsim := Frame.parseEntities_sim (selfFrame L (W ++ [e]) e [] he) he rfl
    ((W ++ [e]).length + 1) ((W ++ [e]).length + 1) node (W.drop n) n n trivial
    (by simp; omega) hH
  intro h
  change Frame.LoopOutcome _ _ _ n n (parseEntities L _ node ⟨W ++ [e], n⟩) _ at hsim
  rw [h] at hsim
  exact hsim

/-- The iteration bound of `Parse` is immaterial: on a token sequence that ends with an
end-of-input token the loop of `Parse` returns the same under every larger bound. -/
theorem parseEntities_bound (L : Lexer) (W : List Token) (e : Token)
    (he : e.Kind = TokenKind.EOF) (fuel : Nat) (h : (W ++ [e]).length + 1 ≤ fuel) :
    parseEntities L fuel (rootOf []) ⟨W ++ [e], 0⟩ = Parse L (NewParser (W ++ [e])) := by
  rw [parse_eq_parseEntities]
  obtain ⟨d, rfl⟩ := Nat.exists_eq_add_of_le h
  have htot := parseEntities_total L (W ++ [e]) ⟨W, e, rfl, he⟩ 0 (by simp) (rootOf [])
  induction d with
  | zero => rfl
  | succ d ih =>
    have hd := ih (by omega)
    rw [← Nat.add_assoc, parseEntities_extends L _ _ _ (by rw [hd]; exact htot), hd]

namespace Gap

variable {G : Gap} {α β : Type}

theorem any_lt {n n' : Nat} (h : G.Any n n') : n' < G.T'.length := by
  have key : ∀ {U : List Token} {t : Token}, G.T'.drop n' = t :: U → n' < G.T'.length := by
    intro U t hd
    by_contra hlt
    rw [List.drop_eq_nil_of_le (by omega)] at hd
    exact absurd hd (by simp)
  rcases h with ⟨t, ⟨W, h⟩ | ⟨U, h⟩⟩ | h
  · exact key h.2.1
  · exact key h.2
  · exact key h.2.1

theorem top_any {n n' : Nat} (h : G.Top n n') : G.Any n n' := by
  rcases h with h | ⟨h, -⟩
  · exact Or.inl h
  · exact Or.inr h

theorem Out.out_congr {eo : Prop} {n n' : Nat} {r : Res α} {r1 r2 : Res α}
    (h : G.Out eo n n' r r1) (h12 : ∀ v q, r1 = Res.ok v q → r2 = Res.ok v q) :
    G.Out eo n n' r r2 := by
  intro v q hr
  obtain ⟨m, m', hq, hcl⟩ := h v q hr
  refine ⟨m, m', hq, ?_⟩
  rcases hcl with ⟨h1, h2, h3⟩ | ⟨h0, h1, h2, h3⟩ | ⟨h1, h2, h3⟩
  · exact Or.inl ⟨h1, h2, h12 _ _ h3⟩
  · exact Or.inr (Or.inl ⟨h0, h1, h2, fun hQ => h12 _ _ (h3 hQ)⟩)
  · exact Or.inr (Or.inr ⟨h1, h12 _ _ h2, h3⟩)

theorem Cross.cross_pure_at {eo : Prop} {t : Token} (v : α) :
    G.Cross eo (G.Tok t) (pure v) (pure v) :=
  (Cross.cross_pure_off v).cross_mono fun _ _ h => ⟨t, h⟩

theorem Cross.cross_cur_off {eo : Prop} {k k' : Token → M α}
    (hin : ∀ t, G.Cross eo (G.Tok t) (k t) (k' t)) :
    G.Cross eo G.Off (currentToken >>= k) (currentToken >>= k') := by
  rintro n n' ⟨t, h⟩
  exact Cross.cross_cur_at (hin t) n n' h

theorem Cross.cross_kind_at {eo : Prop} {t : Token} {k k' : TokenKind → M α}
    (h : G.Cross eo (G.Tok t) (k t.Kind) (k' t.Kind)) :
    G.Cross eo (G.Tok t) (currentTokenKind >>= k) (currentTokenKind >>= k') := by
  rw [currentTokenKind_bind, currentTokenKind_bind]
  exact Cross.cross_cur_at h

/-- A run that does not stop at the place of the comma, followed by the rest of its
rule. -/
theorem Cross.cross_bind_off {eo : Prop} {C : Nat → Nat → Prop} {a a' : M α}
    {f f' : α → M β}
    (ha : G.Cross False C a a') (hf : ∀ v, G.Cross eo G.Off (f v) (f' v)) :
    G.Cross eo C (a >>= f) (a' >>= f') := by
  intro n n' hC w q hr
  rw [bind_apply] at hr
  cases h : a ⟨G.T, n⟩ with
  | ok v q1 =>
    rw [h] at hr
    obtain ⟨m, m', hq, hcl⟩ := ha n n' hC v q1 h
    subst hq
    rw [bind_apply]
    rcases hcl with ⟨h1, ⟨t, W, h2⟩, h3⟩ | ⟨h0, -⟩ | ⟨⟨t, U, h1⟩, h2, h3⟩
    · rw [h3]
      refine Out.out_from (hf v m m' ⟨t, Or.inl ⟨W, h2⟩⟩) (fun _ => h1)
        (fun _ => ?_) (fun ⟨_, _, hp⟩ => (pre_post_absurd h2 hp).elim) w q hr
      obtain ⟨t0, W0, h0⟩ := h1
      exact ⟨_, h0⟩
    · exact h0.elim
    · rw [h2]
      obtain ⟨m2, m2', hq2, hcl2⟩ := hf v m m' ⟨t, Or.inr ⟨U, h1⟩⟩ w q hr
      refine ⟨m2, m2', hq2, ?_⟩
      rcases hcl2 with ⟨⟨_, _, hp⟩, -⟩ | ⟨-, ⟨_, hp⟩, -⟩ | ⟨k1, k2, -⟩
      · exact (pre_post_absurd hp h1).elim
      · exact (pre_post_absurd hp h1).elim
      · exact Or.inr (Or.inr ⟨k1, k2, h3⟩)
  | error m q1 => rw [h] at hr; exact nomatch hr
  | outOfRange => rw [h] at hr; exact nomatch hr
  | outOfFuel => rw [h] at hr; exact nomatch hr

/-- A loop followed by the rest of its rule: the iteration bounds of the two runs differ,
and each is enough. -/
theorem Cross.cross_loop {eo : Prop} {C : Nat → Nat → Prop} {body : Nat → M α}
    {f f' : α → M β}
    (hC : ∀ n n', C n n' → G.Any n n')
    (hbody : ∀ fuel, G.Cross False C (body fuel) (body fuel))
    (hext : ∀ fuel, Extends (body fuel) (body (fuel + 1)))
    (htot : ∀ n', n' < G.T'.length → body (G.T'.length + 1) ⟨G.T', n'⟩ ≠ Res.outOfFuel)
    (hf : ∀ v, G.Cross eo G.Off (f v) (f' v)) :
    G.Cross eo C (loopFuel >>= fun fuel => body fuel >>= f)
      (loopFuel >>= fun fuel => body fuel >>= f') := by
  intro n n' hCn
  rw [bind_apply, bind_apply]
  simp only [loopFuel]
  have hlt := any_lt (hC n n' hCn)
  have hb : G.Cross False (fun a b => a = n ∧ b = n') (body (G.T.length + 1))
      (body (G.T'.length + 1)) := by
    rintro a b ⟨rfl, rfl⟩
    exact Out.out_congr (hbody _ a b hCn) fun v q h => fuel_transfer hext h (htot b hlt)
  exact Cross.cross_bind_off hb hf n n' ⟨rfl, rfl⟩

theorem Cross.cross_of_stuck {eo : Prop} {a a' : M α} (h : G.Stuck a) :
    G.Cross eo G.Edge a a' :=
  fun n _ hE v q hr => absurd hr (h n v q hE.1)

theorem parseField_cross (G : Gap) (name visibility : String) :
    G.Cross True G.Any (parseField name visibility) (parseField name visibility) := by
  unfold parseField
  refine Cross.cross_kind (fun t => Cross.cross_bind ?_ fun valueType => ?_)
    (Cross.cross_bind ?_ fun valueType => ?_)
  case refine_1 =>
    -- the type annotation, both cursors on `t`
    refine Cross.cross_ite (fun _ => ?_) (fun _ => Cross.cross_pure_at _)
    refine Cross.cross_advance fun _ => ?_
    refine Cross.cross_cur (fun t2 => ?_)
      (Cross.cross_req_edge (fun h => nomatch h) (fun h => nomatch h))
    refine Cross.cross_ite (fun _ => Cross.cross_fail) (fun _ => ?_)
    refine Cross.cross_advance fun _ => ?_
    refine Cross.cross_cur (fun t3 => ?_)
      (Cross.cross_opt_edge (fun h => nomatch h) (fun h => nomatch h)
        (fun h => h.2.2.2.2.1) (Cross.cross_pure_edge _))
    refine Cross.cross_ite (fun _ => ?_) (fun _ => Cross.cross_pure_at _)
    refine Cross.cross_advance fun _ => ?_
    refine Cross.cross_cur (fun t4 => ?_)
      (Cross.cross_req_edge (fun h => nomatch h) (fun h => nomatch h))
    refine Cross.cross_ite (fun _ => Cross.cross_fail) (fun _ => ?_)
    exact Cross.cross_advance fun _ => Cross.cross_pure _
  case refine_3 =>
    exact Cross.cross_opt_edge (fun h => nomatch h) (fun h => nomatch h)
      (fun h => h.2.1) (Cross.cross_pure_edge _)
  all_goals
    refine Cross.cross_kind (fun t => Cross.cross_bind ?_ fun _ => Cross.cross_pure _)
      (Cross.cross_bind ?_ fun _ => Cross.cross_pure _)
    · refine Cross.cross_ite (fun _ => ?_) (fun _ => Cross.cross_pure_at _)
      refine Cross.cross_advance fun _ => ?_
      refine Cross.cross_cur (fun t2 => ?_)
        (Cross.cross_req_edge (fun h => nomatch h) (fun h => nomatch h))
      refine Cross.cross_ite (fun _ => Cross.cross_fail) (fun _ => ?_)
      exact Cross.cross_advance fun _ => Cross.cross_pure _
    · exact Cross.cross_opt_edge (fun h => nomatch h) (fun h => nomatch h)
        (fun h => h.2.2.2.2.2) (Cross.cross_pure_edge _)

end Gap

/-- The parameter loop returns a value only when it starts on a `)`, on end-of-input or
on an identifier. -/
theorem parseParameters_ok_head {fuel : Nat} {node : ASTNode} {T : List Token} {n : Nat}
    {t : Token} {rest : List Token} {v : ASTNode} {q : Parser} (hd : T.drop n = t :: rest)
    (h : parseParameters fuel node ⟨T, n⟩ = Res.ok v q) :
    t.Kind = TokenKind.RPAREN ∨ t.Kind = TokenKind.EOF ∨ t.Kind = TokenKind.IDENTIFIER := by
  cases fuel with
  | zero => exact absurd h (fun h => nomatch h)
  | succ fuel =>
    by_cases h1 : t.Kind = TokenKind.RPAREN
    · exact Or.inl h1
    by_cases h2 : t.Kind = TokenKind.EOF
    · exact Or.inr (Or.inl h2)
    by_cases h3 : t.Kind = TokenKind.IDENTIFIER
    · exact Or.inr (Or.inr h3)
    exfalso
    simp only [parseParameters, bind_apply, currentTokenKind_of_drop hd,
      currentToken_of_drop hd] at h
    rw [if_pos ⟨h1, h2⟩] at h
    simp only [bind_apply, currentToken_of_drop hd] at h
    rw [if_neg h3] at h
    exact absurd h (fun h => nomatch h)

namespace Gap

variable {α : Type}

/-- The place of the comma, reached behind a parameter: the run that has the comma passes
it, and both runs go on with the same tokens. -/
theorem comma_cross (G : Gap) (body : M α) (hbody : G.Cross False G.Top body body)
    (hhead : ∀ n t rest v q, G.T.drop n = t :: rest → body ⟨G.T, n⟩ = Res.ok v q →
      t.Kind = TokenKind.RPAREN ∨ t.Kind = TokenKind.EOF ∨ t.Kind = TokenKind.IDENTIFIER) :
    G.Cross False G.Edge
      (if G.y.Kind = TokenKind.COMMA then advance >>= fun _ => body else body)
      (if G.x.Kind = TokenKind.COMMA then advance >>= fun _ => body else body) := by
  intro n n' hE v q hr
  have hdT : G.T.drop n = G.y :: G.R := hE.1
  have hdT' : G.T'.drop n' = G.x :: G.R' := hE.2.1
  rcases G.hyx with ⟨hy, hR⟩ | ⟨hy, hx, hR'⟩
  · rw [if_pos hy, bind_apply] at hr
    rw [hR] at hdT
    rw [advance_of_drop hdT] at hr
    have hd1 := drop_succ_of_drop hdT
    have hk := hhead _ _ _ _ _ hd1 hr
    have hxc : G.x.Kind ≠ TokenKind.COMMA := by
      rcases hk with h | h | h <;> rw [h] <;> exact fun h => nomatch h
    have hQ : Inert G.x.Kind := by
      rcases hk with h | h | h <;> simp [Inert, h]
    have hPost : G.Post (G.x :: G.R') (n + 1) n' := ⟨hd1, hdT'⟩
    obtain ⟨m, m', hq, hcl⟩ := hbody (n + 1) n' (Or.inl ⟨G.x, Or.inr ⟨G.R', hPost⟩⟩) v q hr
    refine ⟨m, m', hq, ?_⟩
    rw [if_neg hxc]
    rcases hcl with ⟨⟨_, _, hp⟩, -⟩ | ⟨h0, -⟩ | ⟨k1, k2, -⟩
    · exact (pre_post_absurd hp hPost).elim
    · exact h0.elim
    · exact Or.inr (Or.inr ⟨k1, k2, Or.inl hQ⟩)
  · have hyc : G.y.Kind ≠ TokenKind.COMMA := by rw [hy]; exact fun h => nomatch h
    rw [if_neg hyc] at hr
    rw [hR'] at hdT'
    have hQ : Inert G.x.Kind := by simp [Inert, hx]
    have hPost : G.Post (G.y :: G.R) n (n' + 1) := ⟨hdT, drop_succ_of_drop hdT'⟩
    obtain ⟨m, m', hq, hcl⟩ := hbody n (n' + 1) (Or.inl ⟨G.y, Or.inr ⟨G.R, hPost⟩⟩) v q hr
    refine ⟨m, m', hq, ?_⟩
    rw [if_pos hx, bind_apply, advance_of_drop hdT']
    rcases hcl with ⟨⟨_, _, hp⟩, -⟩ | ⟨h0, -⟩ | ⟨k1, k2, -⟩
    · exact (pre_post_absurd hp hPost).elim
    · exact h0.elim
    · exact Or.inr (Or.inr ⟨k1, k2, Or.inl hQ⟩)

theorem parseParameters_cross (G : Gap) (fuel : Nat) :
    ∀ node, G.Cross False G.Top (parseParameters fuel node) (parseParameters fuel node) := by
  induction fuel with
  | zero => intro node n n' _ v q hr; exact nomatch hr
  | succ fuel ih =>
    intro node
    simp only [parseParameters]
    refine Cross.cross_kind_top (fun t => ?_) (fun hy => ?_)
    · refine Cross.cross_ite (fun _ => ?_) (fun _ => Cross.cross_pure_at _)
      refine Cross.cross_cur_at ?_
      refine Cross.cross_ite (fun _ => ?_) (fun _ => Cross.cross_fail)
      refine Cross.cross_advance fun _ => ?_
      refine Cross.cross_bind (parseField_cross G _ _) fun propertyNode => ?_
      refine Cross.cross_kind (fun t2 => ?_) ?_
      · refine Cross.cross_ite (fun hc => ?_)
          (fun _ => (ih _).cross_mono fun _ _ h => Or.inl ⟨t2, h⟩)
        exact Cross.cross_advance_top (Or.inl hc) fun _ => ih _
      · exact comma_cross G _ (ih _)
          (fun _ _ _ _ _ hd h => parseParameters_ok_head hd h)
    · refine Cross.cross_of_stuck ?_
      intro n v q hd
      simp [bind_apply, currentToken_of_drop hd, hy, fail]

theorem parseMethod_cross (G : Gap) (t : Token) (ht : t.Kind = TokenKind.LPAREN)
    (name visibility : String) :
    G.Cross True (G.Tok t) (parseMethod name visibility) (parseMethod name visibility) := by
  unfold parseMethod
  refine Cross.cross_advance_top (Or.inr ht) fun _ => ?_
  refine Cross.cross_loop (fun _ _ h => top_any h) (fun fuel => parseParameters_cross G fuel _)
    (fun fuel => parseParameters_extends fuel _)
    (fun n' hn => parseParameters_total _ G.hterm n' hn _) (fun methodNode => ?_)
  refine Cross.cross_cur_off fun t2 => ?_
  refine Cross.cross_ite (fun _ => Cross.cross_fail) (fun _ => ?_)
  refine Cross.cross_advance fun _ => ?_
  refine Cross.cross_kind (fun t3 => ?_)
    (Cross.cross_opt_edge (fun h => nomatch h) (fun h => nomatch h)
      (fun h => h.2.1) (Cross.cross_pure_edge _))
  refine Cross.cross_ite (fun _ => ?_) (fun _ => Cross.cross_pure_at _)
  refine Cross.cross_advance fun _ => ?_
  refine Cross.cross_cur (fun t4 => ?_)
    (Cross.cross_req_edge (fun h => nomatch h) (fun h => nomatch h))
  refine Cross.cross_ite (fun _ => Cross.cross_fail) (fun _ => ?_)
  refine Cross.cross_advance fun _ => ?_
  refine Cross.cross_cur (fun t5 => ?_)
    (Cross.cross_opt_edge (fun h => nomatch h) (fun h => nomatch h)
      (fun h => h.2.2.2.2.1) (Cross.cross_pure_edge _))
  refine Cross.cross_ite (fun _ => ?_) (fun _ => Cross.cross_pure_at _)
  refine Cross.cross_advance fun _ => ?_
  refine Cross.cross_cur (fun t6 => ?_)
    (Cross.cross_req_edge (fun h => nomatch h) (fun h => nomatch h))
  refine Cross.cross_ite (fun _ => Cross.cross_fail) (fun _ => ?_)
  exact Cross.cross_advance fun _ => Cross.cross_pure _

theorem parseMember_cross (G : Gap) (t : Token) :
    G.Cross True (G.Tok t) parseMember parseMember := by
  unfold parseMember
  refine Cross.cross_cur_at (Cross.cross_bind ?_ fun visibility => ?_)
  · refine Cross.cross_ite (fun _ => ?_) (fun _ => Cross.cross_pure_at _)
    exact Cross.cross_advance fun _ => Cross.cross_pure _
  · refine Cross.cross_cur (fun t2 => ?_)
      (Cross.cross_req_edge (fun h => nomatch h) (fun h => nomatch h))
    refine Cross.cross_ite (fun _ => Cross.cross_fail) (fun _ => ?_)
    refine Cross.cross_advance fun _ => ?_
    refine Cross.cross_kind (fun t3 => ?_)
      (Cross.cross_opt_edge (fun h => nomatch h) (fun h => nomatch h)
        (fun h => h.2.2.2.1) ((parseField_cross G _ _).cross_mono fun _ _ h => Or.inr h))
    exact Cross.cross_ite (fun h => parseMethod_cross G t3 h _ _)
      (fun _ => (parseField_cross G _ _).cross_mono fun _ _ h => Or.inl ⟨t3, h⟩)

theorem parseMembers_cross (G : Gap) (fuel : Nat) :
    ∀ node, G.Cross False G.Any (parseMembers fuel node) (parseMembers fuel node) := by
  induction fuel with
  | zero => intro node n n' _ v q hr; exact nomatch hr
  | succ fuel ih =>
    intro node
    simp only [parseMembers]
    refine Cross.cross_kind (fun t => ?_) ?_
    · refine Cross.cross_ite (fun _ => ?_) (fun _ => Cross.cross_pure_at _)
      exact Cross.cross_bind (parseMember_cross G t) fun propertyNode => ih _
    · refine Cross.cross_of_stuck ?_
      intro n v q hd
      rcases G.hyx with ⟨hy, -⟩ | ⟨hy, -, -⟩ <;>
        simp [parseMember, bind_apply, currentToken_of_drop hd, hy, fail, pure_apply]

theorem parseClass_cross (G : Gap) (t : Token) :
    G.Cross True (G.Tok t) parseClass parseClass := by
  unfold parseClass
  refine Cross.cross_advance fun _ => ?_
  refine Cross.cross_cur (fun t2 => ?_)
    (Cross.cross_req_edge (fun h => nomatch h) (fun h => nomatch h))
  refine Cross.cross_ite (fun _ => Cross.cross_fail) (fun _ => ?_)
  refine Cross.cross_advance fun _ => ?_
  refine Cross.cross_kind (fun t3 => ?_)
    (Cross.cross_opt_edge (fun h => nomatch h) (fun h => nomatch h)
      (fun h => h.2.2.1) (Cross.cross_pure_edge _))
  refine Cross.cross_ite (fun _ => ?_) (fun _ => Cross.cross_pure_at _)
  refine Cross.cross_advance fun _ => ?_
  refine Cross.cross_loop (fun _ _ h => h) (fun fuel => parseMembers_cross G fuel _)
    (fun fuel => parseMembers_extends fuel _)
    (fun n' hn => parseMembers_total _ G.hterm n' hn _) (fun classNode => ?_)
  refine Cross.cross_cur_off fun t4 => ?_
  refine Cross.cross_ite (fun _ => Cross.cross_fail) (fun _ => ?_)
  exact Cross.cross_advance fun _ => Cross.cross_pure _

theorem parseInterface_cross (G : Gap) (t : Token) :
    G.Cross True (G.Tok t) parseInterface parseInterface := by
  unfold parseInterface
  refine Cross.cross_advance fun _ => ?_
  refine Cross.cross_cur (fun t2 => ?_)
    (Cross.cross_req_edge (fun h => nomatch h) (fun h => nomatch h))
  refine Cross.cross_ite (fun _ => Cross.cross_fail) (fun _ => ?_)
  exact Cross.cross_advance fun _ => Cross.cross_pure _

theorem parseRelationship_cross (G : Gap) :
    G.Cross True G.Any (parseRelationship G.L) (parseRelationship G.L) := by
  have hno : ¬ G.L.IsRelationshipKind G.y.Kind = true := by rw [G.hrel]; simp
  unfold parseRelationship
  refine Cross.cross_cur (fun t => ?_)
    (Cross.cross_req_edge (fun h => nomatch h) (fun h => nomatch h))
  refine Cross.cross_ite (fun _ => Cross.cross_fail) (fun _ => ?_)
  refine Cross.cross_advance fun _ => ?_
  refine Cross.cross_cur (fun t2 => Cross.cross_bind ?_ fun relationshipNode => ?_)
    (Cross.cross_bind ?_ fun relationshipNode => ?_)
  case refine_1 =>
    refine Cross.cross_ite (fun _ => ?_) (fun _ => Cross.cross_pure_at _)
    exact Cross.cross_advance fun _ => Cross.cross_pure _
  case refine_3 =>
    exact Cross.cross_opt_edge (fun h => nomatch h) (fun h => nomatch h)
      (fun h => h.1) (Cross.cross_pure_edge _)
  all_goals
    refine Cross.cross_cur (fun t3 => ?_) ?_
    case refine_2 =>
      rw [if_pos hno]
      exact Cross.cross_fail
    refine Cross.cross_ite (fun _ => Cross.cross_fail) (fun _ => ?_)
    refine Cross.cross_advance fun _ => ?_
    refine Cross.cross_cur (fun t4 => Cross.cross_bind ?_ fun relationshipNode => ?_)
      (Cross.cross_bind ?_ fun relationshipNode => ?_)
    case refine_1 =>
      refine Cross.cross_ite (fun _ => ?_) (fun _ => Cross.cross_pure_at _)
      exact Cross.cross_advance fun _ => Cross.cross_pure _
    case refine_3 =>
      exact Cross.cross_opt_edge (fun h => nomatch h) (fun h => nomatch h)
        (fun h => h.1) (Cross.cross_pure_edge _)
    all_goals
      refine Cross.cross_cur (fun t5 => ?_)
        (Cross.cross_req_edge (fun h => nomatch h) (fun h => nomatch h))
      refine Cross.cross_ite (fun _ => Cross.cross_fail) (fun _ => ?_)
      refine Cross.cross_advance fun _ => ?_
      refine Cross.cross_cur (fun t6 => ?_)
        (Cross.cross_opt_edge (fun h => nomatch h) (fun h => nomatch h)
          (fun h => h.2.1) (Cross.cross_pure_edge _))
      refine Cross.cross_ite (fun _ => ?_) (fun _ => Cross.cross_pure_at _)
      refine Cross.cross_advance fun _ => ?_
      refine Cross.cross_cur (fun t7 => ?_)
        (Cross.cross_req_edge (fun h => nomatch h) (fun h => nomatch h))
      refine Cross.cross_ite (fun _ => Cross.cross_fail) (fun _ => ?_)
      exact Cross.cross_advance fun _ => Cross.cross_pure _

theorem parseEntity_cross (G : Gap) :
    G.Cross True G.Any (parseEntity G.L) (parseEntity G.L) := by
  unfold parseEntity
  refine Cross.cross_cur (fun t => ?_) ?_
  · cases hk : t.Kind
    case CLASS => exact parseClass_cross G t
    case INTERFACE => exact parseInterface_cross G t
    case IDENTIFIER =>
      exact (parseRelationship_cross G).cross_mono fun _ _ h => Or.inl ⟨t, h⟩
    all_goals exact Cross.cross_fail
  · rcases G.hyx with ⟨hy, -⟩ | ⟨hy, -, -⟩ <;> simp only [hy] <;> exact Cross.cross_fail

theorem parseEntities_cross (G : Gap) (fuel : Nat) :
    ∀ root, G.Cross False G.Any (parseEntities G.L fuel root) (parseEntities G.L fuel root) := by
  induction fuel with
  | zero => intro node n n' _ v q hr; exact nomatch hr
  | succ fuel ih =>
    intro node
    simp only [parseEntities]
    refine Cross.cross_kind (fun t => ?_) ?_
    · refine Cross.cross_ite (fun _ => ?_) (fun _ => Cross.cross_pure_at _)
      exact Cross.cross_bind ((parseEntity_cross G).cross_mono fun _ _ h => Or.inl ⟨t, h⟩)
        fun node => ih _
    · refine Cross.cross_of_stuck ?_
      intro n v q hd
      rcases G.hyx with ⟨hy, -⟩ | ⟨hy, -, -⟩ <;>
        simp [parseEntity, bind_apply, currentToken_of_drop hd, hy, fail]

/-- The two runs of `Parse`: a node that the run on `T` returns is returned by the run
on `T'`. -/
theorem parse_cross (G : Gap) (h0 : G.Any 0 0) {root : ASTNode} {q : Parser}
    (h : Parse G.L (NewParser G.T) = Res.ok root q) :
    ∃ q', Parse G.L (NewParser G.T') = Res.ok root q' := by
  rw [parse_eq_parseEntities] at h
  obtain ⟨m, m', -, hcl⟩ := parseEntities_cross G _ _ 0 0 h0 root q h
  have key : ∀ q', parseEntities G.L (G.T.length + 1) (rootOf []) ⟨G.T', 0⟩ = Res.ok root q' →
      Parse G.L (NewParser G.T') = Res.ok root q' := by
    intro q' h'
    rw [parse_eq_parseEntities]
    exact fuel_transfer (fun fuel => parseEntities_extends G.L fuel _) h'
      (parseEntities_total G.L _ G.hterm 0 (any_lt h0) _)
  rcases hcl with ⟨-, -, h3⟩ | ⟨h0, -⟩ | ⟨-, h2, -⟩
  · exact ⟨_, key _ h3⟩
  · exact h0.elim
  · exact ⟨_, key _ h2⟩

end Gap

theorem any_of_pre (G : Gap) {W : List Token} (h : G.Pre W 0 0) : G.Any 0 0 := by
  cases W with
  | nil => exact Or.inr h
  | cons t W => exact Or.inl ⟨t, Or.inl ⟨W, h⟩⟩

/-- C20: when the comma is not a relationship-operator kind, a comma can be left out:
if `Parse` returns a node on a token sequence that ends with an end-of-input token, it
returns the same node on the sequence without any one of its COMMA tokens. -/
theorem parse_without_comma (L : Lexer)
    (hrel : L.IsRelationshipKind TokenKind.COMMA = false) (A B : List Token) (c e : Token)
    (hc : c.Kind = TokenKind.COMMA) (he : e.Kind = TokenKind.EOF) (root : ASTNode)
    (q : Parser) (h : Parse L (NewParser (A ++ c :: (B ++ [e]))) = Res.ok root q) :
    ∃ q', Parse L (NewParser (A ++ (B ++ [e]))) = Res.ok root q' := by
  obtain ⟨x, Z, hxZ⟩ : ∃ x Z, B ++ [e] = x :: Z := by
    cases hB : B ++ [e] with
    | nil => simp at hB
    | cons x Z => exact ⟨x, Z, rfl⟩
  rw [hxZ] at h ⊢
  have hterm : ∃ W e, A ++ x :: Z = W ++ [e] ∧ e.Kind = TokenKind.EOF :=
    ⟨A ++ B, e, by rw [← hxZ, List.append_assoc], he⟩
  have hpre : (deletionGap L A c x Z hc hrel hterm).Pre A 0 0 :=
    ⟨rfl, rfl, fun hy => by
      have : c.Kind = TokenKind.RPAREN := hy
      rw [hc] at this
      exact nomatch this⟩
  exact Gap.parse_cross (deletionGap L A c x Z hc hrel hterm) (any_of_pre _ hpre) h

/-- Witness of C20: the class `A` with the method `f ( x , y )`, and `f ( x y )`. -/
theorem parse_without_comma_witness :
    sampleLexer.IsRelationshipKind TokenKind.COMMA = false ∧
    (⟨TokenKind.COMMA, ","⟩ : Token).Kind = TokenKind.COMMA ∧
    (⟨TokenKind.EOF, ""⟩ : Token).Kind = TokenKind.EOF ∧
    ∃ root q,
      Parse sampleLexer (NewParser (sampleTrailingComma.take 6 ++ ⟨TokenKind.COMMA, ","⟩ ::
        ([⟨TokenKind.IDENTIFIER, "y"⟩, ⟨TokenKind.RPAREN, ")"⟩, ⟨TokenKind.RBRACE, "\x7d"⟩]
          ++ [⟨TokenKind.EOF, ""⟩]))) = Res.ok root q ∧
      ∃ q', Parse sampleLexer (NewParser (sampleTrailingComma.take 6 ++
        ([⟨TokenKind.IDENTIFIER, "y"⟩, ⟨TokenKind.RPAREN, ")"⟩, ⟨TokenKind.RBRACE, "\x7d"⟩]
          ++ [⟨TokenKind.EOF, ""⟩]))) = Res.ok root q' :=
  ⟨rfl, rfl, rfl, _, _, rfl,
    parse_without_comma sampleLexer rfl (sampleTrailingComma.take 6)
      [⟨TokenKind.IDENTIFIER, "y"⟩, ⟨TokenKind.RPAREN, ")"⟩, ⟨TokenKind.RBRACE, "\x7d"⟩]
      ⟨TokenKind.COMMA, ","⟩ ⟨TokenKind.EOF, ""⟩ rfl rfl _ _ rfl⟩

/-- Counterexample to C15: the method `f ( x , )` has one parameter and is accepted, and
with one more comma between that parameter and the `)`, as `f ( x , , )`, it is rejected:
the parameter loop passes one comma behind a parameter, and the second one is not a
parameter name. -/
theorem parse_second_trailing_comma :
    Parse sampleLexer (NewParser sampleTrailingComma)
      = Res.ok sampleMethodRoot ⟨sampleTrailingComma, 9⟩ ∧
    sampleTrailingComma.drop 4
      = [⟨TokenKind.LPAREN, "("⟩, ⟨TokenKind.IDENTIFIER, "x"⟩, ⟨TokenKind.COMMA, ","⟩,
          ⟨TokenKind.RPAREN, ")"⟩, ⟨TokenKind.RBRACE, "\x7d"⟩, ⟨TokenKind.EOF, ""⟩] ∧
    Parse sampleLexer (NewParser (sampleTrailingComma.take 7 ++ ⟨TokenKind.COMMA, ","⟩ ::
        sampleTrailingComma.drop 7))
      = Res.error "expected parameter name or ), got ,"
          ⟨sampleTrailingComma.take 7 ++ ⟨TokenKind.COMMA, ","⟩ ::
            sampleTrailingComma.drop 7, 7⟩ :=
  ⟨rfl, rfl, rfl⟩

/-- C15, amended: when `)` is not a relationship-operator kind and `Parse` returns a node
on a token sequence that ends with an end-of-input token, it returns the same node on
the sequence with a comma put in front of a `)` that follows neither a `(` (the parameter
list has a parameter) nor a comma (the last parameter is directly in front of the `)`). -/
theorem parse_with_trailing_comma (L : Lexer)
    (hrel : L.IsRelationshipKind TokenKind.RPAREN = false) (A B : List Token)
    (a rp c e : Token) (ha1 : a.Kind ≠ TokenKind.LPAREN) (ha2 : a.Kind ≠ TokenKind.COMMA)
    (hrp : rp.Kind = TokenKind.RPAREN) (hc : c.Kind = TokenKind.COMMA)
    (he : e.Kind = TokenKind.EOF) (root : ASTNode) (q : Parser)
    (h : Parse L (NewParser (A ++ a :: rp :: (B ++ [e]))) = Res.ok root q) :
    ∃ q', Parse L (NewParser (A ++ a :: c :: rp :: (B ++ [e]))) = Res.ok root q' := by
  have hT : A ++ a :: rp :: (B ++ [e]) = (A ++ [a]) ++ rp :: (B ++ [e]) := by simp
  have hT' : A ++ a :: c :: rp :: (B ++ [e]) = (A ++ [a]) ++ c :: rp :: (B ++ [e]) := by simp
  rw [hT] at h
  rw [hT']
  have hterm : ∃ W e', (A ++ [a]) ++ c :: rp :: (B ++ [e]) = W ++ [e'] ∧
      e'.Kind = TokenKind.EOF :=
    ⟨A ++ a :: c :: rp :: B, e, by simp, he⟩
  have hpre : (insertionGap L (A ++ [a]) rp c (B ++ [e]) hrp hc hrel hterm).Pre
      (A ++ [a]) 0 0 :=
    ⟨rfl, rfl, fun _ t ht => by
      rw [List.getLast?_append, List.getLast?_singleton] at ht
      simp at ht
      subst ht
      exact ⟨ha2, ha1⟩⟩
  exact Gap.parse_cross (insertionGap L (A ++ [a]) rp c (B ++ [e]) hrp hc hrel hterm)
    (any_of_pre _ hpre) h

/-- Witness of C15, amended: the class `A` with the method `f ( x )`, and `f ( x , )`. -/
theorem parse_with_trailing_comma_witness :
    sampleLexer.IsRelationshipKind TokenKind.RPAREN = false ∧
    (⟨TokenKind.IDENTIFIER, "x"⟩ : Token).Kind ≠ TokenKind.LPAREN ∧
    (⟨TokenKind.IDENTIFIER, "x"⟩ : Token).Kind ≠ TokenKind.COMMA ∧
    Parse sampleLexer (NewParser (sampleTrailingComma.take 5 ++ ⟨TokenKind.IDENTIFIER, "x"⟩ ::
        ⟨TokenKind.RPAREN, ")"⟩ :: ([⟨TokenKind.RBRACE, "\x7d"⟩] ++ [⟨TokenKind.EOF, ""⟩])))
      = Res.ok sampleMethodRoot
          ⟨sampleTrailingComma.take 5 ++ ⟨TokenKind.IDENTIFIER, "x"⟩ ::
            ⟨TokenKind.RPAREN, ")"⟩ :: ([⟨TokenKind.RBRACE, "\x7d"⟩] ++ [⟨TokenKind.EOF, ""⟩]),
            8⟩ ∧
    ∃ q', Parse sampleLexer (NewParser (sampleTrailingComma.take 5 ++
        ⟨TokenKind.IDENTIFIER, "x"⟩ :: ⟨TokenKind.COMMA, ","⟩ :: ⟨TokenKind.RPAREN, ")"⟩ ::
        ([⟨TokenKind.RBRACE, "\x7d"⟩] ++ [⟨TokenKind.EOF, ""⟩])))
      = Res.ok sampleMethodRoot q' :=
  ⟨rfl, by decide, by decide, rfl,
    parse_with_trailing_comma sampleLexer rfl (sampleTrailingComma.take 5)
      [⟨TokenKind.RBRACE, "\x7d"⟩] ⟨TokenKind.IDENTIFIER, "x"⟩ ⟨TokenKind.RPAREN, ")"⟩
      ⟨TokenKind.COMMA, ","⟩ ⟨TokenKind.EOF, ""⟩ (by decide) (by decide) rfl rfl rfl
      sampleMethodRoot _ rfl⟩

end LumaParser
